import Mathlib

/-!
Verification development for the go-cmp comparison engine
(`Equal` / `Diff` in compare.go, `Options` filtering in options.go,
the default reporter, and the sequence/map traversal).

The Go source is shallowly embedded: Go values become an inductive
`GoVal` (pointers are addresses into an explicit heap so that cyclic
data is expressible), the recursive walker `state.compareAny` becomes a
fuel-indexed function `compareAny`, panics become `Except.error`, and
user-supplied comparer/transformer/filter functions live in an
environment of Lean functions indexed by identity tokens (mirroring the
function-identity comparisons the source performs).

Parts of the repository referenced but not present in the sources
(`internal/diff.Difference`, `internal/diff.Result`, the `validator`
option, and the `Path`/`PathStep` data model) are modelled from the
spec; each such definition carries a doc comment saying so.
-/

namespace GoCmp

/-- Types of compared values (`reflect.Type` restricted to the kinds the
engine dispatches on in `compareAny`).  Struct field lists live in a
separate registry (`Ctx.structFields`), mirroring how `reflect` resolves
a type descriptor by name. -/
inductive Ty where
  | tBool : Ty
  | tInt : Ty
  | tStr : Ty
  | tFunc : Ty
  | tIface : Ty
  | tPtr (elem : Ty) : Ty
  | tSlice (elem : Ty) : Ty
  | tMap (key : Ty) (elem : Ty) : Ty
  | tStruct (name : String) : Ty
  deriving DecidableEq, Repr

/-- A float map-key component: either a finite value or a NaN.  The tag
on `nan` distinguishes distinct NaN-keyed entries a Go map can hold; Go
`==` never equates NaNs, so the tag is invisible to lookup. -/
inductive FloatK where
  | fin (v : Int) : FloatK
  | nan (tag : Nat) : FloatK
  deriving DecidableEq, Repr

/-- Map keys (the comparable key domain used by `compareMap` and
`sortKeys`). -/
inductive GoKey where
  | kInt (i : Int) : GoKey
  | kStr (s : String) : GoKey
  | kFl (f : FloatK) : GoKey
  deriving DecidableEq, Repr

/-- Go `==` on map keys: NaN compares unequal to everything, including
itself, so NaN-containing keys can never be retrieved by `MapIndex`. -/
def goKeyEq : GoKey → GoKey → Bool
  | GoKey.kInt a, GoKey.kInt b => a == b
  | GoKey.kStr a, GoKey.kStr b => a == b
  | GoKey.kFl (FloatK.fin a), GoKey.kFl (FloatK.fin b) => a == b
  | GoKey.kFl (FloatK.nan _), _ => false
  | _, GoKey.kFl (FloatK.nan _) => false
  | _, _ => false

/-- Go values.  `vPtr 0` is the nil pointer; a nonzero address refers
into `Ctx.heap`.  `vInvalid` is the zero `reflect.Value` (a missing
slice element, map entry, or nil top-level input). -/
inductive GoVal where
  | vInvalid : GoVal
  | vBool (b : Bool) : GoVal
  | vInt (i : Int) : GoVal
  | vStr (s : String) : GoVal
  | vFunc (isNil : Bool) : GoVal
  | vPtr (addr : Nat) : GoVal
  | vIfaceNil : GoVal
  | vIface (t : Ty) (v : GoVal) : GoVal
  | vSlice (isNil : Bool) (elems : List GoVal) : GoVal
  | vMap (isNil : Bool) (entries : List (GoKey × GoVal)) : GoVal
  | vStruct (fields : List GoVal) : GoVal

namespace GoVal

def valid : GoVal → Bool
  | vInvalid => false
  | _ => true

def asBool : GoVal → Bool
  | vBool b => b
  | _ => false

def asInt : GoVal → Int
  | vInt i => i
  | _ => 0

def asStr : GoVal → String
  | vStr s => s
  | _ => ""

def funcIsNil : GoVal → Bool
  | vFunc b => b
  | _ => true

def structFields : GoVal → List GoVal
  | vStruct l => l
  | _ => []

end GoVal

/-- `MapIndex`: retrieve the value for key `k` under Go `==`.  A key
containing a NaN component matches nothing, so such entries yield the
invalid value even though `MapKeys` lists their keys. -/
def mapLookup (entries : List (GoKey × GoVal)) (k : GoKey) : GoVal :=
  match entries.find? (fun e => goKeyEq e.1 k) with
  | some e => e.2
  | none => GoVal.vInvalid

/-! ## The legacy default reporter (part_001)

`defaultReporter.Report` ignores equal results, tallies every
difference in `ndiffs`, and appends the formatted record only while the
byte budget (4096) and line budget (256) are not yet exhausted.
`String` joins the kept records and, when records were dropped, appends
the `"... %d more differences ..."` marker computed — as in the source —
from `len(r.diffs) - r.ndiffs`.  The formatted record text itself
(`prettyPrint`/`fmt.Sprintf`) is passed in already rendered; the
truncation logic under study never inspects it. -/

structure LegacyReporter where
  diffs : List String
  ndiffs : Nat
  nbytes : Nat
  nlines : Nat

def LegacyReporter.empty : LegacyReporter := ⟨[], 0, 0, 0⟩

def countNewlines (s : String) : Nat := s.toList.countP (fun c => c = '\n')

def legacyMaxBytes : Nat := 4096
def legacyMaxLines : Nat := 256

/-- `defaultReporter.Report` (part_001 lines 54-74), with the record
string `s` standing for the already-formatted
`fmt.Sprintf("%#v:\n\t-: %s\n\t+: %s\n", p, sx, sy)`. -/
def LegacyReporter.reportDiff (r : LegacyReporter) (eq : Bool) (s : String) :
    LegacyReporter :=
  if eq then r
  else
    let r := { r with ndiffs := r.ndiffs + 1 }
    if r.nbytes < legacyMaxBytes ∧ r.nlines < legacyMaxLines then
      { r with
        diffs := r.diffs ++ [s]
        nbytes := r.nbytes + s.utf8ByteSize
        nlines := r.nlines + countNewlines s }
    else r

/-- `defaultReporter.String` (part_001 lines 76-82): note the marker
count is `len(r.diffs) - r.ndiffs`, printed with `%d`. -/
def LegacyReporter.render (r : LegacyReporter) : String :=
  let s := String.join r.diffs
  if r.ndiffs = r.diffs.length then s
  else
    s ++ "... " ++ toString ((r.diffs.length : Int) - (r.ndiffs : Int)) ++
      " more differences ..."

/-! ## Path model

Modelled from the spec (§3 "Path step"): the `Path`/`PathStep`
definitions of the repository are not under src; only their uses in
compare.go and options.go are.  A step records the operation, the
static type of the sub-values, the two sub-values themselves, and --
for struct fields -- whether the field is unexported without a
visibility grant (the `CanInterface` restriction the validator checks). -/

inductive StepKind where
  | rootK : StepKind
  | fieldK (name : String) (idx : Nat) : StepKind
  | sliceK (xkey ykey : Int) : StepKind
  | mapK (key : GoKey) : StepKind
  | indirectK : StepKind
  | typeAssertK : StepKind
  | transformK (trId : Nat) (trName : String) : StepKind

structure Step where
  kind : StepKind
  typ : Ty
  vx : GoVal
  vy : GoVal
  unexp : Bool := false

def keyRepr : GoKey → String
  | GoKey.kInt i => toString i
  | GoKey.kStr s => s
  | GoKey.kFl (FloatK.fin v) => toString v
  | GoKey.kFl (FloatK.nan _) => "NaN"

/-- Modelled from the spec: the `%#v` rendering of a `Path` is not under
src; any injective-enough textual form serves the error-message
claims. -/
def stepRepr (st : Step) : String :=
  match st.kind with
  | StepKind.rootK => "root"
  | StepKind.fieldK n _ => "." ++ n
  | StepKind.sliceK x y => "[" ++ toString x ++ "/" ++ toString y ++ "]"
  | StepKind.mapK k => "[" ++ keyRepr k ++ "]"
  | StepKind.indirectK => "*"
  | StepKind.typeAssertK => ".(typeassert)"
  | StepKind.transformK _ n => n ++ "()"

def pathRepr (p : List Step) : String :=
  p.foldl (fun a st => a ++ stepRepr st) ""

/-! ## Options (part_003)

The fundamental and filter options, with user-supplied functions kept
in an environment indexed by identity tokens (`reflect.Value` function
identities in the source). -/

structure ComparerO where
  id : Nat
  typ : Option Ty
  deriving DecidableEq, Repr

structure TransformerO where
  trId : Nat
  trName : String
  inTy : Option Ty
  outTy : Ty
  deriving DecidableEq, Repr

/-- The core option language: `ignore`, `*comparer`, `*transformer`,
`*pathFilter`, `*valuesFilter`, and `Options` grouping.  `validatorO`
is modelled from the spec: the `validator{}` option that `newState`
installs (part_009 line 157) is not under src; it plays the role of
part_003's `invalid` sentinel, turning one-sided (invalid) values into
leaf decisions and guarding unexported field access. -/
inductive CmpOption where
  | ignoreO : CmpOption
  | validatorO : CmpOption
  | cmpO (c : ComparerO) : CmpOption
  | trO (t : TransformerO) : CmpOption
  | pathF (pid : Nat) (inner : CmpOption) : CmpOption
  | valuesF (fid : Nat) (typ : Option Ty) (inner : CmpOption) : CmpOption
  | groupO (l : List CmpOption) : CmpOption

/-- `applicableOption`: what a filter evaluation can return
(`ignore | invalid | *comparer | *transformer | Options`). -/
inductive AppOpt where
  | ign : AppOpt
  | inv : AppOpt
  | cmp (c : ComparerO) : AppOpt
  | trn (t : TransformerO) : AppOpt
  | amb (l : List AppOpt) : AppOpt

/-! `flattenOptions`: recursively expand `Options` groups into a flat
list of fundamental options (used when rendering the ambiguity
panic). -/
mutual

def flattenAppOne : AppOpt → List AppOpt
  | AppOpt.amb l => flattenAppList l
  | a => [a]

def flattenAppList : List AppOpt → List AppOpt
  | [] => []
  | a :: rest => flattenAppOne a ++ flattenAppList rest

end

def flattenApp (l : List AppOpt) : List AppOpt := flattenAppList l

mutual

/-- Option `String` rendering (part_003's `String` methods). -/
def describeApp (names : Nat → String) : AppOpt → String
  | AppOpt.ign => "Ignore()"
  | AppOpt.inv => "validator"
  | AppOpt.cmp c => "Comparer(" ++ names c.id ++ ")"
  | AppOpt.trn t => "Transformer(" ++ t.trName ++ ", " ++ names t.trId ++ ")"
  | AppOpt.amb l =>
      "Options\x7b" ++ String.intercalate ", " (describeAppList names l) ++ "\x7d"

def describeAppList (names : Nat → String) : List AppOpt → List String
  | [] => []
  | a :: rest => describeApp names a :: describeAppList names rest

end

mutual

def describeOpt (names : Nat → String) : CmpOption → String
  | CmpOption.ignoreO => "Ignore()"
  | CmpOption.validatorO => "validator"
  | CmpOption.cmpO c => "Comparer(" ++ names c.id ++ ")"
  | CmpOption.trO t => "Transformer(" ++ t.trName ++ ", " ++ names t.trId ++ ")"
  | CmpOption.pathF pid i => "FilterPath(" ++ names pid ++ ", " ++ describeOpt names i ++ ")"
  | CmpOption.valuesF fid _ i => "FilterValues(" ++ names fid ++ ", " ++ describeOpt names i ++ ")"
  | CmpOption.groupO l =>
      "Options\x7b" ++ String.intercalate ", " (describeOptList names l) ++ "\x7d"

def describeOptList (names : Nat → String) : List CmpOption → List String
  | [] => []
  | o :: rest => describeOpt names o :: describeOptList names rest

end

/-- Environment of user-supplied functions, keyed by the identity
tokens the source compares with `==` on `reflect.Value`s.  `ttb` holds
every "func(T, T) bool" (comparers, value-filter predicates, and Equal
methods); `tr` holds transformer functions; `pathPred` holds
FilterPath predicates; `fname` is `function.NameOf`. -/
structure FuncEnv where
  ttb : Nat → GoVal → GoVal → Bool
  tr : Nat → GoVal → GoVal
  pathPred : Nat → List Step → Bool
  fname : Nat → String

/-- The immutable comparison universe: the pointer heap, the struct
field registry (reflect type descriptors), and the Equal-method table
(`t.MethodByName("Equal")` resolution). -/
structure Ctx where
  heap : List (Nat × GoVal)
  structFields : String → List (String × Ty)
  methodOf : Ty → Option Nat
  funcs : FuncEnv

def heapGet (ctx : Ctx) (a : Nat) : GoVal :=
  match ctx.heap.find? (fun e => e.1 == a) with
  | some e => e.2
  | none => GoVal.vInvalid

/-- The option-derived part of the comparison state (the fields of
`state` which "once set by processOption, will not change"):
the flattened option list, the unexported-visibility set, and the
number of registered reporters. -/
structure Cfg where
  opts : List CmpOption := [CmpOption.validatorO]
  exporters : List Ty := []
  nRep : Nat := 0

/-! ## Comparison state and reporting (part_009) -/

/-- Modelled from the spec: `internal/diff.Result` is not under src.
Its fields are fixed by part_009 (`s.result.NumSame++`,
`s.result.NumDiff++`) and `Equal()` by the engine's own test
`s.statelessCompare(...).NumDiff == 0` (part_009 line 450). -/
structure Result where
  NumSame : Nat := 0
  NumDiff : Nat := 0
  deriving DecidableEq, Repr

def Result.IsEqual (r : Result) : Bool := r.NumDiff == 0

/-- `reportFlags` (part_003 lines 454-468).  `byMethodF` mirrors the
`reportByMethod` modifier part_009 passes from `tryMethod`. -/
structure RFlags where
  equalF : Bool := false
  unequalF : Bool := false
  ignoredF : Bool := false
  byMethodF : Bool := false
  deriving DecidableEq, Repr

/-- The event stream delivered to every registered reporter
(`PushStep` / `Report` / `PopStep`). -/
inductive REvent where
  | pushE (st : Step) : REvent
  | reportE (rf : RFlags) : REvent
  | popE : REvent

/-- The mutable comparison state.  The reporter objects of the source
are write-only during traversal, so the model stores the single event
stream they would all receive (`evLog`); `statelessCompare` clears and
restores it exactly as the source clears and restores `s.reporters`. -/
structure GoState where
  result : Result := {}
  curPath : List Step := []
  evLog : List REvent := []
  recNext : Nat := 0
  dynCurr : Nat := 0
  dynNext : Nat := 0

/-- `state.report` (part_009 lines 532-545). -/
def reportState (s : GoState) (eq : Bool) (rf : RFlags) : GoState :=
  let p : Result × RFlags :=
    if rf.ignoredF then (s.result, rf)
    else if eq then
      ({ s.result with NumSame := s.result.NumSame + 1 }, { rf with equalF := true })
    else
      ({ s.result with NumDiff := s.result.NumDiff + 1 }, { rf with unequalF := true })
  { s with result := p.1, evLog := s.evLog ++ [REvent.reportE p.2] }

def pushStep (s : GoState) (st : Step) : GoState :=
  { s with curPath := s.curPath ++ [st], evLog := s.evLog ++ [REvent.pushE st] }

def popStep (s : GoState) : GoState :=
  { s with curPath := s.curPath.dropLast, evLog := s.evLog ++ [REvent.popE] }

/-- Errors: `fuelOut` is exhaustion of the recursion budget of the
fuel-indexed model (the Go recursion is unbounded); `panicked` is a Go
panic carrying its message. -/
inductive Err where
  | fuelOut : Err
  | panicked (msg : String) : Err
  deriving DecidableEq, Repr

abbrev M (α : Type) := Except Err α

/-- `dynChecker.Next` (part_009 lines 599-607). -/
def dynNext (s : GoState) : Bool × GoState :=
  let ok := s.dynCurr == s.dynNext
  let p : Nat × Nat := if ok then (0, s.dynNext + 1) else (s.dynCurr, s.dynNext)
  (ok, { s with dynCurr := p.1 + 1, dynNext := p.2 })

/-- `state.callTTBFunc` (part_009 lines 348-367): on a check round the
function is also invoked with swapped arguments (the goroutine exists
only for the race detector) and a mismatch panics. -/
def callTTBFunc (ctx : Ctx) (fid : Nat) (x y : GoVal) (s : GoState) : M (Bool × GoState) :=
  let pr := dynNext s
  let s := pr.2
  let f := ctx.funcs.ttb fid
  if !pr.1 then Except.ok (f x y, s)
  else
    let got := f y x
    let want := f x y
    if got != want then
      Except.error (Err.panicked
        ("non-deterministic or non-symmetric function detected: " ++ ctx.funcs.fname fid))
    else Except.ok (want, s)

/-- `recChecker.Check` (part_009 lines 555-584). -/
def stepTransInfo (st : Step) : Option (Nat × String) :=
  match st.kind with
  | StepKind.transformK id n => some (id, n)
  | _ => none

def transSteps (p : List Step) : List (Nat × String) :=
  p.filterMap stepTransInfo

def recDups : List (Nat × String) → List (Nat × Nat) → List String
  | [], _ => []
  | (id, n) :: rest, m =>
      let c := ((m.lookup id).getD 0)
      if c == 1 then n :: recDups rest ((id, c + 1) :: m)
      else recDups rest ((id, c + 1) :: m)

def recMinLen : Nat := 65536

def recCheck (recNext : Nat) (p : List Step) : M Nat :=
  if p.length < (if recNext == 0 then recMinLen else recNext) then
    Except.ok (if recNext == 0 then recMinLen else recNext)
  else if (recDups (transSteps p) []).isEmpty then
    Except.ok ((if recNext == 0 then recMinLen else recNext) * 2)
  else
    Except.error (Err.panicked
      ("recursive set of Transformers detected:\n\t" ++
        String.intercalate "\n\t" (recDups (transSteps p) []) ++
        "\nconsider using cmpopts.AcyclicTransformer"))

/-! ## Filter evaluation (part_003 lines 66-85, 127-132, 173-181,
194-195, 263-275, 327-332) -/

/-- `t.AssignableTo(typ)`; a `nil` stored type means the function's
input type was the empty interface (no type filtering). -/
def assignable (t : Ty) : Option Ty → Bool
  | none => true
  | some u => t == u

/-- The `(*transform)` type assertion of the loop in
`transformer.filter`: the transformer identity carried by a Transform
step, `none` for every other step. -/
def stepTransId (st : Step) : Option Nat :=
  match st.kind with
  | StepKind.transformK id _ => some id
  | _ => none

/-- The implicit self-recursion filter of `transformer.filter`
(part_003 lines 263-270): walk the path backwards through the
contiguous run of Transform steps; if the identical transformer
appears there, it is not applicable. -/
def transformBlockedAux (trId : Nat) : List Step → Bool
  | [] => false
  | st :: rest =>
      match stepTransId st with
      | some id => if id == trId then true else transformBlockedAux trId rest
      | none => false

def transformBlocked (trId : Nat) (p : List Step) : Bool :=
  transformBlockedAux trId p.reverse

mutual

/-- `Option.filter` for each option form.  `ignore` always applies;
`*comparer`/`*transformer` filter by input type (and, for
transformers, by the tail-of-path recursion guard); `*pathFilter`
consults the path predicate; `*valuesFilter` returns the `invalid`
sentinel on invalid values, otherwise calls the predicate through
`callTTBFunc`; `validatorO` guards invalid values and restricted
(unexported) fields. -/
def optionFilter (ctx : Ctx) (st : Step) : CmpOption → GoState → M (Option AppOpt × GoState)
  | CmpOption.ignoreO, s => Except.ok (some AppOpt.ign, s)
  | CmpOption.validatorO, s =>
      if !st.vx.valid || !st.vy.valid then Except.ok (some AppOpt.inv, s)
      else if st.unexp then Except.ok (some AppOpt.inv, s)
      else Except.ok (none, s)
  | CmpOption.cmpO c, s =>
      if assignable st.typ c.typ then Except.ok (some (AppOpt.cmp c), s)
      else Except.ok (none, s)
  | CmpOption.trO t, s =>
      if transformBlocked t.trId s.curPath then Except.ok (none, s)
      else if assignable st.typ t.inTy then Except.ok (some (AppOpt.trn t), s)
      else Except.ok (none, s)
  | CmpOption.pathF pid inner, s =>
      if ctx.funcs.pathPred pid s.curPath then optionFilter ctx st inner s
      else Except.ok (none, s)
  | CmpOption.valuesF fid typ inner, s =>
      if !st.vx.valid || !st.vy.valid then Except.ok (some AppOpt.inv, s)
      else if assignable st.typ typ then do
        let pr ← callTTBFunc ctx fid st.vx st.vy s
        if pr.1 then optionFilter ctx st inner pr.2
        else Except.ok (none, pr.2)
      else Except.ok (none, s)
  | CmpOption.groupO l, s => optionsFilterList ctx st l none s

/-- `Options.filter` (part_003 lines 66-85): `ignore` short-circuits;
`invalid` takes precedence over comparers and transformers; a second
applicable comparer/transformer turns the accumulator into a
conflicting `Options` group. -/
def optionsFilterList (ctx : Ctx) (st : Step) :
    List CmpOption → Option AppOpt → GoState → M (Option AppOpt × GoState)
  | [], out, s => Except.ok (out, s)
  | o :: rest, out, s => do
      let pr ← optionFilter ctx st o s
      let s := pr.2
      match pr.1 with
      | some AppOpt.ign => Except.ok (some AppOpt.ign, s)
      | some AppOpt.inv => optionsFilterList ctx st rest (some AppOpt.inv) s
      | some a =>
          match out with
          | none => optionsFilterList ctx st rest (some a) s
          | some AppOpt.inv => optionsFilterList ctx st rest (some AppOpt.inv) s
          | some prev => optionsFilterList ctx st rest (some (AppOpt.amb [prev, a])) s
      | none => optionsFilterList ctx st rest out s

end

/-! ## Error messages (format strings of part_003 and part_009) -/

def ambiguousMsg (names : Nat → String) (p : List Step) (l : List AppOpt) : String :=
  "ambiguous set of applicable options at " ++ pathRepr p ++ ":\n\t" ++
    String.intercalate "\n\t" (describeAppList names (flattenApp l)) ++
    "\nconsider using filters to ensure at most one Comparer or Transformer may apply"

def nanKeyMsg (p : List Step) : String :=
  pathRepr p ++ " has map key with NaNs\nconsider providing a Comparer to compare the map"

def unexportedMsg (p : List Step) : String :=
  "cannot handle unexported field: " ++ pathRepr p ++
    "\nconsider using AllowUnexported or cmpopts.IgnoreUnexported"

/-! ## The engine (part_009)

`compareAny` is fuel-indexed: at fuel `n+1` the body runs with every
nested `compareAny` call made at fuel `n` (`recur`).  All helpers are
parameterized by `recur`, so the recursion is structural on fuel. -/

/-- `state.statelessCompare` (part_009 lines 196-209): reset the tally
and detach the reporters, run the comparison, return its result, and
restore the saved tally and reporters. -/
def statelessCompare (recur : GoState → Step → M GoState) (s : GoState) (st : Step) :
    M (Result × GoState) := do
  let oldResult := s.result
  let oldLog := s.evLog
  let s1 ← recur { s with result := {}, evLog := [] } st
  Except.ok (s1.result, { s1 with result := oldResult, evLog := oldLog })

def mkTransformStep (t : TransformerO) (x y : GoVal) : Step :=
  { kind := StepKind.transformK t.trId t.trName, typ := t.outTy, vx := x, vy := y }

/-- `state.callTRFunc` (part_009 lines 324-346): on a check round the
transformer runs twice (the goroutine exists only for the race
detector); if the two outputs compare unequal, a reflexivity probe
decides between tolerating a non-reflexive equality and panicking. -/
def callTRFunc (recur : GoState → Step → M GoState) (ctx : Ctx) (t : TransformerO)
    (v : GoVal) (s : GoState) : M (GoVal × GoState) := do
  let pr := dynNext s
  let s := pr.2
  let f := ctx.funcs.tr t.trId
  if !pr.1 then Except.ok (f v, s)
  else
    let got := f v
    let want := f v
    let c1 ← statelessCompare recur s (mkTransformStep t got want)
    if !c1.1.IsEqual then do
      let c2 ← statelessCompare recur c1.2 (mkTransformStep t want want)
      if !c2.1.IsEqual then Except.ok (want, c2.2)
      else
        Except.error (Err.panicked
          ("non-deterministic function detected: " ++ ctx.funcs.fname t.trId))
    else Except.ok (want, c1.2)

/-- `applicableOption.apply`: `ignore.apply` reports the node ignored;
the validator sentinel either reports a one-sided leaf (missing slice
element or map entry) or panics on a restricted unexported field;
`comparer.apply` calls the equality function; `transformer.apply`
pushes the Transform step, transforms both sides, and recurses; an
`Options` group panics with the ambiguity message. -/
def applyAppOpt (recur : GoState → Step → M GoState) (ctx : Ctx) (st : Step)
    (a : AppOpt) (s : GoState) : M GoState :=
  match a with
  | AppOpt.ign => Except.ok (reportState s true { ignoredF := true })
  | AppOpt.inv =>
      if !st.vx.valid || !st.vy.valid then
        Except.ok (reportState s (st.vx.valid == st.vy.valid) {})
      else Except.error (Err.panicked (unexportedMsg s.curPath))
  | AppOpt.cmp c => do
      let pr ← callTTBFunc ctx c.id st.vx st.vy s
      Except.ok (reportState pr.2 pr.1 {})
  | AppOpt.trn t => do
      let tmp := mkTransformStep t GoVal.vInvalid GoVal.vInvalid
      let s := { s with curPath := s.curPath ++ [tmp] }
      let px ← callTRFunc recur ctx t st.vx s
      let py ← callTRFunc recur ctx t st.vy px.2
      let s := { py.2 with curPath := py.2.curPath.dropLast }
      recur s (mkTransformStep t px.1 py.1)
  | AppOpt.amb l =>
      Except.error (Err.panicked (ambiguousMsg ctx.funcs.fname s.curPath (flattenApp l)))

/-- `state.tryOptions` (part_009 lines 303-310). -/
def tryOptions (recur : GoState → Step → M GoState) (ctx : Ctx) (cfg : Cfg)
    (st : Step) (s : GoState) : M (Bool × GoState) := do
  let pr ← optionsFilterList ctx st cfg.opts none s
  match pr.1 with
  | some a => do
      let s ← applyAppOpt recur ctx st a pr.2
      Except.ok (true, s)
  | none => Except.ok (false, pr.2)

/-- `state.tryMethod` (part_009 lines 312-322): the `Equal` method
lookup is resolved through the type registry. -/
def tryMethod (ctx : Ctx) (st : Step) (s : GoState) : M (Bool × GoState) :=
  match ctx.methodOf st.typ with
  | none => Except.ok (false, s)
  | some mid => do
      let pr ← callTTBFunc ctx mid st.vx st.vy s
      Except.ok (true, reportState pr.2 pr.1 { byMethodF := true })

/-- `isExported` (cmpopts/ignore.go lines 180-183): the first rune is
an upper-case letter. -/
def isExported (id : String) : Bool := (id.toList.headD ' ').isUpper

/-- `state.compareStruct` (part_009 lines 391-422): walk the fields in
declared order; a field named "_" (necessarily unexported) is skipped
outright; other unexported fields carry the restriction flag unless
the struct type was granted visibility (`s.exporters[t]`). -/
def compareStructFields (recur : GoState → Step → M GoState) (cfg : Cfg) (name : String)
    (xs ys : List GoVal) : Nat → List (String × Ty) → GoState → M GoState
  | _, [], s => Except.ok s
  | i, (fn, ft) :: rest, s =>
      if !isExported fn then
        if fn == "_" then compareStructFields recur cfg name xs ys (i + 1) rest s
        else do
          let s ← recur s
            { kind := StepKind.fieldK fn i, typ := ft,
              vx := xs.getD i GoVal.vInvalid, vy := ys.getD i GoVal.vInvalid,
              unexp := !cfg.exporters.contains (Ty.tStruct name) }
          compareStructFields recur cfg name xs ys (i + 1) rest s
      else do
        let s ← recur s
          { kind := StepKind.fieldK fn i, typ := ft,
            vx := xs.getD i GoVal.vInvalid, vy := ys.getD i GoVal.vInvalid }
        compareStructFields recur cfg name xs ys (i + 1) rest s

def compareStruct (recur : GoState → Step → M GoState) (ctx : Ctx) (cfg : Cfg)
    (name : String) (st : Step) (s : GoState) : M GoState :=
  compareStructFields recur cfg name st.vx.structFields st.vy.structFields 0
    (ctx.structFields name) s

/-- `withIndexes` (part_009 lines 426-438): build the SliceIndex step
for positions `ix`/`iy`, with `-1` marking an absent side. -/
def sliceStep (elemT : Ty) (xs ys : List GoVal) (ix iy : Int) : Step :=
  { kind := StepKind.sliceK ix iy, typ := elemT,
    vx := if 0 ≤ ix then xs.getD ix.toNat GoVal.vInvalid else GoVal.vInvalid,
    vy := if 0 ≤ iy then ys.getD iy.toNat GoVal.vInvalid else GoVal.vInvalid }

/-- The pre-scan of `state.compareSlice` (part_009 lines 447-462): for
each position, a stateless one-sided comparison decides whether the
element would be ignored standing alone; non-discarded positions are
collected for the differencing step. -/
def sliceIgnoreScan (recur : GoState → Step → M GoState) (pos : Nat → Step) :
    List Nat → GoState → M (List Bool × List Nat × GoState)
  | [], s => Except.ok ([], [], s)
  | i :: rest, s => do
      let c ← statelessCompare recur s (pos i)
      let ignored := c.1.NumDiff == 0
      let r ← sliceIgnoreScan recur pos rest c.2
      Except.ok (ignored :: r.1, (if ignored then r.2.1 else i :: r.2.1), r.2.2)

inductive EditType where
  | identityE : EditType
  | uniqueXE : EditType
  | uniqueYE : EditType
  | modifiedE : EditType
  deriving DecidableEq, Repr

/-- Modelled from the spec (§4.3): `internal/diff.Difference` is not
under src.  It aligns the two (pre-filtered) index sequences into a
minimal-length edit script of match/unique-to-x/unique-to-y/modified
operations, paying a full recursive comparison (`f`, which is
`statelessCompare` over the original indices) per candidate pair. -/
def differenceGo (f : Nat → Nat → GoState → M (Result × GoState)) :
    List Nat → List Nat → GoState → M (List EditType × GoState)
  | [], ys, s => Except.ok (ys.map (fun _ => EditType.uniqueYE), s)
  | x :: xs, [], s => Except.ok ((x :: xs).map (fun _ => EditType.uniqueXE), s)
  | ix :: xs, iy :: ys, s => do
      let c ← f ix iy s
      if c.1.IsEqual then do
        let r ← differenceGo f xs ys c.2
        Except.ok (EditType.identityE :: r.1, r.2)
      else if xs.length > ys.length then do
        let r ← differenceGo f xs (iy :: ys) c.2
        Except.ok (EditType.uniqueXE :: r.1, r.2)
      else if xs.length < ys.length then do
        let r ← differenceGo f (ix :: xs) ys c.2
        Except.ok (EditType.uniqueYE :: r.1, r.2)
      else do
        let r ← differenceGo f xs ys c.2
        Except.ok (EditType.modifiedE :: r.1, r.2)
  termination_by xs ys _ => xs.length + ys.length

/-- The replay loop of `state.compareSlice` (part_009 lines 469-493):
interleave the two ignore-scripts with the edit script, dispatching a
full (stateful) comparison per element in original order.  The `gas`
counter only bounds the loop for the termination checker; it is set so
that well-formed scripts never exhaust it. -/
def sliceReplay (recur : GoState → Step → M GoState) (mk : Int → Int → Step)
    (ignX ignY : List Bool) (lenX lenY : Nat) :
    Nat → Nat → Nat → List EditType → GoState → M GoState
  | _, _, 0, _, _ => Except.error (Err.panicked "slice replay invariant violation")
  | ix, iy, gas + 1, edits, s =>
      if ix < lenX ∨ iy < lenY then
        if ignX.getD ix false then do
          let s ← recur s (mk ix (-1))
          sliceReplay recur mk ignX ignY lenX lenY (ix + 1) iy gas edits s
        else if ignY.getD iy false then do
          let s ← recur s (mk (-1) iy)
          sliceReplay recur mk ignX ignY lenX lenY ix (iy + 1) gas edits s
        else
          match edits with
          | [] => Except.error (Err.panicked "slice replay invariant violation")
          | e :: rest =>
              match e with
              | EditType.uniqueXE => do
                  let s ← recur s (mk ix (-1))
                  sliceReplay recur mk ignX ignY lenX lenY (ix + 1) iy gas rest s
              | EditType.uniqueYE => do
                  let s ← recur s (mk (-1) iy)
                  sliceReplay recur mk ignX ignY lenX lenY ix (iy + 1) gas rest s
              | _ => do
                  let s ← recur s (mk ix iy)
                  sliceReplay recur mk ignX ignY lenX lenY (ix + 1) (iy + 1) gas rest s
      else Except.ok s

/-- `state.compareSlice` (part_009 lines 424-495). -/
def compareSlice (recur : GoState → Step → M GoState) (elemT : Ty) (st : Step)
    (s : GoState) : M GoState := do
  let xs := match st.vx with | GoVal.vSlice _ l => l | _ => []
  let ys := match st.vy with | GoVal.vSlice _ l => l | _ => []
  let mk := sliceStep elemT xs ys
  let rx ← sliceIgnoreScan recur (fun i => mk (Int.ofNat i) (-1)) (List.range xs.length) s
  let ry ← sliceIgnoreScan recur (fun i => mk (-1) (Int.ofNat i)) (List.range ys.length) rx.2.2
  let rd ← differenceGo
    (fun ox oy s => statelessCompare recur s (mk (Int.ofNat ox) (Int.ofNat oy)))
    rx.2.1 ry.2.1 ry.2.2
  sliceReplay recur mk rx.1 ry.1 xs.length ys.length 0 0
    (xs.length + ys.length + 1) rd.1 rd.2

/-! ## Deterministic key ordering (part_001 lines 310-399, restricted
to the model's key domain) -/

/-- A total, antisymmetric refinement of `isLess` on the key domain:
within floats, NaN sorts before finite values (part_001 line 322) and
tied NaNs are broken by tag.  `sort.Sort` is an unstable sort, so any
deterministic refinement of `isLess` models one of its executions. -/
def keyRank : GoKey → Nat
  | GoKey.kInt _ => 0
  | GoKey.kStr _ => 1
  | GoKey.kFl _ => 2

def keyLE (a b : GoKey) : Bool :=
  match a, b with
  | GoKey.kInt x, GoKey.kInt y => decide (x ≤ y)
  | GoKey.kStr x, GoKey.kStr y => decide (x ≤ y)
  | GoKey.kFl (FloatK.nan t1), GoKey.kFl (FloatK.nan t2) => decide (t1 ≤ t2)
  | GoKey.kFl (FloatK.nan _), GoKey.kFl (FloatK.fin _) => true
  | GoKey.kFl (FloatK.fin _), GoKey.kFl (FloatK.nan _) => false
  | GoKey.kFl (FloatK.fin x), GoKey.kFl (FloatK.fin y) => decide (x ≤ y)
  | _, _ => decide (keyRank a ≤ keyRank b)

/-- The post-sort deduplication of `sortKeys` (part_001 lines 391-397):
drop a key equal (under Go `==`) to the previously kept one; NaN keys
never compare equal, so they are never deduplicated. -/
def dedupAux : GoKey → List GoKey → List GoKey
  | _, [] => []
  | last, v :: rest =>
      if goKeyEq v last then dedupAux last rest else v :: dedupAux v rest

def keyRel (a b : GoKey) : Prop := keyLE a b = true

instance : DecidableRel keyRel :=
  fun a b => inferInstanceAs (Decidable (keyLE a b = true))

def sortKeysGo (l : List GoKey) : List GoKey :=
  match List.insertionSort keyRel l with
  | [] => []
  | v :: rest => v :: dedupAux v rest

/-- `state.compareMap` (part_009 lines 497-530): nil handling, then a
walk over the sorted union of both key sets; a key invalid on both
sides (a NaN-containing key) panics with the current path. -/
def compareMapEntries (recur : GoState → Step → M GoState) (elemT : Ty)
    (ex ey : List (GoKey × GoVal)) : List GoKey → GoState → M GoState
  | [], s => Except.ok s
  | k :: rest, s =>
      let kx := mapLookup ex k
      let ky := mapLookup ey k
      if !kx.valid && !ky.valid then
        Except.error (Err.panicked (nanKeyMsg s.curPath))
      else do
        let s ← recur s { kind := StepKind.mapK k, typ := elemT, vx := kx, vy := ky }
        compareMapEntries recur elemT ex ey rest s

def compareMap (recur : GoState → Step → M GoState) (elemT : Ty) (st : Step)
    (s : GoState) : M GoState :=
  match st.vx, st.vy with
  | GoVal.vMap nx ex, GoVal.vMap ny ey =>
      if nx || ny then Except.ok (reportState s (nx && ny) {})
      else
        compareMapEntries recur elemT ex ey
          (sortKeysGo (ex.map Prod.fst ++ ey.map Prod.fst)) s
  | _, _ => Except.ok (reportState s false {})

/-- One unfolding of `state.compareAny` (part_009 lines 211-301):
push the step (and its reporter events), run the recursion checker,
then rules 1 (options), 2 (Equal method), 3 (kind dispatch). -/
def compareAnyAux (recur : GoState → Step → M GoState) (ctx : Ctx) (cfg : Cfg)
    (s : GoState) (st : Step) : M GoState := do
  let s := pushStep s st
  let nxt ← recCheck s.recNext s.curPath
  let s := { s with recNext := nxt }
  let p1 ← tryOptions recur ctx cfg st s
  if p1.1 then Except.ok (popStep p1.2)
  else do
    let p2 ← tryMethod ctx st p1.2
    if p2.1 then Except.ok (popStep p2.2)
    else
      let s := p2.2
      match st.typ with
      | Ty.tBool => Except.ok (popStep (reportState s (st.vx.asBool == st.vy.asBool) {}))
      | Ty.tInt => Except.ok (popStep (reportState s (st.vx.asInt == st.vy.asInt) {}))
      | Ty.tStr => Except.ok (popStep (reportState s (st.vx.asStr == st.vy.asStr) {}))
      | Ty.tFunc =>
          Except.ok (popStep (reportState s (st.vx.funcIsNil && st.vy.funcIsNil) {}))
      | Ty.tStruct name => do
          let s ← compareStruct recur ctx cfg name st s
          Except.ok (popStep s)
      | Ty.tSlice e =>
          match st.vx, st.vy with
          | GoVal.vSlice nilx _, GoVal.vSlice nily _ =>
              if nilx || nily then Except.ok (popStep (reportState s (nilx && nily) {}))
              else do
                let s ← compareSlice recur e st s
                Except.ok (popStep s)
          | _, _ => Except.ok (popStep (reportState s false {}))
      | Ty.tMap _ e => do
          let s ← compareMap recur e st s
          Except.ok (popStep s)
      | Ty.tPtr e =>
          match st.vx, st.vy with
          | GoVal.vPtr ax, GoVal.vPtr ay =>
              if ax == 0 || ay == 0 then
                Except.ok (popStep (reportState s (ax == 0 && ay == 0) {}))
              else do
                let s ← recur s
                  { kind := StepKind.indirectK, typ := e,
                    vx := heapGet ctx ax, vy := heapGet ctx ay }
                Except.ok (popStep s)
          | _, _ => Except.ok (popStep (reportState s false {}))
      | Ty.tIface =>
          match st.vx, st.vy with
          | GoVal.vIfaceNil, GoVal.vIfaceNil => Except.ok (popStep (reportState s true {}))
          | GoVal.vIface tx ix, GoVal.vIface ty iy =>
              if tx ≠ ty then Except.ok (popStep (reportState s false {}))
              else do
                let s ← recur s { kind := StepKind.typeAssertK, typ := tx, vx := ix, vy := iy }
                Except.ok (popStep s)
          | _, _ => Except.ok (popStep (reportState s false {}))

def compareAny (ctx : Ctx) (cfg : Cfg) : Nat → GoState → Step → M GoState
  | 0, _, _ => Except.error Err.fuelOut
  | fuel + 1, s, st => compareAnyAux (compareAny ctx cfg fuel) ctx cfg s st

/-! ## Option processing and the public operations (part_009 lines
83-133, 155-191) -/

/-- An option as passed to `Equal`/`Diff`: a core option, an
`Options` group, a `visibleStructs` set (`AllowUnexported`), or a
reporter registration. -/
inductive InOption where
  | core (o : CmpOption) : InOption
  | visible (tys : List Ty) : InOption
  | reporterIn : InOption
  | groupIn (l : List InOption) : InOption

/-- The `filtered` interface check of `processOption` (part_009 lines
171-177): only `ignore`, `*comparer` and `*transformer` implement
`isFiltered`; `none` means the option does not implement it. -/
def isFilteredOpt : CmpOption → Option Bool
  | CmpOption.ignoreO => some false
  | CmpOption.cmpO c => some c.typ.isSome
  | CmpOption.trO t => some t.inTy.isSome
  | _ => none

mutual

def processOption (names : Nat → String) (o : InOption) (cfg : Cfg) : M Cfg :=
  match o with
  | InOption.core c =>
      match isFilteredOpt c with
      | some false =>
          Except.error (Err.panicked ("cannot use an unfiltered option: " ++ describeOpt names c))
      | _ => Except.ok { cfg with opts := cfg.opts ++ [c] }
  | InOption.visible tys => Except.ok { cfg with exporters := cfg.exporters ++ tys }
  | InOption.reporterIn => Except.ok { cfg with nRep := cfg.nRep + 1 }
  | InOption.groupIn l => processOptions names l cfg

def processOptions (names : Nat → String) (l : List InOption) (cfg : Cfg) : M Cfg :=
  match l with
  | [] => Except.ok cfg
  | o :: rest => do
      let cfg ← processOption names o cfg
      processOptions names rest cfg

end

/-- `newState` (part_009 lines 155-162): the options list always
starts with the validator. -/
def newStateCfg (names : Nat → String) (opts : List InOption) : M Cfg :=
  processOptions names opts {}

/-- The input normalization of `Equal` (part_009 lines 84-104): if the
two inputs have different dynamic types (or either is missing), both
are wrapped in the empty interface type. -/
def mkRootInput : Option (Ty × GoVal) → Option (Ty × GoVal) → Ty × GoVal × GoVal
  | some (tx, vx), some (ty, vy) =>
      if tx = ty then (tx, vx, vy)
      else (Ty.tIface, GoVal.vIface tx vx, GoVal.vIface ty vy)
  | some (tx, vx), none => (Ty.tIface, GoVal.vIface tx vx, GoVal.vInvalid)
  | none, some (ty, vy) => (Ty.tIface, GoVal.vInvalid, GoVal.vIface ty vy)
  | none, none => (Ty.tIface, GoVal.vInvalid, GoVal.vInvalid)

def runEngine (ctx : Ctx) (opts : List InOption) (fuel : Nat)
    (x y : Option (Ty × GoVal)) : M GoState := do
  let cfg ← newStateCfg ctx.funcs.fname opts
  let r := mkRootInput x y
  compareAny ctx cfg fuel {} { kind := StepKind.rootK, typ := r.1, vx := r.2.1, vy := r.2.2 }

/-- `Equal` (part_009 lines 83-109). -/
def EqualGo (ctx : Ctx) (opts : List InOption) (fuel : Nat)
    (x y : Option (Ty × GoVal)) : M Bool := do
  let s ← runEngine ctx opts fuel x y
  Except.ok s.result.IsEqual

/-! ## The current default reporter (src/cmp/report.go) -/

/-- Modelled from the spec (§4.5): the value rendering
(`internal/value.Format`) is not under src; the reporter contracts
under study depend only on the record being nonempty, which the
surrounding literal text guarantees. -/
def fmtVal : GoVal → String
  | GoVal.vInvalid => "<non-existent>"
  | GoVal.vBool b => toString b
  | GoVal.vInt i => toString i
  | GoVal.vStr s => "\"" ++ s ++ "\""
  | GoVal.vFunc _ => "<func>"
  | GoVal.vPtr a => "0x" ++ toString a
  | GoVal.vIfaceNil => "<nil>"
  | GoVal.vIface _ _ => "<iface>"
  | GoVal.vSlice nil _ => if nil then "<nil>" else "<slice>"
  | GoVal.vMap nil _ => if nil then "<nil>" else "<map>"
  | GoVal.vStruct _ => "<struct>"

/-- `fmt.Sprintf("%#v:\n\t-: %s\n\t+: %s\n", p, sx, sy)`
(src/cmp/report.go line 54). -/
def fmtDiffRecord (p : List Step) (x y : GoVal) : String :=
  pathRepr p ++ ":\n\t-: " ++ fmtVal x ++ "\n\t+: " ++ fmtVal y ++ "\n"

def reportUnequalOnly : RFlags := { unequalF := true }

/-- `defaultReporter` of src/cmp/report.go: the event-driven reporter
used by `Diff` (via the `reporter` option), with the same byte/line
budgets and the marker count `r.ndiffs - len(r.diffs)`. -/
structure DefRep where
  curPath : List Step := []
  curVals : List (GoVal × GoVal) := []
  diffs : List String := []
  ndiffs : Nat := 0
  nbytes : Nat := 0
  nlines : Nat := 0

def DefRep.recordDiff (r : DefRep) (x y : GoVal) (p : List Step) : DefRep :=
  let r := { r with ndiffs := r.ndiffs + 1 }
  if r.nbytes < legacyMaxBytes ∧ r.nlines < legacyMaxLines then
    let s := fmtDiffRecord p x y
    { r with
      diffs := r.diffs ++ [s]
      nbytes := r.nbytes + s.utf8ByteSize
      nlines := r.nlines + countNewlines s }
  else r

def DefRep.onEvent (r : DefRep) (e : REvent) : DefRep :=
  match e with
  | REvent.pushE st =>
      { r with curPath := r.curPath ++ [st], curVals := r.curVals ++ [(st.vx, st.vy)] }
  | REvent.popE =>
      { r with curPath := r.curPath.dropLast, curVals := r.curVals.dropLast }
  | REvent.reportE f =>
      if f = reportUnequalOnly then
        let pr := r.curVals.getLastD (GoVal.vInvalid, GoVal.vInvalid)
        r.recordDiff pr.1 pr.2 r.curPath
      else r

def DefRep.render (r : DefRep) : String :=
  let s := String.join r.diffs
  if r.ndiffs = r.diffs.length then s
  else
    s ++ "... " ++ toString ((r.ndiffs : Int) - (r.diffs.length : Int)) ++
      " more differences ..."

def reporterString (log : List REvent) : String :=
  (log.foldl DefRep.onEvent {}).render

/-- `Diff` (part_009 lines 124-133): run `Equal` with a fresh default
reporter attached (in the model the engine's event stream is the
stream every attached reporter receives), render the report, and panic
if its emptiness disagrees with the equality verdict. -/
def DiffGo (ctx : Ctx) (opts : List InOption) (fuel : Nat)
    (x y : Option (Ty × GoVal)) : M String := do
  let s ← runEngine ctx opts fuel x y
  let eq := s.result.IsEqual
  let d := reporterString s.evLog
  if (d == "") != eq then
    Except.error (Err.panicked "inconsistent difference and equality results")
  else Except.ok d

/-! # Shared facts about the model -/

/-- A no-op function environment and an empty universe, used for
concrete instantiations. -/
def exFuncs : FuncEnv := ⟨fun _ _ _ => true, fun _ v => v, fun _ _ => true, fun _ => "f"⟩

def exCtx : Ctx := ⟨[], fun _ => [], fun _ => none, exFuncs⟩

/-- `statelessCompare` restores the saved tally and the saved reporter
stream on every successful return (part_009 lines 196-209; the source
comment: "Calling statelessCompare must not result in observable
changes to these"). -/
theorem statelessCompare_frame (recur : GoState → Step → M GoState) (s : GoState)
    (st : Step) (out : Result × GoState)
    (h : statelessCompare recur s st = Except.ok out) :
    out.2.result = s.result ∧ out.2.evLog = s.evLog := by
  unfold statelessCompare at h
  cases hr : recur { s with result := {}, evLog := [] } st with
  | error e => rw [hr] at h; simp [Bind.bind, Except.bind] at h
  | ok s1 =>
      rw [hr] at h
      simp only [Bind.bind, Except.bind] at h
      cases h
      exact ⟨rfl, rfl⟩

/-- The identities of the contiguous run of Transform steps at the end
of a path (most recent first). -/
def transTailIds (p : List Step) : List Nat :=
  (p.reverse.takeWhile (fun st => (stepTransId st).isSome)).filterMap stepTransId

theorem blockedAux_of_mem (trId : Nat) :
    ∀ l : List Step,
      trId ∈ (l.takeWhile (fun st => (stepTransId st).isSome)).filterMap stepTransId →
      transformBlockedAux trId l = true := by
  intro l
  induction l with
  | nil => intro h; simp [List.takeWhile] at h
  | cons st rest ih =>
      intro h
      cases hk : stepTransId st with
      | none =>
          rw [List.takeWhile_cons] at h
          simp [hk] at h
      | some id =>
          rw [List.takeWhile_cons] at h
          simp only [hk] at h
          simp only [Option.isSome_some, if_true] at h
          rw [List.filterMap_cons] at h
          rw [hk] at h
          unfold transformBlockedAux
          rw [hk]
          rcases List.mem_cons.mp h with he | hm
          · simp [he]
          · by_cases hid : id == trId
            · simp [hid]
            · simp only [hid, if_false]
              exact ih hm

/-- Filter evaluation can advance only the `dynChecker` counters: the
tally, path, reporter stream and recursion-checker state survive it. -/
def sameButDyn (s s' : GoState) : Prop :=
  s'.result = s.result ∧ s'.curPath = s.curPath ∧ s'.evLog = s.evLog ∧
    s'.recNext = s.recNext

theorem sameButDyn_refl (s : GoState) : sameButDyn s s := ⟨rfl, rfl, rfl, rfl⟩

theorem sameButDyn_trans {a b c : GoState} (h1 : sameButDyn a b) (h2 : sameButDyn b c) :
    sameButDyn a c :=
  ⟨h2.1.trans h1.1, h2.2.1.trans h1.2.1, h2.2.2.1.trans h1.2.2.1, h2.2.2.2.trans h1.2.2.2⟩

theorem callTTB_state (ctx : Ctx) (fid : Nat) (x y : GoVal) (s : GoState)
    (out : Bool × GoState) (h : callTTBFunc ctx fid x y s = Except.ok out) :
    sameButDyn s out.2 := by
  simp only [callTTBFunc] at h
  split at h
  · cases h; exact ⟨rfl, rfl, rfl, rfl⟩
  · split at h
    · cases h
    · cases h; exact ⟨rfl, rfl, rfl, rfl⟩

mutual

theorem optionFilter_state (ctx : Ctx) (st : Step) (o : CmpOption) (s : GoState)
    (out : Option AppOpt × GoState) (h : optionFilter ctx st o s = Except.ok out) :
    sameButDyn s out.2 := by
  match o with
  | CmpOption.ignoreO =>
      unfold optionFilter at h; cases h; exact sameButDyn_refl s
  | CmpOption.validatorO =>
      unfold optionFilter at h
      split at h
      · cases h; exact sameButDyn_refl s
      · split at h <;> (cases h; exact sameButDyn_refl s)
  | CmpOption.cmpO c =>
      unfold optionFilter at h
      split at h <;> (cases h; exact sameButDyn_refl s)
  | CmpOption.trO t =>
      unfold optionFilter at h
      split at h
      · cases h; exact sameButDyn_refl s
      · split at h <;> (cases h; exact sameButDyn_refl s)
  | CmpOption.pathF pid inner =>
      unfold optionFilter at h
      split at h
      · exact optionFilter_state ctx st inner s out h
      · cases h; exact sameButDyn_refl s
  | CmpOption.valuesF fid typ inner =>
      unfold optionFilter at h
      split at h
      · cases h; exact sameButDyn_refl s
      · split at h
        · simp only [Bind.bind, Except.bind] at h
          cases hc : callTTBFunc ctx fid st.vx st.vy s with
          | error e => rw [hc] at h; cases h
          | ok p =>
              rw [hc] at h
              have h1 := callTTB_state ctx fid st.vx st.vy s p hc
              obtain ⟨b, s2⟩ := p
              by_cases hb : b = true
              · subst hb
                exact sameButDyn_trans h1 (optionFilter_state ctx st inner s2 out h)
              · rw [Bool.eq_false_iff.mpr hb] at h
                cases h
                exact h1
        · cases h; exact sameButDyn_refl s
  | CmpOption.groupO l =>
      exact optionsFilterList_state ctx st l none s out h

theorem optionsFilterList_state (ctx : Ctx) (st : Step) (l : List CmpOption)
    (acc : Option AppOpt) (s : GoState) (out : Option AppOpt × GoState)
    (h : optionsFilterList ctx st l acc s = Except.ok out) :
    sameButDyn s out.2 := by
  match l with
  | [] =>
      unfold optionsFilterList at h; cases h; exact sameButDyn_refl s
  | o :: rest =>
      unfold optionsFilterList at h
      simp only [Bind.bind, Except.bind] at h
      cases hc : optionFilter ctx st o s with
      | error e => rw [hc] at h; cases h
      | ok p =>
          rw [hc] at h
          have h1 := optionFilter_state ctx st o s p hc
          obtain ⟨r, s2⟩ := p
          have step : ∀ acc2, optionsFilterList ctx st rest acc2 s2 = Except.ok out →
              sameButDyn s out.2 := fun acc2 hh =>
            sameButDyn_trans h1 (optionsFilterList_state ctx st rest acc2 s2 out hh)
          cases r with
          | none => exact step _ h
          | some a =>
              cases a with
              | ign => cases h; exact h1
              | inv => exact step _ h
              | cmp c =>
                  cases acc with
                  | none => exact step _ h
                  | some pa => cases pa <;> exact step _ h
              | trn t =>
                  cases acc with
                  | none => exact step _ h
                  | some pa => cases pa <;> exact step _ h
              | amb g =>
                  cases acc with
                  | none => exact step _ h
                  | some pa => cases pa <;> exact step _ h

end

/-! # Claims -/

/-! ## C1 -/

/-- C1: For every pair of inputs and option list, whenever `Diff`
returns a string (rather than aborting on the internal cross-check),
that string is empty exactly when `Equal` on the same inputs and
options returns true; by construction of `Diff` (part_009 lines
124-133), a disagreement between the rendered report and the equality
verdict aborts with the internal-invariant panic instead of
returning. -/
theorem C1_diff_empty_iff_equal (ctx : Ctx) (opts : List InOption) (fuel : Nat)
    (x y : Option (Ty × GoVal)) (d : String)
    (h : DiffGo ctx opts fuel x y = Except.ok d) :
    d = "" ↔ EqualGo ctx opts fuel x y = Except.ok true := by
  unfold DiffGo at h
  unfold EqualGo
  cases hrun : runEngine ctx opts fuel x y with
  | error e => rw [hrun] at h; simp [Bind.bind, Except.bind] at h
  | ok s =>
      rw [hrun] at h
      simp only [Bind.bind, Except.bind] at h ⊢
      by_cases hc : ((reporterString s.evLog == "") != s.result.IsEqual) = true
      · rw [if_pos hc] at h; cases h
      · rw [if_neg hc] at h
        cases h
        have hb : (reporterString s.evLog == "") = s.result.IsEqual := by
          by_contra hne
          exact hc (bne_iff_ne.mpr hne)
        simp only [Except.ok.injEq]
        rw [← hb]
        exact beq_iff_eq.symm

/-- Witness for C1 at a concrete input: comparing `int(3)` with itself
under no options yields the empty diff and a true equality verdict. -/
theorem C1_witness :
    DiffGo exCtx [] 5 (some (Ty.tInt, GoVal.vInt 3)) (some (Ty.tInt, GoVal.vInt 3)) =
      Except.ok "" ∧
    ("" = "" ↔
      EqualGo exCtx [] 5 (some (Ty.tInt, GoVal.vInt 3)) (some (Ty.tInt, GoVal.vInt 3)) =
        Except.ok true) :=
  ⟨rfl, C1_diff_empty_iff_equal exCtx [] 5 _ _ "" rfl⟩

/-! ## C6 -/

/-- The failing input for C6: a first unequal record of 300 newlines
(exceeding the 256-line budget), then a second unequal record which is
therefore dropped. -/
def c6Record : String := String.mk (List.replicate 300 '\n')

def c6After : LegacyReporter :=
  (LegacyReporter.empty.reportDiff false c6Record).reportDiff false "second"

set_option maxRecDepth 8000

/-- C6: the claim fails on the code.  After the two reports above,
exactly one difference was omitted (`ndiffs - len(diffs) = 1`), but
the rendered output ends with the marker "... -1 more differences ..."
because `defaultReporter.String` (part_001 line 81) computes the count
as `len(r.diffs) - r.ndiffs`; the sibling reporter in src/cmp/report.go
computes `r.ndiffs - len(r.diffs)` for the same marker, so the spec
("N more differences", N the number omitted) is the evident intent. -/
theorem C6_truncation_marker_bug :
    c6After.ndiffs - c6After.diffs.length = 1 ∧
    c6After.render = c6Record ++ "... -1 more differences ..." := by
  constructor
  · rfl
  · rfl

/-! ## C7 -/

/-- C7: a Transformer whose identity already occurs in the contiguous
tail of Transform steps at the end of the current path is filtered out
(`transformer.filter`, part_003 lines 263-275 -- the `tr == t.trans`
test against the path suffix), so the identical transformer is never
applicable, hence never applied, twice in immediate succession. -/
theorem C7_no_immediate_reapplication (ctx : Ctx) (st : Step) (tr : TransformerO)
    (s : GoState) (h : tr.trId ∈ transTailIds s.curPath) :
    optionFilter ctx st (CmpOption.trO tr) s = Except.ok (none, s) := by
  have hb : transformBlocked tr.trId s.curPath = true :=
    blockedAux_of_mem tr.trId s.curPath.reverse h
  unfold optionFilter
  rw [hb]
  exact if_pos rfl

/-- Witness for C7: with the path ending in a Transform step of
identity 7, a transformer with identity 7 does not apply. -/
theorem C7_witness :
    (7 : Nat) ∈ transTailIds
      [{ kind := StepKind.transformK 7 "T", typ := Ty.tInt,
         vx := GoVal.vInt 0, vy := GoVal.vInt 0 }] ∧
    optionFilter exCtx
      { kind := StepKind.rootK, typ := Ty.tInt, vx := GoVal.vInt 1, vy := GoVal.vInt 2 }
      (CmpOption.trO ⟨7, "T", some Ty.tInt, Ty.tInt⟩)
      { curPath := [{ kind := StepKind.transformK 7 "T", typ := Ty.tInt,
                      vx := GoVal.vInt 0, vy := GoVal.vInt 0 }] } =
      Except.ok (none,
        { curPath := [{ kind := StepKind.transformK 7 "T", typ := Ty.tInt,
                        vx := GoVal.vInt 0, vy := GoVal.vInt 0 }] }) :=
  ⟨by decide, C7_no_immediate_reapplication _ _ _ _ (by decide)⟩

/-! ## C2 -/

/-- C2: when filter evaluation at a node leaves more than one
applicable Comparer/Transformer (`Options.filter` returned a
conflicting `Options` group, part_003 lines 73-81), the whole
comparison aborts: `compareAny` finishes with the fatal ambiguity
panic of `Options.apply` (part_003 lines 87-96), whose message is
built from the current path and the descriptions of the flattened
conflicting options — the engine never silently picks one (the
conclusion holds for every possible recursion `recur`). -/
theorem C2_ambiguous_options_abort (recur : GoState → Step → M GoState) (ctx : Ctx)
    (cfg : Cfg) (s : GoState) (st : Step) (nxt : Nat) (l : List AppOpt) (s₂ : GoState)
    (hrec : recCheck s.recNext (s.curPath ++ [st]) = Except.ok nxt)
    (hfold : optionsFilterList ctx st cfg.opts none
        { pushStep s st with recNext := nxt } = Except.ok (some (AppOpt.amb l), s₂)) :
    compareAnyAux recur ctx cfg s st =
      Except.error (Err.panicked
        (ambiguousMsg ctx.funcs.fname (s.curPath ++ [st]) (flattenApp l))) := by
  have hstate := optionsFilterList_state ctx st cfg.opts none _ _ hfold
  have hpath : s₂.curPath = s.curPath ++ [st] := hstate.2.1
  unfold compareAnyAux
  simp only [Bind.bind, Except.bind]
  have hrec2 : recCheck (pushStep s st).recNext (pushStep s st).curPath = Except.ok nxt := hrec
  rw [hrec2]
  unfold tryOptions
  simp only [Bind.bind, Except.bind]
  rw [hfold]
  unfold applyAppOpt
  dsimp only
  rw [hpath]

/-- Witness for C2: two unconditioned Comparers of type `int` both
apply at an `int` node; the comparison aborts with the ambiguity
message naming the path and both comparers. -/
theorem C2_witness :
    compareAnyAux (compareAny exCtx
        { opts := [CmpOption.validatorO,
                   CmpOption.cmpO ⟨1, some Ty.tInt⟩,
                   CmpOption.cmpO ⟨2, some Ty.tInt⟩] } 5)
      exCtx
      { opts := [CmpOption.validatorO,
                 CmpOption.cmpO ⟨1, some Ty.tInt⟩,
                 CmpOption.cmpO ⟨2, some Ty.tInt⟩] }
      {} { kind := StepKind.rootK, typ := Ty.tInt, vx := GoVal.vInt 3, vy := GoVal.vInt 4 } =
    Except.error (Err.panicked
      ("ambiguous set of applicable options at root:\n\tComparer(f)\n\tComparer(f)" ++
        "\nconsider using filters to ensure at most one Comparer or Transformer may apply")) := by
  have h := C2_ambiguous_options_abort
    (compareAny exCtx
      { opts := [CmpOption.validatorO,
                 CmpOption.cmpO ⟨1, some Ty.tInt⟩,
                 CmpOption.cmpO ⟨2, some Ty.tInt⟩] } 5)
    exCtx
    { opts := [CmpOption.validatorO,
               CmpOption.cmpO ⟨1, some Ty.tInt⟩,
               CmpOption.cmpO ⟨2, some Ty.tInt⟩] }
    {} { kind := StepKind.rootK, typ := Ty.tInt, vx := GoVal.vInt 3, vy := GoVal.vInt 4 }
    recMinLen
    [AppOpt.cmp ⟨1, some Ty.tInt⟩, AppOpt.cmp ⟨2, some Ty.tInt⟩]
    { curPath := [{ kind := StepKind.rootK, typ := Ty.tInt,
                    vx := GoVal.vInt 3, vy := GoVal.vInt 4 }],
      evLog := [REvent.pushE { kind := StepKind.rootK, typ := Ty.tInt,
                               vx := GoVal.vInt 3, vy := GoVal.vInt 4 }],
      recNext := recMinLen }
    rfl rfl
  rw [h]
  rfl

/-! ## C3 -/

/-- C3: when filter evaluation at a node resolves to Ignore
(`Options.filter` short-circuits to `ignore{}` the moment any option
filters to it, part_003 lines 69-70), `compareAny` reports the node
ignored (no tally change) and returns: descent stops, and the outcome
is the same for every possible recursion `recur` and independent of
whatever other options (comparers or transformers included)
simultaneously matched — only the filter outcome matters. -/
theorem C3_ignore_short_circuit (recur : GoState → Step → M GoState) (ctx : Ctx)
    (cfg : Cfg) (s : GoState) (st : Step) (nxt : Nat) (s₂ : GoState)
    (hrec : recCheck s.recNext (s.curPath ++ [st]) = Except.ok nxt)
    (hfold : optionsFilterList ctx st cfg.opts none
        { pushStep s st with recNext := nxt } = Except.ok (some AppOpt.ign, s₂)) :
    compareAnyAux recur ctx cfg s st =
      Except.ok (popStep (reportState s₂ true { ignoredF := true })) ∧
    (popStep (reportState s₂ true { ignoredF := true })).result = s.result := by
  have hstate := optionsFilterList_state ctx st cfg.opts none _ _ hfold
  constructor
  · unfold compareAnyAux
    simp only [Bind.bind, Except.bind]
    have hrec2 : recCheck (pushStep s st).recNext (pushStep s st).curPath = Except.ok nxt := hrec
    rw [hrec2]
    unfold tryOptions
    simp only [Bind.bind, Except.bind]
    rw [hfold]
    rfl
  · have hstate2 := hstate
    simp only [popStep, reportState]
    exact hstate.1

/-- Witness for C3: a path-filtered Ignore and a matching Comparer
both apply at an `int` node with different values; the node is
ignored, the tally is untouched, and the comparer is irrelevant. -/
theorem C3_witness :
    compareAnyAux (compareAny exCtx
        { opts := [CmpOption.validatorO,
                   CmpOption.pathF 0 CmpOption.ignoreO,
                   CmpOption.cmpO ⟨1, some Ty.tInt⟩] } 5)
      exCtx
      { opts := [CmpOption.validatorO,
                 CmpOption.pathF 0 CmpOption.ignoreO,
                 CmpOption.cmpO ⟨1, some Ty.tInt⟩] }
      {} { kind := StepKind.rootK, typ := Ty.tInt, vx := GoVal.vInt 3, vy := GoVal.vInt 4 } =
      Except.ok (popStep (reportState
        { curPath := [{ kind := StepKind.rootK, typ := Ty.tInt,
                        vx := GoVal.vInt 3, vy := GoVal.vInt 4 }],
          evLog := [REvent.pushE { kind := StepKind.rootK, typ := Ty.tInt,
                                   vx := GoVal.vInt 3, vy := GoVal.vInt 4 }],
          recNext := recMinLen }
        true { ignoredF := true })) ∧
    (popStep (reportState
        { curPath := [{ kind := StepKind.rootK, typ := Ty.tInt,
                        vx := GoVal.vInt 3, vy := GoVal.vInt 4 }],
          evLog := [REvent.pushE { kind := StepKind.rootK, typ := Ty.tInt,
                                   vx := GoVal.vInt 3, vy := GoVal.vInt 4 }],
          recNext := recMinLen }
        true { ignoredF := true })).result = ({} : GoState).result :=
  C3_ignore_short_circuit
    (compareAny exCtx
      { opts := [CmpOption.validatorO,
                 CmpOption.pathF 0 CmpOption.ignoreO,
                 CmpOption.cmpO ⟨1, some Ty.tInt⟩] } 5)
    exCtx
    { opts := [CmpOption.validatorO,
               CmpOption.pathF 0 CmpOption.ignoreO,
               CmpOption.cmpO ⟨1, some Ty.tInt⟩] }
    {} { kind := StepKind.rootK, typ := Ty.tInt, vx := GoVal.vInt 3, vy := GoVal.vInt 4 }
    recMinLen
    { curPath := [{ kind := StepKind.rootK, typ := Ty.tInt,
                    vx := GoVal.vInt 3, vy := GoVal.vInt 4 }],
      evLog := [REvent.pushE { kind := StepKind.rootK, typ := Ty.tInt,
                               vx := GoVal.vInt 3, vy := GoVal.vInt 4 }],
      recNext := recMinLen }
    rfl rfl

/-! ## C10 -/

/-- C10: the pre-scan of `compareSlice` (part_009 lines 447-462), which
runs `statelessCompare` on every element standing alone to decide
ignorability, leaves the accumulated same/diff tally and the reporter
stream exactly as they were before the scan: no reporter event of the
scanned pairs survives and no tally change does. -/
theorem C10_prescan_frame (recur : GoState → Step → M GoState) (pos : Nat → Step) :
    ∀ (idxs : List Nat) (s : GoState) (out : List Bool × List Nat × GoState),
      sliceIgnoreScan recur pos idxs s = Except.ok out →
      out.2.2.result = s.result ∧ out.2.2.evLog = s.evLog := by
  intro idxs
  induction idxs with
  | nil =>
      intro s out h
      unfold sliceIgnoreScan at h
      cases h
      exact ⟨rfl, rfl⟩
  | cons i rest ih =>
      intro s out h
      unfold sliceIgnoreScan at h
      cases hc : statelessCompare recur s (pos i) with
      | error e => rw [hc] at h; simp [Bind.bind, Except.bind] at h
      | ok c =>
          rw [hc] at h
          simp only [Bind.bind, Except.bind] at h
          cases hr : sliceIgnoreScan recur pos rest c.2 with
          | error e => rw [hr] at h; simp at h
          | ok r =>
              rw [hr] at h
              cases h
              have h1 := statelessCompare_frame recur s (pos i) c hc
              have h2 := ih c.2 r hr
              exact ⟨h2.1.trans h1.1, h2.2.trans h1.2⟩

set_option maxRecDepth 20000

/-- Witness for C10: scanning both elements of `[]int\x7b1, 2\x7d` against
"absent" marks neither ignorable, touches the recursion-checker
threshold only, and leaves the tally and reporter stream empty as they
started. -/
theorem C10_witness :
    sliceIgnoreScan (compareAny exCtx {} 5)
        (fun i => sliceStep Ty.tInt [GoVal.vInt 1, GoVal.vInt 2] [] (Int.ofNat i) (-1))
        [0, 1] {} =
      Except.ok ([false, false], [0, 1], { recNext := recMinLen }) ∧
    ({ recNext := recMinLen } : GoState).result = ({} : GoState).result ∧
    ({ recNext := recMinLen } : GoState).evLog = ({} : GoState).evLog :=
  ⟨rfl,
    C10_prescan_frame (compareAny exCtx {} 5)
      (fun i => sliceStep Ty.tInt [GoVal.vInt 1, GoVal.vInt 2] [] (Int.ofNat i) (-1))
      [0, 1] {} ([false, false], [0, 1], { recNext := recMinLen }) (by rfl)⟩

/-! ## C5 -/

theorem keyLE_total (a b : GoKey) : keyLE a b = true ∨ keyLE b a = true := by
  rcases a with x | x | (v | t) <;> rcases b with y | y | (w | u) <;>
    simp only [keyLE, keyRank, decide_eq_true_eq] <;>
    first
      | (left; trivial)
      | (right; trivial)
      | omega
      | exact le_total _ _

theorem keyLE_trans (a b c : GoKey) (h1 : keyLE a b = true) (h2 : keyLE b c = true) :
    keyLE a c = true := by
  rcases a with x | x | (v | t) <;> rcases b with y | y | (w | u) <;>
    rcases c with z | z | (r | q) <;>
    simp only [keyLE, keyRank, decide_eq_true_eq] at h1 h2 ⊢ <;>
    first
      | trivial
      | omega
      | exact le_trans h1 h2

theorem keyLE_antisymm (a b : GoKey) (h1 : keyLE a b = true) (h2 : keyLE b a = true) :
    a = b := by
  rcases a with x | x | (v | t) <;> rcases b with y | y | (w | u) <;>
    simp only [keyLE, keyRank, decide_eq_true_eq] at h1 h2 <;>
    first
      | trivial
      | (congr 1; omega)
      | (congr 1; exact le_antisymm h1 h2)
      | (congr 2; omega)

instance : IsTotal GoKey keyRel := ⟨keyLE_total⟩
instance : IsTrans GoKey keyRel := ⟨keyLE_trans⟩
instance : IsAntisymm GoKey keyRel := ⟨keyLE_antisymm⟩

/-- Go `==` never matches a NaN-containing key. -/
theorem goKeyEq_nan_right (t : Nat) (k : GoKey) :
    goKeyEq k (GoKey.kFl (FloatK.nan t)) = false := by
  rcases k with x | x | (v | u) <;> rfl

/-- `MapIndex` on a NaN-containing key always yields the invalid value
(part_009 lines 510-517: "It is possible for both vx and vy to be
invalid if the key contained a NaN value in it"). -/
theorem mapLookup_nan (entries : List (GoKey × GoVal)) (t : Nat) :
    mapLookup entries (GoKey.kFl (FloatK.nan t)) = GoVal.vInvalid := by
  unfold mapLookup
  have hnone : entries.find? (fun e => goKeyEq e.1 (GoKey.kFl (FloatK.nan t))) = none := by
    apply List.find?_eq_none.mpr
    intro e _
    simp [goKeyEq_nan_right]
  rw [hnone]

/-- In a float-keyed union containing a NaN key, the deterministic key
ordering (`sortKeys`, part_001 lines 310-399: NaN sorts first among
floats) puts a NaN key at the head. -/
theorem sortKeysGo_head_nan (l : List GoKey)
    (hfl : ∀ k ∈ l, ∃ f, k = GoKey.kFl f)
    (t : Nat) (hnan : GoKey.kFl (FloatK.nan t) ∈ l) :
    ∃ t2 rest, sortKeysGo l = GoKey.kFl (FloatK.nan t2) :: rest := by
  have hperm := List.perm_insertionSort keyRel l
  have hsorted := List.sorted_insertionSort keyRel l
  have hmem : GoKey.kFl (FloatK.nan t) ∈ List.insertionSort keyRel l :=
    hperm.mem_iff.mpr hnan
  cases hsl : List.insertionSort keyRel l with
  | nil => rw [hsl] at hmem; simp at hmem
  | cons hd rest =>
      have hhd : hd ∈ l := hperm.mem_iff.mp (hsl ▸ List.mem_cons_self hd rest)
      obtain ⟨f, hf⟩ := hfl hd hhd
      subst hf
      cases f with
      | nan t2 =>
          refine ⟨t2, dedupAux (GoKey.kFl (FloatK.nan t2)) rest, ?_⟩
          unfold sortKeysGo
          rw [hsl]
      | fin v =>
          exfalso
          rw [hsl] at hmem
          rcases List.mem_cons.mp hmem with he | hm
          · simp at he
          · rw [hsl] at hsorted
            have hle := (List.sorted_cons.mp hsorted).1 _ hm
            simp [keyRel, keyLE] at hle

/-- C5: comparing two non-nil float-keyed maps whose key union contains
a NaN-component key aborts: the NaN key sorts first, its value cannot
be retrieved from either side (`MapIndex` yields the invalid value for
it), and `compareMap` (part_009 lines 510-527) panics with the
descriptive message naming the current path — no equality verdict is
produced, whatever the rest of the engine (`recur`) would do. -/
theorem C5_nan_map_key_abort (recur : GoState → Step → M GoState) (elemT : Ty)
    (st : Step) (s : GoState) (ex ey : List (GoKey × GoVal))
    (hx : st.vx = GoVal.vMap false ex) (hy : st.vy = GoVal.vMap false ey)
    (hfl : ∀ k ∈ ex.map Prod.fst ++ ey.map Prod.fst, ∃ f, k = GoKey.kFl f)
    (t : Nat) (hnan : GoKey.kFl (FloatK.nan t) ∈ ex.map Prod.fst ++ ey.map Prod.fst) :
    compareMap recur elemT st s = Except.error (Err.panicked (nanKeyMsg s.curPath)) := by
  obtain ⟨t2, rest, hsort⟩ := sortKeysGo_head_nan _ hfl t hnan
  unfold compareMap
  rw [hx, hy]
  dsimp only
  rw [hsort]
  unfold compareMapEntries
  simp [mapLookup_nan, GoVal.valid]

/-- Witness for C5: the map `map[float64]int\x7bNaN: 1\x7d` against the
empty map aborts with the NaN-key panic. -/
theorem C5_witness :
    compareMap (compareAny exCtx {} 5) Ty.tInt
      { kind := StepKind.rootK, typ := Ty.tMap Ty.tInt Ty.tInt,
        vx := GoVal.vMap false [(GoKey.kFl (FloatK.nan 0), GoVal.vInt 1)],
        vy := GoVal.vMap false [] }
      { curPath := [{ kind := StepKind.rootK, typ := Ty.tMap Ty.tInt Ty.tInt,
                      vx := GoVal.vInvalid, vy := GoVal.vInvalid }] } =
    Except.error (Err.panicked (nanKeyMsg
      [{ kind := StepKind.rootK, typ := Ty.tMap Ty.tInt Ty.tInt,
         vx := GoVal.vInvalid, vy := GoVal.vInvalid }])) :=
  C5_nan_map_key_abort (compareAny exCtx {} 5) Ty.tInt _ _
    [(GoKey.kFl (FloatK.nan 0), GoVal.vInt 1)] [] rfl rfl
    (by intro k hk; simp at hk; exact ⟨FloatK.nan 0, hk⟩)
    0 (by simp)

theorem compareAny_succ (ctx : Ctx) (cfg : Cfg) (n : Nat) :
    compareAny ctx cfg (n + 1) = compareAnyAux (compareAny ctx cfg n) ctx cfg := rfl

/-! ## C9 -/

def scalarTy (t : Ty) : Prop := t = Ty.tBool ∨ t = Ty.tInt ∨ t = Ty.tStr

theorem recCheck_small (rn : Nat) (p : List Step) (h : p.length < recMinLen)
    (hrn : rn = 0 ∨ rn = recMinLen) : recCheck rn p = Except.ok recMinLen := by
  rcases hrn with h0 | h0 <;> subst h0 <;> simp [recCheck, recMinLen] at h ⊢ <;> omega

theorem validator_only_filter (ctx : Ctx) (st : Step) (s : GoState)
    (hvalx : st.vx.valid = true) (hvaly : st.vy.valid = true) (hun : st.unexp = false) :
    optionsFilterList ctx st [CmpOption.validatorO] none s = Except.ok (none, s) := by
  unfold optionsFilterList optionFilter
  simp [hvalx, hvaly, hun, Bind.bind, Except.bind, optionsFilterList]

/-- A leaf comparison of a scalar-typed node holding the same value on
both sides, under the default option set: one equal report, nothing
else. -/
theorem scalar_leaf_eq (ctx : Ctx) (fuel : Nat) (s : GoState) (st : Step)
    (hty : scalarTy st.typ) (hun : st.unexp = false) (hvv : st.vx = st.vy)
    (hm : ctx.methodOf st.typ = none)
    (hlen : s.curPath.length + 1 < recMinLen)
    (hrn : s.recNext = 0 ∨ s.recNext = recMinLen) :
    compareAny ctx {} (fuel + 1) s st =
      Except.ok { s with
        recNext := recMinLen,
        result := { s.result with NumSame := s.result.NumSame + 1 },
        evLog := s.evLog ++
          [REvent.pushE st, REvent.reportE ⟨true, false, false, false⟩, REvent.popE] } := by
  have hrc : recCheck s.recNext (s.curPath ++ [st]) = Except.ok recMinLen := by
    apply recCheck_small _ _ _ hrn
    simpa using hlen
  simp only [compareAny, compareAnyAux, Bind.bind, Except.bind]
  have hrc2 : recCheck (pushStep s st).recNext (pushStep s st).curPath =
      Except.ok recMinLen := hrc
  rw [hrc2]
  cases hval : st.vx.valid with
  | false =>
      -- both sides invalid: the validator reports a (vacuously equal) leaf
      have hvaly : st.vy.valid = false := by rw [← hvv]; exact hval
      have hfold : optionsFilterList ctx st [CmpOption.validatorO] none
          { pushStep s st with recNext := recMinLen } =
          Except.ok (some AppOpt.inv, { pushStep s st with recNext := recMinLen }) := by
        unfold optionsFilterList optionFilter
        simp [hval, Bind.bind, Except.bind, optionsFilterList]
      unfold tryOptions
      simp only [Bind.bind, Except.bind]
      rw [hfold]
      dsimp only
      unfold applyAppOpt
      rw [hval, hvaly]
      dsimp only [popStep, pushStep, reportState]
      simp [List.dropLast_concat]
  | true =>
      have hvaly : st.vy.valid = true := by rw [← hvv]; exact hval
      have hfold := validator_only_filter ctx st
        { pushStep s st with recNext := recMinLen } hval hvaly hun
      unfold tryOptions
      simp only [Bind.bind, Except.bind]
      rw [hfold]
      dsimp only
      unfold tryMethod
      rw [hm]
      dsimp only
      rcases hty with h | h | h <;> rw [h] <;> dsimp only <;>
        rw [hvv] <;>
        simp [popStep, pushStep, reportState, List.dropLast_concat]

theorem structWalk (ctx : Ctx) (fuel : Nat) (name : String) (xs ys : List GoVal) :
    ∀ (fl : List (String × Ty)) (i : Nat) (s : GoState),
      (∀ j fn ft, fl.get? j = some (fn, ft) → fn ≠ "_" →
        isExported fn = true ∧ scalarTy ft ∧ ctx.methodOf ft = none ∧
        xs.getD (i + j) GoVal.vInvalid = ys.getD (i + j) GoVal.vInvalid) →
      s.curPath.length + 1 < recMinLen →
      (s.recNext = 0 ∨ s.recNext = recMinLen) →
      ∃ s', compareStructFields (compareAny ctx {} (fuel + 1)) {} name xs ys i fl s =
          Except.ok s' ∧
        s'.result.NumDiff = s.result.NumDiff ∧
        s'.curPath = s.curPath ∧
        (s'.recNext = 0 ∨ s'.recNext = recMinLen) := by
  intro fl
  induction fl with
  | nil =>
      intro i s hf hlen hrn
      exact ⟨s, rfl, rfl, rfl, hrn⟩
  | cons p rest ih =>
      intro i s hf hlen hrn
      obtain ⟨fn, ft⟩ := p
      by_cases hblank : fn = "_"
      · subst hblank
        unfold compareStructFields
        rw [if_pos (by decide), if_pos (by decide)]
        have hf2 : ∀ j fn ft, rest.get? j = some (fn, ft) → fn ≠ "_" →
            isExported fn = true ∧ scalarTy ft ∧ ctx.methodOf ft = none ∧
            xs.getD (i + 1 + j) GoVal.vInvalid = ys.getD (i + 1 + j) GoVal.vInvalid := by
          intro j fn ft hj hne
          have := hf (j + 1) fn ft (by simpa using hj) hne
          have harith : i + (j + 1) = i + 1 + j := by omega
          rw [harith] at this
          exact this
        exact ih (i + 1) s hf2 hlen hrn
      · have h0 := hf 0 fn ft rfl hblank
        obtain ⟨hexp, hsc, hmeth, hvals⟩ := h0
        rw [Nat.add_zero] at hvals
        unfold compareStructFields
        rw [if_neg (by simp [hexp])]
        simp only [Bind.bind, Except.bind]
        have hleaf := scalar_leaf_eq ctx fuel s
          { kind := StepKind.fieldK fn i, typ := ft,
            vx := xs.getD i GoVal.vInvalid, vy := ys.getD i GoVal.vInvalid }
          hsc rfl hvals hmeth hlen hrn
        rw [hleaf]
        have hf2 : ∀ j fn ft, rest.get? j = some (fn, ft) → fn ≠ "_" →
            isExported fn = true ∧ scalarTy ft ∧ ctx.methodOf ft = none ∧
            xs.getD (i + 1 + j) GoVal.vInvalid = ys.getD (i + 1 + j) GoVal.vInvalid := by
          intro j fn2 ft2 hj hne
          have := hf (j + 1) fn2 ft2 (by simpa using hj) hne
          have harith : i + (j + 1) = i + 1 + j := by omega
          rw [harith] at this
          exact this
        obtain ⟨s2, hs2, hd2, hp2, hr2⟩ := ih (i + 1)
          { s with
            recNext := recMinLen,
            result := { s.result with NumSame := s.result.NumSame + 1 },
            evLog := s.evLog ++
              [REvent.pushE
                { kind := StepKind.fieldK fn i, typ := ft,
                  vx := xs.getD i GoVal.vInvalid, vy := ys.getD i GoVal.vInvalid },
               REvent.reportE ⟨true, false, false, false⟩, REvent.popE] }
          hf2 (by simpa using hlen) (Or.inr rfl)
        exact ⟨s2, hs2, hd2, hp2, hr2⟩

/-- C9: during struct comparison (part_009 lines 391-422) every field
named "_" is skipped before any access or report: for a struct node
whose non-blank fields are exported scalars holding equal values, the
comparison succeeds with no difference reported, regardless of the
values held by blank-named (necessarily unexported) fields and with no
visibility grant and no ignore rule configured (the default `Cfg` has
an empty exporter set). -/
theorem C9_blank_fields_skipped (ctx : Ctx) (fuel : Nat) (name : String)
    (xs ys : List GoVal) (s : GoState) (st : Step)
    (hst : st.typ = Ty.tStruct name)
    (hvx : st.vx = GoVal.vStruct xs) (hvy : st.vy = GoVal.vStruct ys)
    (hun : st.unexp = false)
    (hm : ctx.methodOf (Ty.tStruct name) = none)
    (hfields : ∀ j fn ft, (ctx.structFields name).get? j = some (fn, ft) → fn ≠ "_" →
        isExported fn = true ∧ scalarTy ft ∧ ctx.methodOf ft = none ∧
        xs.getD j GoVal.vInvalid = ys.getD j GoVal.vInvalid)
    (hlen : s.curPath.length + 2 < recMinLen)
    (hrn : s.recNext = 0 ∨ s.recNext = recMinLen) :
    ∃ s', compareAny ctx {} (fuel + 2) s st = Except.ok s' ∧
      s'.result.NumDiff = s.result.NumDiff := by
  have hrc : recCheck s.recNext (s.curPath ++ [st]) = Except.ok recMinLen := by
    apply recCheck_small _ _ _ hrn
    simp
    omega
  rw [compareAny_succ]
  simp only [compareAnyAux, Bind.bind, Except.bind]
  have hrc2 : recCheck (pushStep s st).recNext (pushStep s st).curPath =
      Except.ok recMinLen := hrc
  rw [hrc2]
  have hvalx : st.vx.valid = true := by rw [hvx]; rfl
  have hvaly : st.vy.valid = true := by rw [hvy]; rfl
  have hfold := validator_only_filter ctx st
    { pushStep s st with recNext := recMinLen } hvalx hvaly hun
  unfold tryOptions
  simp only [Bind.bind, Except.bind]
  rw [hfold]
  dsimp only
  unfold tryMethod
  rw [hst, hm]
  dsimp only
  unfold compareStruct
  rw [hvx, hvy]
  dsimp only [GoVal.structFields]
  have hwalk := structWalk ctx fuel name xs ys (ctx.structFields name) 0
    { pushStep s st with recNext := recMinLen }
    (by simpa using hfields)
    (by simp [pushStep]; omega)
    (Or.inr rfl)
  obtain ⟨s2, hs2, hd2, hp2, hr2⟩ := hwalk
  rw [hs2]
  dsimp only
  refine ⟨popStep s2, rfl, ?_⟩
  simpa using hd2

def c9Ctx : Ctx := ⟨[], fun _ => [("_", Ty.tInt), ("A", Ty.tInt)], fun _ => none, exFuncs⟩

/-- Witness for C9: `struct\x7b_ int; A int\x7d\x7b1, 5\x7d` and
`...\x7b2, 5\x7d` differ only in the blank field and compare with no
difference and no unexported-access panic, without any
`AllowUnexported` grant. -/
theorem C9_witness :
    ∃ s', compareAny c9Ctx {} 5 {}
        { kind := StepKind.rootK, typ := Ty.tStruct "S",
          vx := GoVal.vStruct [GoVal.vInt 1, GoVal.vInt 5],
          vy := GoVal.vStruct [GoVal.vInt 2, GoVal.vInt 5] } = Except.ok s' ∧
      s'.result.NumDiff = ({} : GoState).result.NumDiff :=
  C9_blank_fields_skipped c9Ctx 3 "S"
    [GoVal.vInt 1, GoVal.vInt 5] [GoVal.vInt 2, GoVal.vInt 5]
    {} _ rfl rfl rfl rfl rfl
    (by
      intro j fn ft hj hne
      match j with
      | 0 =>
          simp [c9Ctx] at hj
          exact absurd hj.1.symm hne
      | 1 =>
          simp [c9Ctx] at hj
          obtain ⟨h1, h2⟩ := hj
          exact ⟨by rw [← h1]; decide, Or.inr (Or.inl h2.symm), by rw [← h2]; rfl, rfl⟩
      | n + 2 => simp [c9Ctx] at hj)
    (by simp [recMinLen])
    (Or.inl rfl)

/-! ## C4 -/

/-- The cycle detector of part_002: depth maps per side, keyed by
pointer address.  Note: nothing in the engine (`compareAny` and its
helpers above) refers to it — part_009 line 212 still reads
"TODO: Support cyclic data structures." -/
structure CyclesGo where
  xDepth : List (Nat × Nat)
  yDepth : List (Nat × Nat)

def CyclesGo.compareAddrs (c : CyclesGo) (xAddr yAddr : Nat) : Bool × Bool :=
  let xd := c.xDepth.lookup xAddr
  let yd := c.yDepth.lookup yAddr
  (xd.getD 0 == yd.getD 0, xd.isSome || yd.isSome)

def CyclesGo.pushAddrs (c : CyclesGo) (xAddr yAddr : Nat) : CyclesGo :=
  let depth := c.xDepth.length + 1
  ⟨(xAddr, depth) :: c.xDepth, (yAddr, depth) :: c.yDepth⟩

/-- The heap of the C4 inputs: address 1 is a 1-cycle
(`n1.Next = &n1`), addresses 2 and 3 a 2-cycle of mutually referencing
nodes. -/
def succAddr : Nat → Nat
  | 1 => 1
  | 2 => 3
  | 3 => 2
  | _ => 0

def nodeTy : Ty := Ty.tPtr (Ty.tStruct "Node")

def cycCtx : Ctx :=
  ⟨[(1, GoVal.vStruct [GoVal.vPtr 1]),
    (2, GoVal.vStruct [GoVal.vPtr 3]),
    (3, GoVal.vStruct [GoVal.vPtr 2])],
   fun _ => [("Next", nodeTy)], fun _ => none, exFuncs⟩

def cycAddr (a : Nat) : Prop := a = 1 ∨ a = 2 ∨ a = 3

theorem succAddr_cyc {a : Nat} (h : cycAddr a) : cycAddr (succAddr a) := by
  rcases h with h | h | h <;> subst h <;> simp [succAddr, cycAddr]

theorem heapGet_cyc {a : Nat} (h : cycAddr a) :
    heapGet cycCtx a = GoVal.vStruct [GoVal.vPtr (succAddr a)] := by
  rcases h with h | h | h <;> subst h <;> rfl

theorem transSteps_append (p : List Step) (st : Step) :
    transSteps (p ++ [st]) = transSteps p ++ transSteps [st] := by
  unfold transSteps
  rw [List.filterMap_append]

theorem recCheck_noTrans (rn : Nat) (p : List Step) (h : transSteps p = []) :
    ∃ n, recCheck rn p = Except.ok n := by
  unfold recCheck
  rw [h]
  split <;> split <;> exact ⟨_, rfl⟩

theorem tryMethod_none (ctx : Ctx) (st : Step) (s : GoState)
    (h : ctx.methodOf st.typ = none) : tryMethod ctx st s = Except.ok (false, s) := by
  unfold tryMethod
  rw [h]

/-- Non-termination of the engine on the cyclic heap: for every fuel
bound, comparing any two of the cyclic pointers (or their pointed-to
structs) runs out of fuel — the recursion `ptr → indirect struct →
Next field → ptr` never reaches a leaf, since `compareAny` has no
cycle tracking. -/
theorem cyc_no_fuel (fuel : Nat) :
    (∀ (s : GoState) (k : StepKind) (a b : Nat), transSteps s.curPath = [] →
       stepTransInfo ⟨k, nodeTy, GoVal.vPtr a, GoVal.vPtr b, false⟩ = none →
       cycAddr a → cycAddr b →
       compareAny cycCtx {} fuel s ⟨k, nodeTy, GoVal.vPtr a, GoVal.vPtr b, false⟩ =
         Except.error Err.fuelOut) ∧
    (∀ (s : GoState) (a b : Nat), transSteps s.curPath = [] →
       cycAddr a → cycAddr b →
       compareAny cycCtx {} fuel s
         ⟨StepKind.indirectK, Ty.tStruct "Node",
          heapGet cycCtx a, heapGet cycCtx b, false⟩ =
         Except.error Err.fuelOut) := by
  induction fuel with
  | zero => exact ⟨fun _ _ _ _ _ _ _ _ => rfl, fun _ _ _ _ _ _ => rfl⟩
  | succ n ih =>
      constructor
      · intro s k a b hnt hk ha hb
        have ha0 : ((a == 0) || (b == 0)) = false := by
          rcases ha with h | h | h <;> rcases hb with h2 | h2 | h2 <;>
            subst h <;> subst h2 <;> rfl
        have hone : transSteps [(⟨k, nodeTy, GoVal.vPtr a, GoVal.vPtr b, false⟩ : Step)] = [] := by
          unfold transSteps
          rw [List.filterMap_cons, hk]
          rfl
        have hnt2 : transSteps (s.curPath ++
            [(⟨k, nodeTy, GoVal.vPtr a, GoVal.vPtr b, false⟩ : Step)]) = [] := by
          rw [transSteps_append, hnt, hone]
          rfl
        obtain ⟨m, hm⟩ := recCheck_noTrans s.recNext _ hnt2
        rw [compareAny_succ]
        simp only [compareAnyAux, Bind.bind, Except.bind]
        rw [show recCheck
            (pushStep s ⟨k, nodeTy, GoVal.vPtr a, GoVal.vPtr b, false⟩).recNext
            (pushStep s ⟨k, nodeTy, GoVal.vPtr a, GoVal.vPtr b, false⟩).curPath =
            Except.ok m from hm]
        have hfold := validator_only_filter cycCtx
          ⟨k, nodeTy, GoVal.vPtr a, GoVal.vPtr b, false⟩
          { pushStep s ⟨k, nodeTy, GoVal.vPtr a, GoVal.vPtr b, false⟩ with recNext := m }
          rfl rfl rfl
        unfold tryOptions
        simp only [Bind.bind, Except.bind]
        rw [hfold]
        dsimp only
        rw [tryMethod_none cycCtx _ _ rfl]
        dsimp only [nodeTy]
        rw [ha0]
        rw [ih.2 _ a b hnt2 ha hb]
        rfl
      · intro s a b hnt ha hb
        have hst : heapGet cycCtx a = GoVal.vStruct [GoVal.vPtr (succAddr a)] :=
          heapGet_cyc ha
        have hst2 : heapGet cycCtx b = GoVal.vStruct [GoVal.vPtr (succAddr b)] :=
          heapGet_cyc hb
        have hnt2 : transSteps (s.curPath ++
            [(⟨StepKind.indirectK, Ty.tStruct "Node",
               heapGet cycCtx a, heapGet cycCtx b, false⟩ : Step)]) = [] := by
          rw [transSteps_append, hnt]
          unfold transSteps
          rw [List.filterMap_cons]
          rfl
        obtain ⟨m, hm⟩ := recCheck_noTrans s.recNext _ hnt2
        rw [compareAny_succ]
        simp only [compareAnyAux, Bind.bind, Except.bind]
        rw [show recCheck
            (pushStep s ⟨StepKind.indirectK, Ty.tStruct "Node",
              heapGet cycCtx a, heapGet cycCtx b, false⟩).recNext
            (pushStep s ⟨StepKind.indirectK, Ty.tStruct "Node",
              heapGet cycCtx a, heapGet cycCtx b, false⟩).curPath =
            Except.ok m from hm]
        have hvx : (heapGet cycCtx a).valid = true := by rw [hst]; rfl
        have hvy : (heapGet cycCtx b).valid = true := by rw [hst2]; rfl
        have hfold := validator_only_filter cycCtx
          ⟨StepKind.indirectK, Ty.tStruct "Node",
           heapGet cycCtx a, heapGet cycCtx b, false⟩
          { pushStep s ⟨StepKind.indirectK, Ty.tStruct "Node",
              heapGet cycCtx a, heapGet cycCtx b, false⟩ with recNext := m }
          hvx hvy rfl
        unfold tryOptions
        simp only [Bind.bind, Except.bind]
        rw [hfold]
        dsimp only
        rw [tryMethod_none cycCtx _ _ rfl]
        dsimp only
        unfold compareStruct
        rw [hst, hst2]
        rw [hst, hst2] at hnt2
        dsimp only [GoVal.structFields]
        rw [show cycCtx.structFields "Node" = [("Next", nodeTy)] from rfl]
        unfold compareStructFields
        rw [if_neg (by decide)]
        simp only [Bind.bind, Except.bind, List.getD_cons_zero]
        rw [ih.1 { pushStep s ⟨StepKind.indirectK, Ty.tStruct "Node",
              GoVal.vStruct [GoVal.vPtr (succAddr a)],
              GoVal.vStruct [GoVal.vPtr (succAddr b)], false⟩ with recNext := m }
            (StepKind.fieldK "Next" 0) (succAddr a) (succAddr b)
            hnt2 rfl (succAddr_cyc ha) (succAddr_cyc hb)]
        rfl

/-- Termination of the public `Equal` on given inputs: some fuel bound
suffices for the (otherwise unbounded) recursion to return a verdict. -/
def TerminatesGo (ctx : Ctx) (opts : List InOption) (x y : Option (Ty × GoVal)) : Prop :=
  ∃ fuel r, EqualGo ctx opts fuel x y = Except.ok r

/-- C4 counterexample: the claim fails on the code.  Comparing the
1-cycle node against itself — self-referential structures of identical
cycle shape and equal payloads — never terminates: `compareAny` has no
cycle tracking (part_009 line 212 is "TODO: Support cyclic data
structures", and the `cycles` helper of part_002 is referenced
nowhere), so every fuel bound is exhausted. -/
theorem C4_counterexample :
    ¬ TerminatesGo cycCtx [] (some (nodeTy, GoVal.vPtr 1)) (some (nodeTy, GoVal.vPtr 1)) := by
  rintro ⟨fuel, r, h⟩
  have hrun : compareAny cycCtx {} fuel {}
      ⟨StepKind.rootK, nodeTy, GoVal.vPtr 1, GoVal.vPtr 1, false⟩ =
      Except.error Err.fuelOut :=
    (cyc_no_fuel fuel).1 {} StepKind.rootK 1 1 rfl rfl (Or.inl rfl) (Or.inl rfl)
  have hE : EqualGo cycCtx [] fuel (some (nodeTy, GoVal.vPtr 1)) (some (nodeTy, GoVal.vPtr 1)) =
      Except.error Err.fuelOut := by
    unfold EqualGo runEngine newStateCfg processOptions
    simp only [Bind.bind, Except.bind]
    rw [show mkRootInput (some (nodeTy, GoVal.vPtr 1)) (some (nodeTy, GoVal.vPtr 1)) =
        (nodeTy, GoVal.vPtr 1, GoVal.vPtr 1) from rfl]
    dsimp only
    rw [hrun]
  rw [hE] at h
  cases h

/-- C4 amended: Equal does not terminate on cyclic inputs.  Comparing
the 1-cycle node (address 1) against a node of the 2-cycle (addresses
2 and 3) also fails to terminate for every fuel bound, so the
structurally-different-shapes half of the claim fails as well: the
engine can neither equate nor distinguish cyclic values — it recurses
forever (the part_002 cycle detector exists but is not wired into
`compareAny`). -/
theorem C4_amended_no_termination :
    ¬ TerminatesGo cycCtx [] (some (nodeTy, GoVal.vPtr 1)) (some (nodeTy, GoVal.vPtr 2)) := by
  rintro ⟨fuel, r, h⟩
  have hrun : compareAny cycCtx {} fuel {}
      ⟨StepKind.rootK, nodeTy, GoVal.vPtr 1, GoVal.vPtr 2, false⟩ =
      Except.error Err.fuelOut :=
    (cyc_no_fuel fuel).1 {} StepKind.rootK 1 2 rfl rfl (Or.inl rfl) (Or.inr (Or.inl rfl))
  have hE : EqualGo cycCtx [] fuel (some (nodeTy, GoVal.vPtr 1)) (some (nodeTy, GoVal.vPtr 2)) =
      Except.error Err.fuelOut := by
    unfold EqualGo runEngine newStateCfg processOptions
    simp only [Bind.bind, Except.bind]
    rw [show mkRootInput (some (nodeTy, GoVal.vPtr 1)) (some (nodeTy, GoVal.vPtr 2)) =
        (nodeTy, GoVal.vPtr 1, GoVal.vPtr 2) from rfl]
    dsimp only
    rw [hrun]
  rw [hE] at h
  cases h

/-! ## C8: symmetry of Equal

The development relates a comparison of `(x, y)` to the comparison of
`(y, x)`: every step of the second run is the mirror (sides swapped,
SliceIndex keys swapped) of a step of the first.  Under the claim's
hypotheses — all user "func(T, T) bool" functions symmetric, path
predicates insensitive to mirroring — two runs that both return a
verdict report the same number of differences. -/

def mirrorKind : StepKind → StepKind
  | StepKind.sliceK x y => StepKind.sliceK y x
  | k => k

def mirrorStep (st : Step) : Step :=
  { st with kind := mirrorKind st.kind, vx := st.vy, vy := st.vx }

def mirrorPath (p : List Step) : List Step := p.map mirrorStep

theorem mirrorStep_transId (st : Step) : stepTransId (mirrorStep st) = stepTransId st := by
  unfold mirrorStep mirrorKind stepTransId
  cases st.kind <;> rfl

theorem mirrorStep_transInfo (st : Step) :
    stepTransInfo (mirrorStep st) = stepTransInfo st := by
  unfold mirrorStep mirrorKind stepTransInfo
  cases st.kind <;> rfl

theorem mirrorPath_append (p : List Step) (st : Step) :
    mirrorPath (p ++ [st]) = mirrorPath p ++ [mirrorStep st] := by
  unfold mirrorPath
  rw [List.map_append]
  rfl

theorem transformBlockedAux_mirror (id : Nat) :
    ∀ l : List Step, transformBlockedAux id (l.map mirrorStep) = transformBlockedAux id l := by
  intro l
  induction l with
  | nil => rfl
  | cons st rest ih =>
      show (match stepTransId (mirrorStep st) with
        | some id2 => if id2 == id then true else transformBlockedAux id (List.map mirrorStep rest)
        | none => false) =
        (match stepTransId st with
        | some id2 => if id2 == id then true else transformBlockedAux id rest
        | none => false)
      rw [mirrorStep_transId]
      cases h : stepTransId st with
      | none => rfl
      | some id2 =>
          by_cases hi : id2 == id
          · simp [hi]
          · simp [hi, ih]

theorem transformBlocked_mirror (id : Nat) (p : List Step) :
    transformBlocked id (mirrorPath p) = transformBlocked id p := by
  unfold transformBlocked mirrorPath
  rw [← List.map_reverse]
  exact transformBlockedAux_mirror id p.reverse

/-- Path balance: a comparison that returns leaves `curPath` exactly as
it found it (one pop for every push). -/
def PathOK (r : GoState → Step → M GoState) : Prop :=
  ∀ s st s', r s st = Except.ok s' → s'.curPath = s.curPath

theorem statelessCompare_pathOK (r : GoState → Step → M GoState) (hr : PathOK r)
    (s : GoState) (st : Step) (out : Result × GoState)
    (h : statelessCompare r s st = Except.ok out) : out.2.curPath = s.curPath := by
  unfold statelessCompare at h
  cases hc : r { s with result := {}, evLog := [] } st with
  | error e => rw [hc] at h; cases h
  | ok s1 =>
      rw [hc] at h
      simp only [Bind.bind, Except.bind] at h
      cases h
      have h2 : s1.curPath = ({ s with result := {}, evLog := [] } : GoState).curPath :=
        hr _ _ _ hc
      exact h2

theorem callTRFunc_pathOK (r : GoState → Step → M GoState) (hr : PathOK r)
    (ctx : Ctx) (t : TransformerO) (v : GoVal) (s : GoState) (out : GoVal × GoState)
    (h : callTRFunc r ctx t v s = Except.ok out) : out.2.curPath = s.curPath := by
  simp only [callTRFunc, Bind.bind, Except.bind] at h
  by_cases hd : (dynNext s).1
  · simp only [hd, Bool.not_true, if_neg (by decide : ¬ (false = true))] at h
    cases hc1 : statelessCompare r (dynNext s).2
        (mkTransformStep t (ctx.funcs.tr t.trId v) (ctx.funcs.tr t.trId v)) with
    | error e => rw [hc1] at h; cases h
    | ok c1 =>
        rw [hc1] at h
        have hp1 : c1.2.curPath = (dynNext s).2.curPath :=
          statelessCompare_pathOK r hr _ _ _ hc1
        by_cases he1 : c1.1.IsEqual
        · simp only [he1, Bool.not_true, if_neg (by decide : ¬ (false = true))] at h
          cases h
          exact hp1
        · simp only [Bool.not_eq_true] at he1
          simp only [he1, Bool.not_false, if_pos rfl] at h
          cases hc2 : statelessCompare r c1.2
              (mkTransformStep t (ctx.funcs.tr t.trId v) (ctx.funcs.tr t.trId v)) with
          | error e => rw [hc2] at h; cases h
          | ok c2 =>
              rw [hc2] at h
              have hp2 : c2.2.curPath = c1.2.curPath :=
                statelessCompare_pathOK r hr _ _ _ hc2
              by_cases he2 : c2.1.IsEqual
              · simp only [he2, Bool.not_true, if_neg (by decide : ¬ (false = true))] at h
                cases h
              · simp only [Bool.not_eq_true] at he2
                simp only [he2, Bool.not_false, if_pos rfl] at h
                cases h
                exact hp2.trans hp1
  · simp only [Bool.not_eq_true] at hd
    simp only [hd, Bool.not_false, if_pos rfl] at h
    cases h
    rfl

theorem dropLast_concat_one {α : Type} (l : List α) (a : α) : (l ++ [a]).dropLast = l := by
  simp

theorem tryMethod_pathOK (ctx : Ctx) (st : Step) (s : GoState) (out : Bool × GoState)
    (h : tryMethod ctx st s = Except.ok out) : out.2.curPath = s.curPath := by
  unfold tryMethod at h
  cases hm : ctx.methodOf st.typ with
  | none => rw [hm] at h; cases h; rfl
  | some mid =>
      rw [hm] at h
      dsimp only at h
      simp only [Bind.bind, Except.bind] at h
      cases hc : callTTBFunc ctx mid st.vx st.vy s with
      | error e => rw [hc] at h; cases h
      | ok pr =>
          rw [hc] at h
          dsimp only at h
          cases h
          exact (callTTB_state ctx mid st.vx st.vy s pr hc).2.1

theorem applyAppOpt_pathOK (r : GoState → Step → M GoState) (hr : PathOK r)
    (ctx : Ctx) (st : Step) (a : AppOpt) (s s' : GoState)
    (h : applyAppOpt r ctx st a s = Except.ok s') : s'.curPath = s.curPath := by
  cases a with
  | ign => cases h; rfl
  | inv =>
      simp only [applyAppOpt] at h
      by_cases hv : (!st.vx.valid || !st.vy.valid) = true
      · rw [if_pos hv] at h; cases h; rfl
      · rw [if_neg hv] at h; cases h
  | cmp c =>
      simp only [applyAppOpt, Bind.bind, Except.bind] at h
      cases hc : callTTBFunc ctx c.id st.vx st.vy s with
      | error e => rw [hc] at h; cases h
      | ok pr =>
          rw [hc] at h
          dsimp only at h
          cases h
          exact (callTTB_state ctx c.id st.vx st.vy s pr hc).2.1
  | trn t =>
      simp only [applyAppOpt, Bind.bind, Except.bind] at h
      cases hx : callTRFunc r ctx t st.vx { result := s.result, curPath := s.curPath ++ [mkTransformStep t GoVal.vInvalid GoVal.vInvalid], evLog := s.evLog, recNext := s.recNext, dynCurr := s.dynCurr, dynNext := s.dynNext } with
      | error e => rw [hx] at h; cases h
      | ok px =>
          rw [hx] at h
          dsimp only at h
          cases hy : callTRFunc r ctx t st.vy px.2 with
          | error e => rw [hy] at h; cases h
          | ok py =>
              rw [hy] at h
              dsimp only at h
              have hpx : px.2.curPath =
                  s.curPath ++ [mkTransformStep t GoVal.vInvalid GoVal.vInvalid] :=
                callTRFunc_pathOK r hr ctx t st.vx _ px hx
              have hpy : py.2.curPath = px.2.curPath :=
                callTRFunc_pathOK r hr ctx t st.vy _ py hy
              have hfin : s'.curPath = py.2.curPath.dropLast := hr _ _ _ h
              rw [hfin, hpy, hpx]
              exact dropLast_concat_one s.curPath _
  | amb l => cases h

theorem tryOptions_pathOK (r : GoState → Step → M GoState) (hr : PathOK r)
    (ctx : Ctx) (cfg : Cfg) (st : Step) (s : GoState) (out : Bool × GoState)
    (h : tryOptions r ctx cfg st s = Except.ok out) : out.2.curPath = s.curPath := by
  simp only [tryOptions, Bind.bind, Except.bind] at h
  cases hf : optionsFilterList ctx st cfg.opts none s with
  | error e => rw [hf] at h; cases h
  | ok pr =>
      rw [hf] at h
      dsimp only at h
      have h1 := (optionsFilterList_state ctx st cfg.opts none s pr hf).2.1
      cases hm : pr.1 with
      | none => rw [hm] at h; cases h; exact h1
      | some a =>
          rw [hm] at h
          dsimp only at h
          cases ha : applyAppOpt r ctx st a pr.2 with
          | error e => rw [ha] at h; cases h
          | ok s2 =>
              rw [ha] at h
              dsimp only at h
              cases h
              exact (applyAppOpt_pathOK r hr ctx st a pr.2 s2 ha).trans h1

theorem compareStructFields_pathOK (r : GoState → Step → M GoState) (hr : PathOK r)
    (cfg : Cfg) (name : String) (xs ys : List GoVal) :
    ∀ (fs : List (String × Ty)) (i : Nat) (s s' : GoState),
      compareStructFields r cfg name xs ys i fs s = Except.ok s' →
      s'.curPath = s.curPath := by
  intro fs
  induction fs with
  | nil => intro i s s' h; cases h; rfl
  | cons f rest ih =>
      intro i s s' h
      obtain ⟨fn, ft⟩ := f
      unfold compareStructFields at h
      split at h
      · split at h
        · exact ih (i + 1) s s' h
        · simp only [Bind.bind, Except.bind] at h
          cases hc : r s { kind := StepKind.fieldK fn i, typ := ft, vx := xs.getD i GoVal.vInvalid, vy := ys.getD i GoVal.vInvalid, unexp := !cfg.exporters.contains (Ty.tStruct name) } with
          | error e => rw [hc] at h; cases h
          | ok s1 =>
              rw [hc] at h
              dsimp only at h
              exact (ih (i + 1) s1 s' h).trans (hr _ _ _ hc)
      · simp only [Bind.bind, Except.bind] at h
        cases hc : r s { kind := StepKind.fieldK fn i, typ := ft, vx := xs.getD i GoVal.vInvalid, vy := ys.getD i GoVal.vInvalid } with
        | error e => rw [hc] at h; cases h
        | ok s1 =>
            rw [hc] at h
            dsimp only at h
            exact (ih (i + 1) s1 s' h).trans (hr _ _ _ hc)

theorem sliceIgnoreScan_pathOK (r : GoState → Step → M GoState) (hr : PathOK r)
    (pos : Nat → Step) :
    ∀ (l : List Nat) (s : GoState) (out : List Bool × List Nat × GoState),
      sliceIgnoreScan r pos l s = Except.ok out → out.2.2.curPath = s.curPath := by
  intro l
  induction l with
  | nil => intro s out h; cases h; rfl
  | cons i rest ih =>
      intro s out h
      simp only [sliceIgnoreScan, Bind.bind, Except.bind] at h
      cases hc : statelessCompare r s (pos i) with
      | error e => rw [hc] at h; cases h
      | ok c =>
          rw [hc] at h
          dsimp only at h
          cases hs : sliceIgnoreScan r pos rest c.2 with
          | error e => rw [hs] at h; cases h
          | ok rr =>
              rw [hs] at h
              dsimp only at h
              cases h
              exact (ih c.2 rr hs).trans (statelessCompare_pathOK r hr s (pos i) c hc)

theorem differenceGo_pathOK (f : Nat → Nat → GoState → M (Result × GoState))
    (hf : ∀ a b s out, f a b s = Except.ok out → out.2.curPath = s.curPath) :
    ∀ (n : Nat) (lx ly : List Nat) (s : GoState) (out : List EditType × GoState),
      lx.length + ly.length ≤ n →
      differenceGo f lx ly s = Except.ok out → out.2.curPath = s.curPath := by
  intro n
  induction n with
  | zero =>
      intro lx ly s out hlen h
      match lx, ly with
      | [], [] => simp only [differenceGo] at h; cases h; rfl
      | [], y :: ys => simp at hlen
      | x :: xs, _ => simp at hlen
  | succ n ih =>
      intro lx ly s out hlen h
      match lx, ly with
      | [], ys => simp only [differenceGo] at h; cases h; rfl
      | x :: xs, [] => simp only [differenceGo] at h; cases h; rfl
      | ix :: xs, iy :: ys =>
          simp only [differenceGo, Bind.bind, Except.bind] at h
          cases hc : f ix iy s with
          | error e => rw [hc] at h; cases h
          | ok c =>
              rw [hc] at h
              dsimp only at h
              have hcp := hf ix iy s c hc
              have hlen2 : xs.length + ys.length ≤ n := by
                simp only [List.length_cons] at hlen; omega
              have hlen3 : xs.length + (iy :: ys).length ≤ n := by
                simp only [List.length_cons] at hlen ⊢; omega
              have hlen4 : (ix :: xs).length + ys.length ≤ n := by
                simp only [List.length_cons] at hlen ⊢; omega
              split at h
              · cases hd : differenceGo f xs ys c.2 with
                | error e => rw [hd] at h; cases h
                | ok rr => rw [hd] at h; cases h; exact (ih xs ys c.2 rr hlen2 hd).trans hcp
              · split at h
                · cases hd : differenceGo f xs (iy :: ys) c.2 with
                  | error e => rw [hd] at h; cases h
                  | ok rr =>
                      rw [hd] at h; cases h
                      exact (ih xs (iy :: ys) c.2 rr hlen3 hd).trans hcp
                · split at h
                  · cases hd : differenceGo f (ix :: xs) ys c.2 with
                    | error e => rw [hd] at h; cases h
                    | ok rr =>
                        rw [hd] at h; cases h
                        exact (ih (ix :: xs) ys c.2 rr hlen4 hd).trans hcp
                  · cases hd : differenceGo f xs ys c.2 with
                    | error e => rw [hd] at h; cases h
                    | ok rr =>
                        rw [hd] at h; cases h
                        exact (ih xs ys c.2 rr hlen2 hd).trans hcp

theorem sliceReplay_pathOK (r : GoState → Step → M GoState) (hr : PathOK r)
    (mk : Int → Int → Step) (ignX ignY : List Bool) (lenX lenY : Nat) :
    ∀ (gas ix iy : Nat) (edits : List EditType) (s s' : GoState),
      sliceReplay r mk ignX ignY lenX lenY ix iy gas edits s = Except.ok s' →
      s'.curPath = s.curPath := by
  intro gas
  induction gas with
  | zero => intro ix iy edits s s' h; cases h
  | succ gas ih =>
      intro ix iy edits s s' h
      unfold sliceReplay at h
      split at h
      · split at h
        · simp only [Bind.bind, Except.bind] at h
          cases hc : r s (mk (↑ix) (-1)) with
          | error e => rw [hc] at h; cases h
          | ok s1 =>
              rw [hc] at h
              dsimp only at h
              exact (ih (ix + 1) iy edits s1 s' h).trans (hr _ _ _ hc)
        · split at h
          · simp only [Bind.bind, Except.bind] at h
            cases hc : r s (mk (-1) (↑iy)) with
            | error e => rw [hc] at h; cases h
            | ok s1 =>
                rw [hc] at h
                dsimp only at h
                exact (ih ix (iy + 1) edits s1 s' h).trans (hr _ _ _ hc)
          · cases edits with
            | nil => cases h
            | cons e rest =>
                cases e with
                | uniqueXE =>
                    simp only [Bind.bind, Except.bind] at h
                    cases hc : r s (mk (↑ix) (-1)) with
                    | error e => rw [hc] at h; cases h
                    | ok s1 =>
                        rw [hc] at h
                        dsimp only at h
                        exact (ih (ix + 1) iy rest s1 s' h).trans (hr _ _ _ hc)
                | uniqueYE =>
                    simp only [Bind.bind, Except.bind] at h
                    cases hc : r s (mk (-1) (↑iy)) with
                    | error e => rw [hc] at h; cases h
                    | ok s1 =>
                        rw [hc] at h
                        dsimp only at h
                        exact (ih ix (iy + 1) rest s1 s' h).trans (hr _ _ _ hc)
                | identityE =>
                    simp only [Bind.bind, Except.bind] at h
                    cases hc : r s (mk (↑ix) (↑iy)) with
                    | error e => rw [hc] at h; cases h
                    | ok s1 =>
                        rw [hc] at h
                        dsimp only at h
                        exact (ih (ix + 1) (iy + 1) rest s1 s' h).trans (hr _ _ _ hc)
                | modifiedE =>
                    simp only [Bind.bind, Except.bind] at h
                    cases hc : r s (mk (↑ix) (↑iy)) with
                    | error e => rw [hc] at h; cases h
                    | ok s1 =>
                        rw [hc] at h
                        dsimp only at h
                        exact (ih (ix + 1) (iy + 1) rest s1 s' h).trans (hr _ _ _ hc)
      · cases h; rfl

theorem compareSlice_pathOK (r : GoState → Step → M GoState) (hr : PathOK r)
    (elemT : Ty) (st : Step) (s s' : GoState)
    (h : compareSlice r elemT st s = Except.ok s') : s'.curPath = s.curPath := by
  simp only [compareSlice, Bind.bind, Except.bind] at h
  cases hx : sliceIgnoreScan r
      (fun i => sliceStep elemT (match st.vx with | GoVal.vSlice _ l => l | _ => [])
        (match st.vy with | GoVal.vSlice _ l => l | _ => []) (Int.ofNat i) (-1))
      (List.range (match st.vx with | GoVal.vSlice _ l => l | _ => []).length) s with
  | error e => rw [hx] at h; cases h
  | ok rx =>
      rw [hx] at h
      dsimp only at h
      cases hy : sliceIgnoreScan r
          (fun i => sliceStep elemT (match st.vx with | GoVal.vSlice _ l => l | _ => [])
            (match st.vy with | GoVal.vSlice _ l => l | _ => []) (-1) (Int.ofNat i))
          (List.range (match st.vy with | GoVal.vSlice _ l => l | _ => []).length) rx.2.2 with
      | error e => rw [hy] at h; cases h
      | ok ry =>
          rw [hy] at h
          dsimp only at h
          cases hd : differenceGo
              (fun ox oy s => statelessCompare r s
                (sliceStep elemT (match st.vx with | GoVal.vSlice _ l => l | _ => [])
                  (match st.vy with | GoVal.vSlice _ l => l | _ => [])
                  (Int.ofNat ox) (Int.ofNat oy)))
              rx.2.1 ry.2.1 ry.2.2 with
          | error e => rw [hd] at h; cases h
          | ok rd =>
              rw [hd] at h
              dsimp only at h
              have h1 := sliceIgnoreScan_pathOK r hr _ _ s rx hx
              have h2 := sliceIgnoreScan_pathOK r hr _ _ rx.2.2 ry hy
              have h3 := differenceGo_pathOK _
                (fun a b s out hh => statelessCompare_pathOK r hr s _ out hh)
                (rx.2.1.length + ry.2.1.length) rx.2.1 ry.2.1 ry.2.2 rd le_rfl hd
              have h4 := sliceReplay_pathOK r hr _ rx.1 ry.1 _ _ _ 0 0 rd.1 rd.2 s' h
              rw [h4, h3, h2, h1]

theorem compareMapEntries_pathOK (r : GoState → Step → M GoState) (hr : PathOK r)
    (elemT : Ty) (ex ey : List (GoKey × GoVal)) :
    ∀ (ks : List GoKey) (s s' : GoState),
      compareMapEntries r elemT ex ey ks s = Except.ok s' → s'.curPath = s.curPath := by
  intro ks
  induction ks with
  | nil => intro s s' h; cases h; rfl
  | cons k rest ih =>
      intro s s' h
      simp only [compareMapEntries, Bind.bind, Except.bind] at h
      split at h
      · cases h
      · cases hc : r s { kind := StepKind.mapK k, typ := elemT, vx := mapLookup ex k, vy := mapLookup ey k } with
        | error e => rw [hc] at h; cases h
        | ok s1 =>
            rw [hc] at h
            dsimp only at h
            exact (ih s1 s' h).trans (hr _ _ _ hc)

theorem compareMap_pathOK (r : GoState → Step → M GoState) (hr : PathOK r)
    (elemT : Ty) (st : Step) (s s' : GoState)
    (h : compareMap r elemT st s = Except.ok s') : s'.curPath = s.curPath := by
  unfold compareMap at h
  split at h
  · split at h
    · cases h; rfl
    · exact compareMapEntries_pathOK r hr elemT _ _ _ s s' h
  · cases h; rfl

theorem compareAnyAux_pathOK (r : GoState → Step → M GoState) (hr : PathOK r)
    (ctx : Ctx) (cfg : Cfg) : PathOK (compareAnyAux r ctx cfg) := by
  intro s st s' h
  simp only [compareAnyAux, Bind.bind, Except.bind] at h
  cases hrc : recCheck (pushStep s st).recNext (pushStep s st).curPath with
  | error e => rw [hrc] at h; cases h
  | ok nxt =>
      rw [hrc] at h
      try dsimp only at h
      have hbase : ({ pushStep s st with recNext := nxt } : GoState).curPath =
          s.curPath ++ [st] := rfl
      have hpop : ∀ z : GoState, z.curPath = s.curPath ++ [st] →
          (popStep z).curPath = s.curPath := by
        intro z hz
        show z.curPath.dropLast = s.curPath
        rw [hz]; exact dropLast_concat_one s.curPath st
      cases h1 : tryOptions r ctx cfg st { pushStep s st with recNext := nxt } with
      | error e => rw [h1] at h; cases h
      | ok p1 =>
          rw [h1] at h
          try dsimp only at h
          have hp1 : p1.2.curPath = s.curPath ++ [st] :=
            (tryOptions_pathOK r hr ctx cfg st _ p1 h1).trans hbase
          by_cases hb1 : p1.1 = true
          · rw [hb1, if_pos rfl] at h
            cases h
            exact hpop _ hp1
          · rw [Bool.eq_false_iff.mpr hb1] at h
            rw [if_neg (by decide : ¬ (false = true))] at h
            cases h2 : tryMethod ctx st p1.2 with
            | error e => rw [h2] at h; cases h
            | ok p2 =>
                rw [h2] at h
                try dsimp only at h
                have hp2 : p2.2.curPath = s.curPath ++ [st] :=
                  (tryMethod_pathOK ctx st p1.2 p2 h2).trans hp1
                by_cases hb2 : p2.1 = true
                · rw [hb2, if_pos rfl] at h
                  cases h
                  exact hpop _ hp2
                · rw [Bool.eq_false_iff.mpr hb2] at h
                  rw [if_neg (by decide : ¬ (false = true))] at h
                  cases hty : st.typ with
                  | tBool => rw [hty] at h; (try dsimp only at h); cases h; exact hpop _ hp2
                  | tInt => rw [hty] at h; (try dsimp only at h); cases h; exact hpop _ hp2
                  | tStr => rw [hty] at h; (try dsimp only at h); cases h; exact hpop _ hp2
                  | tFunc => rw [hty] at h; (try dsimp only at h); cases h; exact hpop _ hp2
                  | tStruct name =>
                      rw [hty] at h
                      try dsimp only at h
                      try simp only [Bind.bind, Except.bind] at h
                      cases hc : compareStruct r ctx cfg name st p2.2 with
                      | error e => rw [hc] at h; cases h
                      | ok s3 =>
                          rw [hc] at h
                          try dsimp only at h
                          cases h
                          refine hpop _ ?_
                          exact (compareStructFields_pathOK r hr cfg name _ _ _ 0 _ s3 hc).trans hp2
                  | tSlice e =>
                      rw [hty] at h
                      try dsimp only at h
                      cases hvx : st.vx with
                      | vSlice nilx lx =>
                          cases hvy : st.vy with
                          | vSlice nily ly =>
                              rw [hvx, hvy] at h
                              try dsimp only at h
                              split at h
                              · cases h; exact hpop _ hp2
                              · try simp only [Bind.bind, Except.bind] at h
                                cases hc : compareSlice r e st p2.2 with
                                | error e2 => rw [hc] at h; cases h
                                | ok s3 =>
                                    rw [hc] at h
                                    try dsimp only at h
                                    cases h
                                    refine hpop _ ?_
                                    exact (compareSlice_pathOK r hr e st p2.2 s3 hc).trans hp2
                          | vInvalid => rw [hvx, hvy] at h; (try dsimp only at h); cases h; exact hpop _ hp2
                          | vBool b => rw [hvx, hvy] at h; (try dsimp only at h); cases h; exact hpop _ hp2
                          | vInt i => rw [hvx, hvy] at h; (try dsimp only at h); cases h; exact hpop _ hp2
                          | vStr s4 => rw [hvx, hvy] at h; (try dsimp only at h); cases h; exact hpop _ hp2
                          | vFunc f => rw [hvx, hvy] at h; (try dsimp only at h); cases h; exact hpop _ hp2
                          | vPtr a => rw [hvx, hvy] at h; (try dsimp only at h); cases h; exact hpop _ hp2
                          | vIfaceNil => rw [hvx, hvy] at h; (try dsimp only at h); cases h; exact hpop _ hp2
                          | vIface t v => rw [hvx, hvy] at h; (try dsimp only at h); cases h; exact hpop _ hp2
                          | vMap n e2 => rw [hvx, hvy] at h; (try dsimp only at h); cases h; exact hpop _ hp2
                          | vStruct l => rw [hvx, hvy] at h; (try dsimp only at h); cases h; exact hpop _ hp2
                      | vInvalid => rw [hvx] at h; (try dsimp only at h); cases h; exact hpop _ hp2
                      | vBool b => rw [hvx] at h; (try dsimp only at h); cases h; exact hpop _ hp2
                      | vInt i => rw [hvx] at h; (try dsimp only at h); cases h; exact hpop _ hp2
                      | vStr s4 => rw [hvx] at h; (try dsimp only at h); cases h; exact hpop _ hp2
                      | vFunc f => rw [hvx] at h; (try dsimp only at h); cases h; exact hpop _ hp2
                      | vPtr a => rw [hvx] at h; (try dsimp only at h); cases h; exact hpop _ hp2
                      | vIfaceNil => rw [hvx] at h; (try dsimp only at h); cases h; exact hpop _ hp2
                      | vIface t v => rw [hvx] at h; (try dsimp only at h); cases h; exact hpop _ hp2
                      | vMap n e2 => rw [hvx] at h; (try dsimp only at h); cases h; exact hpop _ hp2
                      | vStruct l => rw [hvx] at h; (try dsimp only at h); cases h; exact hpop _ hp2
                  | tMap kt e =>
                      rw [hty] at h
                      try dsimp only at h
                      try simp only [Bind.bind, Except.bind] at h
                      cases hc : compareMap r e st p2.2 with
                      | error e2 => rw [hc] at h; cases h
                      | ok s3 =>
                          rw [hc] at h
                          try dsimp only at h
                          cases h
                          refine hpop _ ?_
                          exact (compareMap_pathOK r hr e st p2.2 s3 hc).trans hp2
                  | tPtr e =>
                      rw [hty] at h
                      try dsimp only at h
                      cases hvx : st.vx with
                      | vPtr ax =>
                          cases hvy : st.vy with
                          | vPtr ay =>
                              rw [hvx, hvy] at h
                              try dsimp only at h
                              split at h
                              · cases h; exact hpop _ hp2
                              · try simp only [Bind.bind, Except.bind] at h
                                cases hc : r p2.2 { kind := StepKind.indirectK, typ := e, vx := heapGet ctx ax, vy := heapGet ctx ay } with
                                | error e2 => rw [hc] at h; cases h
                                | ok s3 =>
                                    rw [hc] at h
                                    try dsimp only at h
                                    cases h
                                    exact hpop _ ((hr _ _ _ hc).trans hp2)
                          | vInvalid => rw [hvx, hvy] at h; (try dsimp only at h); cases h; exact hpop _ hp2
                          | vBool b => rw [hvx, hvy] at h; (try dsimp only at h); cases h; exact hpop _ hp2
                          | vInt i => rw [hvx, hvy] at h; (try dsimp only at h); cases h; exact hpop _ hp2
                          | vStr s4 => rw [hvx, hvy] at h; (try dsimp only at h); cases h; exact hpop _ hp2
                          | vFunc f => rw [hvx, hvy] at h; (try dsimp only at h); cases h; exact hpop _ hp2
                          | vIfaceNil => rw [hvx, hvy] at h; (try dsimp only at h); cases h; exact hpop _ hp2
                          | vIface t v => rw [hvx, hvy] at h; (try dsimp only at h); cases h; exact hpop _ hp2
                          | vSlice n l => rw [hvx, hvy] at h; (try dsimp only at h); cases h; exact hpop _ hp2
                          | vMap n e2 => rw [hvx, hvy] at h; (try dsimp only at h); cases h; exact hpop _ hp2
                          | vStruct l => rw [hvx, hvy] at h; (try dsimp only at h); cases h; exact hpop _ hp2
                      | vInvalid => rw [hvx] at h; (try dsimp only at h); cases h; exact hpop _ hp2
                      | vBool b => rw [hvx] at h; (try dsimp only at h); cases h; exact hpop _ hp2
                      | vInt i => rw [hvx] at h; (try dsimp only at h); cases h; exact hpop _ hp2
                      | vStr s4 => rw [hvx] at h; (try dsimp only at h); cases h; exact hpop _ hp2
                      | vFunc f => rw [hvx] at h; (try dsimp only at h); cases h; exact hpop _ hp2
                      | vIfaceNil => rw [hvx] at h; (try dsimp only at h); cases h; exact hpop _ hp2
                      | vIface t v => rw [hvx] at h; (try dsimp only at h); cases h; exact hpop _ hp2
                      | vSlice n l => rw [hvx] at h; (try dsimp only at h); cases h; exact hpop _ hp2
                      | vMap n e2 => rw [hvx] at h; (try dsimp only at h); cases h; exact hpop _ hp2
                      | vStruct l => rw [hvx] at h; (try dsimp only at h); cases h; exact hpop _ hp2
                  | tIface =>
                      rw [hty] at h
                      try dsimp only at h
                      cases hvx : st.vx with
                      | vIfaceNil =>
                          cases hvy : st.vy with
                          | vIfaceNil => rw [hvx, hvy] at h; (try dsimp only at h); cases h; exact hpop _ hp2
                          | vInvalid => rw [hvx, hvy] at h; (try dsimp only at h); cases h; exact hpop _ hp2
                          | vBool b => rw [hvx, hvy] at h; (try dsimp only at h); cases h; exact hpop _ hp2
                          | vInt i => rw [hvx, hvy] at h; (try dsimp only at h); cases h; exact hpop _ hp2
                          | vStr s4 => rw [hvx, hvy] at h; (try dsimp only at h); cases h; exact hpop _ hp2
                          | vFunc f => rw [hvx, hvy] at h; (try dsimp only at h); cases h; exact hpop _ hp2
                          | vPtr a => rw [hvx, hvy] at h; (try dsimp only at h); cases h; exact hpop _ hp2
                          | vIface t v => rw [hvx, hvy] at h; (try dsimp only at h); cases h; exact hpop _ hp2
                          | vSlice n l => rw [hvx, hvy] at h; (try dsimp only at h); cases h; exact hpop _ hp2
                          | vMap n e2 => rw [hvx, hvy] at h; (try dsimp only at h); cases h; exact hpop _ hp2
                          | vStruct l => rw [hvx, hvy] at h; (try dsimp only at h); cases h; exact hpop _ hp2
                      | vIface tx ixv =>
                          cases hvy : st.vy with
                          | vIface ty iyv =>
                              rw [hvx, hvy] at h
                              try dsimp only at h
                              split at h
                              · cases h; exact hpop _ hp2
                              · try simp only [Bind.bind, Except.bind] at h
                                cases hc : r p2.2 { kind := StepKind.typeAssertK, typ := tx, vx := ixv, vy := iyv } with
                                | error e2 => rw [hc] at h; cases h
                                | ok s3 =>
                                    rw [hc] at h
                                    try dsimp only at h
                                    cases h
                                    exact hpop _ ((hr _ _ _ hc).trans hp2)
                          | vInvalid => rw [hvx, hvy] at h; (try dsimp only at h); cases h; exact hpop _ hp2
                          | vBool b => rw [hvx, hvy] at h; (try dsimp only at h); cases h; exact hpop _ hp2
                          | vInt i => rw [hvx, hvy] at h; (try dsimp only at h); cases h; exact hpop _ hp2
                          | vStr s4 => rw [hvx, hvy] at h; (try dsimp only at h); cases h; exact hpop _ hp2
                          | vFunc f => rw [hvx, hvy] at h; (try dsimp only at h); cases h; exact hpop _ hp2
                          | vPtr a => rw [hvx, hvy] at h; (try dsimp only at h); cases h; exact hpop _ hp2
                          | vIfaceNil => rw [hvx, hvy] at h; (try dsimp only at h); cases h; exact hpop _ hp2
                          | vSlice n l => rw [hvx, hvy] at h; (try dsimp only at h); cases h; exact hpop _ hp2
                          | vMap n e2 => rw [hvx, hvy] at h; (try dsimp only at h); cases h; exact hpop _ hp2
                          | vStruct l => rw [hvx, hvy] at h; (try dsimp only at h); cases h; exact hpop _ hp2
                      | vInvalid => rw [hvx] at h; (try dsimp only at h); cases h; exact hpop _ hp2
                      | vBool b => rw [hvx] at h; (try dsimp only at h); cases h; exact hpop _ hp2
                      | vInt i => rw [hvx] at h; (try dsimp only at h); cases h; exact hpop _ hp2
                      | vStr s4 => rw [hvx] at h; (try dsimp only at h); cases h; exact hpop _ hp2
                      | vFunc f => rw [hvx] at h; (try dsimp only at h); cases h; exact hpop _ hp2
                      | vPtr a => rw [hvx] at h; (try dsimp only at h); cases h; exact hpop _ hp2
                      | vSlice n l => rw [hvx] at h; (try dsimp only at h); cases h; exact hpop _ hp2
                      | vMap n e2 => rw [hvx] at h; (try dsimp only at h); cases h; exact hpop _ hp2
                      | vStruct l => rw [hvx] at h; (try dsimp only at h); cases h; exact hpop _ hp2

theorem compareAny_pathOK (ctx : Ctx) (cfg : Cfg) :
    ∀ fuel : Nat, PathOK (compareAny ctx cfg fuel) := by
  intro fuel
  induction fuel with
  | zero => intro s st s' h; cases h
  | succ fuel ih => exact compareAnyAux_pathOK (compareAny ctx cfg fuel) ih ctx cfg

/-- All two-argument user functions (comparers, values filters and
Equal methods all go through `callTTBFunc`) are symmetric. -/
def SymTTB (ctx : Ctx) : Prop :=
  ∀ fid x y, ctx.funcs.ttb fid x y = ctx.funcs.ttb fid y x

/-- Under symmetry the consistency probe of `callTTBFunc` always
passes: the call returns the plain function value and only advances the
`dynChecker` counters. -/
theorem callTTB_ok (ctx : Ctx) (hsym : SymTTB ctx) (fid : Nat) (x y : GoVal) (s : GoState) :
    callTTBFunc ctx fid x y s = Except.ok (ctx.funcs.ttb fid x y, (dynNext s).2) := by
  simp only [callTTBFunc]
  by_cases hd : (dynNext s).1
  · simp only [hd, Bool.not_true, if_neg (by decide : ¬ (false = true))]
    rw [hsym fid y x]
    simp
  · simp only [Bool.not_eq_true] at hd
    simp [hd]

/-- `callTRFunc` always hands back the transformer image of its input
(whether or not a check round runs). -/
theorem callTRFunc_value (r : GoState → Step → M GoState) (ctx : Ctx) (t : TransformerO)
    (v : GoVal) (s : GoState) (out : GoVal × GoState)
    (h : callTRFunc r ctx t v s = Except.ok out) : out.1 = ctx.funcs.tr t.trId v := by
  simp only [callTRFunc, Bind.bind, Except.bind] at h
  by_cases hd : (dynNext s).1
  · simp only [hd, Bool.not_true, if_neg (by decide : ¬ (false = true))] at h
    cases hc1 : statelessCompare r (dynNext s).2
        (mkTransformStep t (ctx.funcs.tr t.trId v) (ctx.funcs.tr t.trId v)) with
    | error e => rw [hc1] at h; cases h
    | ok c1 =>
        rw [hc1] at h
        dsimp only at h
        by_cases he1 : c1.1.IsEqual
        · simp only [he1, Bool.not_true, if_neg (by decide : ¬ (false = true))] at h
          cases h; rfl
        · simp only [Bool.not_eq_true] at he1
          simp only [he1, Bool.not_false, if_pos rfl] at h
          cases hc2 : statelessCompare r c1.2
              (mkTransformStep t (ctx.funcs.tr t.trId v) (ctx.funcs.tr t.trId v)) with
          | error e => rw [hc2] at h; cases h
          | ok c2 =>
              rw [hc2] at h
              dsimp only at h
              by_cases he2 : c2.1.IsEqual
              · simp only [he2, Bool.not_true, if_neg (by decide : ¬ (false = true))] at h
                cases h
              · simp only [Bool.not_eq_true] at he2
                simp only [he2, Bool.not_false, if_pos rfl] at h
                cases h; rfl
  · simp only [Bool.not_eq_true] at hd
    simp only [hd, Bool.not_false, if_pos rfl] at h
    cases h; rfl

/-- `callTRFunc` leaves the tally untouched: its internal comparisons
run through `statelessCompare`, which restores it. -/
theorem callTRFunc_result (r : GoState → Step → M GoState) (ctx : Ctx) (t : TransformerO)
    (v : GoVal) (s : GoState) (out : GoVal × GoState)
    (h : callTRFunc r ctx t v s = Except.ok out) : out.2.result = s.result := by
  simp only [callTRFunc, Bind.bind, Except.bind] at h
  by_cases hd : (dynNext s).1
  · simp only [hd, Bool.not_true, if_neg (by decide : ¬ (false = true))] at h
    cases hc1 : statelessCompare r (dynNext s).2
        (mkTransformStep t (ctx.funcs.tr t.trId v) (ctx.funcs.tr t.trId v)) with
    | error e => rw [hc1] at h; cases h
    | ok c1 =>
        rw [hc1] at h
        dsimp only at h
        have hr1 : c1.2.result = s.result :=
          (statelessCompare_frame r (dynNext s).2 _ c1 hc1).1
        by_cases he1 : c1.1.IsEqual
        · simp only [he1, Bool.not_true, if_neg (by decide : ¬ (false = true))] at h
          cases h; exact hr1
        · simp only [Bool.not_eq_true] at he1
          simp only [he1, Bool.not_false, if_pos rfl] at h
          cases hc2 : statelessCompare r c1.2
              (mkTransformStep t (ctx.funcs.tr t.trId v) (ctx.funcs.tr t.trId v)) with
          | error e => rw [hc2] at h; cases h
          | ok c2 =>
              rw [hc2] at h
              dsimp only at h
              have hr2 : c2.2.result = c1.2.result :=
                (statelessCompare_frame r c1.2 _ c2 hc2).1
              by_cases he2 : c2.1.IsEqual
              · simp only [he2, Bool.not_true, if_neg (by decide : ¬ (false = true))] at h
                cases h
              · simp only [Bool.not_eq_true] at he2
                simp only [he2, Bool.not_false, if_pos rfl] at h
                cases h; exact hr2.trans hr1
  · simp only [Bool.not_eq_true] at hd
    simp only [hd, Bool.not_false, if_pos rfl] at h
    cases h; rfl

/-- A one-sided node: at least one value is missing.  For such nodes
no two-argument user function is ever invoked (the values filter
returns its `invalid` sentinel before calling the predicate), so filter
evaluation is a pure function of the option, the current path and the
step. -/
def oneSided (st : Step) : Prop := st.vx.valid = false ∨ st.vy.valid = false

mutual

def osFilter (ctx : Ctx) (st : Step) (p : List Step) : CmpOption → Option AppOpt
  | CmpOption.ignoreO => some AppOpt.ign
  | CmpOption.validatorO => some AppOpt.inv
  | CmpOption.cmpO c => if assignable st.typ c.typ then some (AppOpt.cmp c) else none
  | CmpOption.trO t =>
      if transformBlocked t.trId p then none
      else if assignable st.typ t.inTy then some (AppOpt.trn t) else none
  | CmpOption.pathF pid inner =>
      if ctx.funcs.pathPred pid p then osFilter ctx st p inner else none
  | CmpOption.valuesF _ _ _ => some AppOpt.inv
  | CmpOption.groupO l => osFilterList ctx st p l none

def osFilterList (ctx : Ctx) (st : Step) (p : List Step) :
    List CmpOption → Option AppOpt → Option AppOpt
  | [], out => out
  | o :: rest, out =>
      match osFilter ctx st p o with
      | some AppOpt.ign => some AppOpt.ign
      | some AppOpt.inv => osFilterList ctx st p rest (some AppOpt.inv)
      | some a =>
          match out with
          | none => osFilterList ctx st p rest (some a)
          | some AppOpt.inv => osFilterList ctx st p rest (some AppOpt.inv)
          | some prev => osFilterList ctx st p rest (some (AppOpt.amb [prev, a]))
      | none => osFilterList ctx st p rest out

end

theorem oneSided_invalid (st : Step) (hos : oneSided st) :
    (!st.vx.valid || !st.vy.valid) = true := by
  cases hos with
  | inl h => simp [h]
  | inr h => simp [h]

mutual

theorem osFilter_spec (ctx : Ctx) (st : Step) (hos : oneSided st) :
    ∀ (o : CmpOption) (s : GoState),
      optionFilter ctx st o s = Except.ok (osFilter ctx st s.curPath o, s) := by
  intro o s
  match o with
  | CmpOption.ignoreO => rfl
  | CmpOption.validatorO =>
      unfold optionFilter osFilter
      rw [if_pos (oneSided_invalid st hos)]
  | CmpOption.cmpO c =>
      unfold optionFilter osFilter
      split <;> simp
  | CmpOption.trO t =>
      unfold optionFilter osFilter
      split
      · simp
      · split <;> simp
  | CmpOption.pathF pid inner =>
      unfold optionFilter osFilter
      split
      · exact osFilter_spec ctx st hos inner s
      · simp
  | CmpOption.valuesF fid typ inner =>
      unfold optionFilter osFilter
      rw [if_pos (oneSided_invalid st hos)]
  | CmpOption.groupO l =>
      exact osFilterList_spec ctx st hos l none s

theorem osFilterList_spec (ctx : Ctx) (st : Step) (hos : oneSided st) :
    ∀ (l : List CmpOption) (acc : Option AppOpt) (s : GoState),
      optionsFilterList ctx st l acc s =
        Except.ok (osFilterList ctx st s.curPath l acc, s) := by
  intro l acc s
  match l with
  | [] => rfl
  | o :: rest =>
      unfold optionsFilterList osFilterList
      rw [osFilter_spec ctx st hos o s]
      simp only [Bind.bind, Except.bind]
      cases hf : osFilter ctx st s.curPath o with
      | none => exact osFilterList_spec ctx st hos rest acc s
      | some a =>
          cases a with
          | ign => rfl
          | inv => exact osFilterList_spec ctx st hos rest (some AppOpt.inv) s
          | cmp c =>
              cases acc with
              | none => exact osFilterList_spec ctx st hos rest (some (AppOpt.cmp c)) s
              | some prev =>
                  cases prev with
                  | ign => exact osFilterList_spec ctx st hos rest _ s
                  | inv => exact osFilterList_spec ctx st hos rest (some AppOpt.inv) s
                  | cmp c2 => exact osFilterList_spec ctx st hos rest _ s
                  | trn t2 => exact osFilterList_spec ctx st hos rest _ s
                  | amb l2 => exact osFilterList_spec ctx st hos rest _ s
          | trn t =>
              cases acc with
              | none => exact osFilterList_spec ctx st hos rest (some (AppOpt.trn t)) s
              | some prev =>
                  cases prev with
                  | ign => exact osFilterList_spec ctx st hos rest _ s
                  | inv => exact osFilterList_spec ctx st hos rest (some AppOpt.inv) s
                  | cmp c2 => exact osFilterList_spec ctx st hos rest _ s
                  | trn t2 => exact osFilterList_spec ctx st hos rest _ s
                  | amb l2 => exact osFilterList_spec ctx st hos rest _ s
          | amb l2 =>
              cases acc with
              | none => exact osFilterList_spec ctx st hos rest _ s
              | some prev =>
                  cases prev with
                  | ign => exact osFilterList_spec ctx st hos rest _ s
                  | inv => exact osFilterList_spec ctx st hos rest (some AppOpt.inv) s
                  | cmp c2 => exact osFilterList_spec ctx st hos rest _ s
                  | trn t2 => exact osFilterList_spec ctx st hos rest _ s
                  | amb l3 => exact osFilterList_spec ctx st hos rest _ s

end

theorem mirrorStep_typ (st : Step) : (mirrorStep st).typ = st.typ := rfl

mutual

theorem osFilter_mirror (ctx : Ctx) (st : Step) (p : List Step)
    (hpath : ∀ pid q, ctx.funcs.pathPred pid (mirrorPath q) = ctx.funcs.pathPred pid q) :
    ∀ o : CmpOption, osFilter ctx (mirrorStep st) (mirrorPath p) o = osFilter ctx st p o := by
  intro o
  match o with
  | CmpOption.ignoreO => rfl
  | CmpOption.validatorO => rfl
  | CmpOption.cmpO c => rfl
  | CmpOption.trO t =>
      unfold osFilter
      rw [transformBlocked_mirror]
      rfl
  | CmpOption.pathF pid inner =>
      unfold osFilter
      rw [hpath pid p]
      split
      · exact osFilter_mirror ctx st p hpath inner
      · rfl
  | CmpOption.valuesF fid typ inner => rfl
  | CmpOption.groupO l => exact osFilterList_mirror ctx st p hpath l none

theorem osFilterList_mirror (ctx : Ctx) (st : Step) (p : List Step)
    (hpath : ∀ pid q, ctx.funcs.pathPred pid (mirrorPath q) = ctx.funcs.pathPred pid q) :
    ∀ (l : List CmpOption) (acc : Option AppOpt),
      osFilterList ctx (mirrorStep st) (mirrorPath p) l acc = osFilterList ctx st p l acc := by
  intro l acc
  match l with
  | [] => rfl
  | o :: rest =>
      unfold osFilterList
      rw [osFilter_mirror ctx st p hpath o]
      cases hf : osFilter ctx st p o with
      | none => exact osFilterList_mirror ctx st p hpath rest acc
      | some a =>
          cases a with
          | ign => rfl
          | inv => exact osFilterList_mirror ctx st p hpath rest _
          | cmp c =>
              cases acc with
              | none => exact osFilterList_mirror ctx st p hpath rest _
              | some prev =>
                  cases prev with
                  | ign => exact osFilterList_mirror ctx st p hpath rest _
                  | inv => exact osFilterList_mirror ctx st p hpath rest _
                  | cmp c2 => exact osFilterList_mirror ctx st p hpath rest _
                  | trn t2 => exact osFilterList_mirror ctx st p hpath rest _
                  | amb l2 => exact osFilterList_mirror ctx st p hpath rest _
          | trn t =>
              cases acc with
              | none => exact osFilterList_mirror ctx st p hpath rest _
              | some prev =>
                  cases prev with
                  | ign => exact osFilterList_mirror ctx st p hpath rest _
                  | inv => exact osFilterList_mirror ctx st p hpath rest _
                  | cmp c2 => exact osFilterList_mirror ctx st p hpath rest _
                  | trn t2 => exact osFilterList_mirror ctx st p hpath rest _
                  | amb l2 => exact osFilterList_mirror ctx st p hpath rest _
          | amb l2 =>
              cases acc with
              | none => exact osFilterList_mirror ctx st p hpath rest _
              | some prev =>
                  cases prev with
                  | ign => exact osFilterList_mirror ctx st p hpath rest _
                  | inv => exact osFilterList_mirror ctx st p hpath rest _
                  | cmp c2 => exact osFilterList_mirror ctx st p hpath rest _
                  | trn t2 => exact osFilterList_mirror ctx st p hpath rest _
                  | amb l3 => exact osFilterList_mirror ctx st p hpath rest _

end

/-- Starting from the `invalid` sentinel the fold can only end in
`ignore` or `invalid`: `invalid` has precedence over comparers and
transformers (part_003 lines 72-77). -/
theorem osFilterList_inv (ctx : Ctx) (st : Step) (p : List Step) :
    ∀ l : List CmpOption,
      osFilterList ctx st p l (some AppOpt.inv) = some AppOpt.ign ∨
      osFilterList ctx st p l (some AppOpt.inv) = some AppOpt.inv := by
  intro l
  induction l with
  | nil => exact Or.inr rfl
  | cons o rest ih =>
      unfold osFilterList
      cases hf : osFilter ctx st p o with
      | none => exact ih
      | some a =>
          cases a with
          | ign => exact Or.inl rfl
          | inv => exact ih
          | cmp c => exact ih
          | trn t => exact ih
          | amb l2 => exact ih

/-- The tally increment of a one-sided comparison, as a pure function
of the options, the path and the step: 0 when the filter resolves to
Ignore, otherwise the validator reports the one-sided leaf
(equal only when both sides are absent). -/
def osDelta (ctx : Ctx) (cfg : Cfg) (p : List Step) (st : Step) : Nat :=
  match osFilterList ctx st (p ++ [st]) cfg.opts none with
  | some AppOpt.ign => 0
  | _ => if st.vx.valid == st.vy.valid then 0 else 1

theorem popStep_result (s : GoState) : (popStep s).result = s.result := rfl

theorem reportState_numDiff (s : GoState) (eq : Bool) (rf : RFlags) :
    (reportState s eq rf).result.NumDiff =
      s.result.NumDiff + (if rf.ignoredF then 0 else if eq then 0 else 1) := by
  simp only [reportState]
  by_cases hi : rf.ignoredF = true
  · simp [hi]
  · simp only [Bool.not_eq_true] at hi
    by_cases he : eq = true
    · simp [hi, he]
    · simp only [Bool.not_eq_true] at he
      simp [hi, he]

theorem oneSided_delta (ctx : Ctx) (cfg : Cfg)
    (hv : ∃ rest2, cfg.opts = CmpOption.validatorO :: rest2)
    (fuel : Nat) (s : GoState) (st : Step) (s2 : GoState) (hos : oneSided st)
    (h : compareAny ctx cfg fuel s st = Except.ok s2) :
    s2.result.NumDiff = s.result.NumDiff + osDelta ctx cfg s.curPath st := by
  cases fuel with
  | zero => cases h
  | succ n =>
      obtain ⟨rest2, hrest⟩ := hv
      rw [compareAny_succ] at h
      cases hrc : recCheck (pushStep s st).recNext (pushStep s st).curPath with
      | error e =>
          have haux : compareAnyAux (compareAny ctx cfg n) ctx cfg s st = Except.error e := by
            unfold compareAnyAux
            simp only [Bind.bind, Except.bind]
            rw [hrc]
          rw [haux] at h
          cases h
      | ok nxt =>
          have hF2 : osFilterList ctx st (s.curPath ++ [st]) cfg.opts none =
              osFilterList ctx st (s.curPath ++ [st]) rest2 (some AppOpt.inv) := by
            rw [hrest]
            rfl
          have hfl : optionsFilterList ctx st cfg.opts none
                ({ pushStep s st with recNext := nxt } : GoState) =
              Except.ok (osFilterList ctx st (s.curPath ++ [st]) cfg.opts none,
                ({ pushStep s st with recNext := nxt } : GoState)) :=
            osFilterList_spec ctx st hos cfg.opts none _
          rcases osFilterList_inv ctx st (s.curPath ++ [st]) rest2 with hig | hinv
          · have hfold : optionsFilterList ctx st cfg.opts none
                  ({ pushStep s st with recNext := nxt } : GoState) =
                Except.ok (some AppOpt.ign,
                  ({ pushStep s st with recNext := nxt } : GoState)) := by
              rw [hfl, hF2, hig]
            have hto : tryOptions (compareAny ctx cfg n) ctx cfg st
                  ({ pushStep s st with recNext := nxt } : GoState) =
                Except.ok (true, reportState ({ pushStep s st with recNext := nxt } : GoState)
                  true { ignoredF := true }) := by
              unfold tryOptions
              simp only [Bind.bind, Except.bind]
              rw [hfold]
              rfl
            have haux : compareAnyAux (compareAny ctx cfg n) ctx cfg s st =
                Except.ok (popStep (reportState
                  ({ pushStep s st with recNext := nxt } : GoState) true
                  { ignoredF := true })) := by
              unfold compareAnyAux
              simp only [Bind.bind, Except.bind]
              rw [hrc]
              dsimp only
              rw [hto]
              rfl
            rw [haux] at h
            cases h
            rw [popStep_result, reportState_numDiff]
            simp only [osDelta, hF2, hig]
            rfl
          · have hfold : optionsFilterList ctx st cfg.opts none
                  ({ pushStep s st with recNext := nxt } : GoState) =
                Except.ok (some AppOpt.inv,
                  ({ pushStep s st with recNext := nxt } : GoState)) := by
              rw [hfl, hF2, hinv]
            have hto : tryOptions (compareAny ctx cfg n) ctx cfg st
                  ({ pushStep s st with recNext := nxt } : GoState) =
                Except.ok (true, reportState ({ pushStep s st with recNext := nxt } : GoState)
                  (st.vx.valid == st.vy.valid) {}) := by
              unfold tryOptions
              simp only [Bind.bind, Except.bind]
              rw [hfold]
              dsimp only
              simp only [applyAppOpt]
              rw [if_pos (oneSided_invalid st hos)]
            have haux : compareAnyAux (compareAny ctx cfg n) ctx cfg s st =
                Except.ok (popStep (reportState
                  ({ pushStep s st with recNext := nxt } : GoState)
                  (st.vx.valid == st.vy.valid) {})) := by
              unfold compareAnyAux
              simp only [Bind.bind, Except.bind]
              rw [hrc]
              dsimp only
              rw [hto]
              rfl
            rw [haux] at h
            cases h
            rw [popStep_result, reportState_numDiff]
            simp only [osDelta, hF2, hinv]
            rfl

theorem map_range_getD (n t : Nat) (f : Nat → Bool) :
    (List.map f (List.range n)).getD t false = if t < n then f t else false := by
  by_cases ht : t < n
  · rw [if_pos ht]
    rw [List.getD_eq_getElem?_getD, List.getElem?_map, List.getElem?_range ht]
    rfl
  · rw [if_neg ht]
    rw [List.getD_eq_getElem?_getD, List.getElem?_map]
    rw [List.getElem?_eq_none]
    · rfl
    · simpa using Nat.le_of_not_lt ht

/-- The pre-scan bits are pure: entry `i` records whether the
one-sided comparison of position `i` would be a zero-diff comparison
standing alone. -/
theorem scan_char (ctx : Ctx) (cfg : Cfg)
    (hv : ∃ rest2, cfg.opts = CmpOption.validatorO :: rest2) (fuel : Nat)
    (pos : Nat → Step) (hpos : ∀ i, oneSided (pos i)) :
    ∀ (l : List Nat) (s : GoState) (out : List Bool × List Nat × GoState),
      sliceIgnoreScan (compareAny ctx cfg fuel) pos l s = Except.ok out →
      out.1 = l.map (fun i => osDelta ctx cfg s.curPath (pos i) == 0) := by
  intro l
  induction l with
  | nil => intro s out h; cases h; rfl
  | cons i rest ih =>
      intro s out h
      simp only [sliceIgnoreScan, Bind.bind, Except.bind] at h
      cases hc : statelessCompare (compareAny ctx cfg fuel) s (pos i) with
      | error e => rw [hc] at h; cases h
      | ok c =>
          rw [hc] at h
          dsimp only at h
          cases hs : sliceIgnoreScan (compareAny ctx cfg fuel) pos rest c.2 with
          | error e => rw [hs] at h; cases h
          | ok rr =>
              rw [hs] at h
              dsimp only at h
              cases h
              have hpath : c.2.curPath = s.curPath :=
                statelessCompare_pathOK _ (compareAny_pathOK ctx cfg fuel) _ _ _ hc
              have hrest := ih c.2 rr hs
              rw [hpath] at hrest
              -- the bit for position i
              have hbit : c.1.NumDiff = osDelta ctx cfg s.curPath (pos i) := by
                have h2 := hc
                unfold statelessCompare at h2
                cases hr : compareAny ctx cfg fuel
                    { s with result := {}, evLog := [] } (pos i) with
                | error e => rw [hr] at h2; cases h2
                | ok s1 =>
                    rw [hr] at h2
                    dsimp only at h2
                    cases h2
                    have hd := oneSided_delta ctx cfg hv fuel _ (pos i) s1 (hpos i) hr
                    simpa using hd
              rw [List.map_cons, hbit, hrest]

mutual

theorem processOption_head (names : Nat → String) (o : InOption) (cfg cfg2 : Cfg)
    (h : processOption names o cfg = Except.ok cfg2)
    (hh : ∃ t, cfg.opts = CmpOption.validatorO :: t) :
    ∃ t, cfg2.opts = CmpOption.validatorO :: t := by
  match o with
  | InOption.core c =>
      unfold processOption at h
      obtain ⟨t, ht⟩ := hh
      cases hf : isFilteredOpt c with
      | none =>
          rw [hf] at h
          cases h
          exact ⟨t ++ [c], by simp [ht]⟩
      | some b =>
          cases b with
          | false => rw [hf] at h; cases h
          | true =>
              rw [hf] at h
              cases h
              exact ⟨t ++ [c], by simp [ht]⟩
  | InOption.visible tys =>
      unfold processOption at h
      cases h
      exact hh
  | InOption.reporterIn =>
      unfold processOption at h
      cases h
      exact hh
  | InOption.groupIn l =>
      exact processOptions_head names l cfg cfg2 h hh

theorem processOptions_head (names : Nat → String) (l : List InOption) (cfg cfg2 : Cfg)
    (h : processOptions names l cfg = Except.ok cfg2)
    (hh : ∃ t, cfg.opts = CmpOption.validatorO :: t) :
    ∃ t, cfg2.opts = CmpOption.validatorO :: t := by
  match l with
  | [] =>
      unfold processOptions at h
      cases h
      exact hh
  | o :: rest =>
      unfold processOptions at h
      simp only [Bind.bind, Except.bind] at h
      cases hc : processOption names o cfg with
      | error e => rw [hc] at h; cases h
      | ok cfg1 =>
          rw [hc] at h
          exact processOptions_head names rest cfg1 cfg2 h
            (processOption_head names o cfg cfg1 hc hh)

end

theorem mirrorStep_vx (st : Step) : (mirrorStep st).vx = st.vy := rfl

theorem mirrorStep_vy (st : Step) : (mirrorStep st).vy = st.vx := rfl

mutual

/-- Filter evaluation commutes with mirroring: on swapped inputs every
option filters to the same applicable form (symmetric predicates never
disagree, path filters see a mirrored path, type filters see the same
type). -/
theorem filterPair (ctx : Ctx) (hsym : SymTTB ctx)
    (hpath : ∀ pid q, ctx.funcs.pathPred pid (mirrorPath q) = ctx.funcs.pathPred pid q)
    (st : Step) :
    ∀ (o : CmpOption) (sa sb : GoState) (pa pb : Option AppOpt × GoState),
      sb.curPath = mirrorPath sa.curPath →
      optionFilter ctx st o sa = Except.ok pa →
      optionFilter ctx (mirrorStep st) o sb = Except.ok pb →
      pa.1 = pb.1 := by
  intro o sa sb pa pb hmir ha hb
  match o with
  | CmpOption.ignoreO =>
      cases ha; cases hb; rfl
  | CmpOption.validatorO =>
      unfold optionFilter at ha hb
      by_cases hc : (!st.vx.valid || !st.vy.valid) = true
      · have hcb : (!(mirrorStep st).vx.valid || !(mirrorStep st).vy.valid) = true := by
          rw [mirrorStep_vx, mirrorStep_vy, Bool.or_comm]
          exact hc
        rw [if_pos hc] at ha
        rw [if_pos hcb] at hb
        cases ha; cases hb; rfl
      · have hcb : ¬ ((!(mirrorStep st).vx.valid || !(mirrorStep st).vy.valid) = true) := by
          rw [mirrorStep_vx, mirrorStep_vy, Bool.or_comm]
          exact hc
        rw [if_neg hc] at ha
        rw [if_neg hcb] at hb
        by_cases hu : st.unexp = true
        · rw [if_pos hu] at ha
          rw [if_pos (show (mirrorStep st).unexp = true from hu)] at hb
          cases ha; cases hb; rfl
        · rw [if_neg hu] at ha
          rw [if_neg (show ¬ ((mirrorStep st).unexp = true) from hu)] at hb
          cases ha; cases hb; rfl
  | CmpOption.cmpO c =>
      unfold optionFilter at ha hb
      by_cases hc : assignable st.typ c.typ = true
      · rw [if_pos hc] at ha
        rw [if_pos (show assignable (mirrorStep st).typ c.typ = true from hc)] at hb
        cases ha; cases hb; rfl
      · rw [if_neg hc] at ha
        rw [if_neg (show ¬ (assignable (mirrorStep st).typ c.typ = true) from hc)] at hb
        cases ha; cases hb; rfl
  | CmpOption.trO t =>
      unfold optionFilter at ha hb
      by_cases hb1 : transformBlocked t.trId sa.curPath = true
      · have hb1b : transformBlocked t.trId sb.curPath = true := by
          rw [hmir, transformBlocked_mirror]
          exact hb1
        rw [if_pos hb1] at ha
        rw [if_pos hb1b] at hb
        cases ha; cases hb; rfl
      · have hb1b : ¬ (transformBlocked t.trId sb.curPath = true) := by
          rw [hmir, transformBlocked_mirror]
          exact hb1
        rw [if_neg hb1] at ha
        rw [if_neg hb1b] at hb
        by_cases hb2 : assignable st.typ t.inTy = true
        · rw [if_pos hb2] at ha
          rw [if_pos (show assignable (mirrorStep st).typ t.inTy = true from hb2)] at hb
          cases ha; cases hb; rfl
        · rw [if_neg hb2] at ha
          rw [if_neg (show ¬ (assignable (mirrorStep st).typ t.inTy = true) from hb2)] at hb
          cases ha; cases hb; rfl
  | CmpOption.pathF pid inner =>
      unfold optionFilter at ha hb
      by_cases hc : ctx.funcs.pathPred pid sa.curPath = true
      · have hcb : ctx.funcs.pathPred pid sb.curPath = true := by
          rw [hmir, hpath pid sa.curPath]
          exact hc
        rw [if_pos hc] at ha
        rw [if_pos hcb] at hb
        exact filterPair ctx hsym hpath st inner sa sb pa pb hmir ha hb
      · have hcb : ¬ (ctx.funcs.pathPred pid sb.curPath = true) := by
          rw [hmir, hpath pid sa.curPath]
          exact hc
        rw [if_neg hc] at ha
        rw [if_neg hcb] at hb
        cases ha; cases hb; rfl
  | CmpOption.valuesF fid typ inner =>
      unfold optionFilter at ha hb
      by_cases hc : (!st.vx.valid || !st.vy.valid) = true
      · have hcb : (!(mirrorStep st).vx.valid || !(mirrorStep st).vy.valid) = true := by
          rw [mirrorStep_vx, mirrorStep_vy, Bool.or_comm]
          exact hc
        rw [if_pos hc] at ha
        rw [if_pos hcb] at hb
        cases ha; cases hb; rfl
      · have hcb : ¬ ((!(mirrorStep st).vx.valid || !(mirrorStep st).vy.valid) = true) := by
          rw [mirrorStep_vx, mirrorStep_vy, Bool.or_comm]
          exact hc
        rw [if_neg hc] at ha
        rw [if_neg hcb] at hb
        by_cases ht : assignable st.typ typ = true
        · rw [if_pos ht] at ha
          rw [if_pos (show assignable (mirrorStep st).typ typ = true from ht)] at hb
          simp only [Bind.bind, Except.bind] at ha hb
          rw [callTTB_ok ctx hsym fid st.vx st.vy sa] at ha
          rw [callTTB_ok ctx hsym fid (mirrorStep st).vx (mirrorStep st).vy sb] at hb
          dsimp only at ha hb
          by_cases hp : ctx.funcs.ttb fid st.vx st.vy = true
          · rw [if_pos hp] at ha
            rw [if_pos (show ctx.funcs.ttb fid (mirrorStep st).vx (mirrorStep st).vy = true
              from (hsym fid st.vy st.vx).trans hp)] at hb
            exact filterPair ctx hsym hpath st inner (dynNext sa).2 (dynNext sb).2 pa pb
              (show ((dynNext sb).2).curPath = mirrorPath ((dynNext sa).2).curPath from hmir)
              ha hb
          · rw [if_neg hp] at ha
            rw [if_neg (show ¬ (ctx.funcs.ttb fid (mirrorStep st).vx (mirrorStep st).vy = true)
              from fun hh => hp ((hsym fid st.vx st.vy).trans hh))] at hb
            cases ha; cases hb; rfl
        · rw [if_neg ht] at ha
          rw [if_neg (show ¬ (assignable (mirrorStep st).typ typ = true) from ht)] at hb
          cases ha; cases hb; rfl
  | CmpOption.groupO l =>
      exact filterListPair ctx hsym hpath st l none sa sb pa pb hmir ha hb

theorem filterListPair (ctx : Ctx) (hsym : SymTTB ctx)
    (hpath : ∀ pid q, ctx.funcs.pathPred pid (mirrorPath q) = ctx.funcs.pathPred pid q)
    (st : Step) :
    ∀ (l : List CmpOption) (acc : Option AppOpt) (sa sb : GoState)
      (pa pb : Option AppOpt × GoState),
      sb.curPath = mirrorPath sa.curPath →
      optionsFilterList ctx st l acc sa = Except.ok pa →
      optionsFilterList ctx (mirrorStep st) l acc sb = Except.ok pb →
      pa.1 = pb.1 := by
  intro l acc sa sb pa pb hmir ha hb
  match l with
  | [] => cases ha; cases hb; rfl
  | o :: rest =>
      unfold optionsFilterList at ha hb
      simp only [Bind.bind, Except.bind] at ha hb
      cases hca : optionFilter ctx st o sa with
      | error e => rw [hca] at ha; cases ha
      | ok qa =>
          rw [hca] at ha
          dsimp only at ha
          cases hcb : optionFilter ctx (mirrorStep st) o sb with
          | error e => rw [hcb] at hb; cases hb
          | ok qb =>
              rw [hcb] at hb
              dsimp only at hb
              have heq : qa.1 = qb.1 := filterPair ctx hsym hpath st o sa sb qa qb hmir hca hcb
              have hmir2 : qb.2.curPath = mirrorPath qa.2.curPath := by
                rw [(optionFilter_state ctx (mirrorStep st) o sb qb hcb).2.1,
                    (optionFilter_state ctx st o sa qa hca).2.1]
                exact hmir
              rw [← heq] at hb
              cases hqa : qa.1 with
              | none =>
                  rw [hqa] at ha hb
                  exact filterListPair ctx hsym hpath st rest acc qa.2 qb.2 pa pb hmir2 ha hb
              | some a =>
                  rw [hqa] at ha hb
                  cases a with
                  | ign => cases ha; cases hb; rfl
                  | inv =>
                      exact filterListPair ctx hsym hpath st rest (some AppOpt.inv)
                        qa.2 qb.2 pa pb hmir2 ha hb
                  | cmp c =>
                      cases acc with
                      | none =>
                          exact filterListPair ctx hsym hpath st rest _ qa.2 qb.2 pa pb hmir2 ha hb
                      | some prev =>
                          cases prev with
                          | ign =>
                              exact filterListPair ctx hsym hpath st rest _
                                qa.2 qb.2 pa pb hmir2 ha hb
                          | inv =>
                              exact filterListPair ctx hsym hpath st rest _
                                qa.2 qb.2 pa pb hmir2 ha hb
                          | cmp c2 =>
                              exact filterListPair ctx hsym hpath st rest _
                                qa.2 qb.2 pa pb hmir2 ha hb
                          | trn t2 =>
                              exact filterListPair ctx hsym hpath st rest _
                                qa.2 qb.2 pa pb hmir2 ha hb
                          | amb l2 =>
                              exact filterListPair ctx hsym hpath st rest _
                                qa.2 qb.2 pa pb hmir2 ha hb
                  | trn t =>
                      cases acc with
                      | none =>
                          exact filterListPair ctx hsym hpath st rest _ qa.2 qb.2 pa pb hmir2 ha hb
                      | some prev =>
                          cases prev with
                          | ign =>
                              exact filterListPair ctx hsym hpath st rest _
                                qa.2 qb.2 pa pb hmir2 ha hb
                          | inv =>
                              exact filterListPair ctx hsym hpath st rest _
                                qa.2 qb.2 pa pb hmir2 ha hb
                          | cmp c2 =>
                              exact filterListPair ctx hsym hpath st rest _
                                qa.2 qb.2 pa pb hmir2 ha hb
                          | trn t2 =>
                              exact filterListPair ctx hsym hpath st rest _
                                qa.2 qb.2 pa pb hmir2 ha hb
                          | amb l2 =>
                              exact filterListPair ctx hsym hpath st rest _
                                qa.2 qb.2 pa pb hmir2 ha hb
                  | amb l2 =>
                      cases acc with
                      | none =>
                          exact filterListPair ctx hsym hpath st rest _ qa.2 qb.2 pa pb hmir2 ha hb
                      | some prev =>
                          cases prev with
                          | ign =>
                              exact filterListPair ctx hsym hpath st rest _
                                qa.2 qb.2 pa pb hmir2 ha hb
                          | inv =>
                              exact filterListPair ctx hsym hpath st rest _
                                qa.2 qb.2 pa pb hmir2 ha hb
                          | cmp c2 =>
                              exact filterListPair ctx hsym hpath st rest _
                                qa.2 qb.2 pa pb hmir2 ha hb
                          | trn t2 =>
                              exact filterListPair ctx hsym hpath st rest _
                                qa.2 qb.2 pa pb hmir2 ha hb
                          | amb l3 =>
                              exact filterListPair ctx hsym hpath st rest _
                                qa.2 qb.2 pa pb hmir2 ha hb

end

/-- The mirror relation on a comparison routine: on mirrored states
and mirrored steps, two successful runs report the same number of
differences. -/
def MirrorOK (r : GoState → Step → M GoState) : Prop :=
  ∀ (sa sb : GoState) (st : Step) (sa2 sb2 : GoState),
    sb.curPath = mirrorPath sa.curPath →
    r sa st = Except.ok sa2 → r sb (mirrorStep st) = Except.ok sb2 →
    ∃ d, sa2.result.NumDiff = sa.result.NumDiff + d ∧
         sb2.result.NumDiff = sb.result.NumDiff + d

theorem beq_comm_bool (a b : Bool) : (a == b) = (b == a) := by
  cases a <;> cases b <;> rfl

theorem ite01_congr {a b : Bool} (h : a = b) (x y : Nat) :
    (if a = true then x else y) = (if b = true then x else y) := by rw [h]

theorem reportState_numDiff_plain (s : GoState) (eq : Bool) :
    (reportState s eq {}).result.NumDiff = s.result.NumDiff + (if eq then 0 else 1) := by
  rw [reportState_numDiff]
  rfl

theorem reportState_numDiff_method (s : GoState) (eq : Bool) :
    (reportState s eq { byMethodF := true }).result.NumDiff =
      s.result.NumDiff + (if eq then 0 else 1) := by
  rw [reportState_numDiff]
  rfl

theorem statelessPair (r : GoState → Step → M GoState) (hm : MirrorOK r)
    (sa sb : GoState) (st : Step) (pa pb : Result × GoState)
    (hmir : sb.curPath = mirrorPath sa.curPath)
    (ha : statelessCompare r sa st = Except.ok pa)
    (hb : statelessCompare r sb (mirrorStep st) = Except.ok pb) :
    pa.1.NumDiff = pb.1.NumDiff := by
  unfold statelessCompare at ha hb
  cases hra : r { sa with result := {}, evLog := [] } st with
  | error e => rw [hra] at ha; cases ha
  | ok s1 =>
      rw [hra] at ha
      dsimp only at ha
      cases hrb : r { sb with result := {}, evLog := [] } (mirrorStep st) with
      | error e => rw [hrb] at hb; cases hb
      | ok s2 =>
          rw [hrb] at hb
          dsimp only at hb
          cases ha; cases hb
          obtain ⟨d, hda, hdb⟩ := hm { sa with result := {}, evLog := [] }
            { sb with result := {}, evLog := [] } st s1 s2
            (show ({ sb with result := {}, evLog := [] } : GoState).curPath =
              mirrorPath ({ sa with result := {}, evLog := [] } : GoState).curPath from hmir)
            hra hrb
          have hda2 : s1.result.NumDiff = d := by simpa using hda
          have hdb2 : s2.result.NumDiff = d := by simpa using hdb
          exact hda2.trans hdb2.symm

theorem applyPair (ctx : Ctx) (hsym : SymTTB ctx)
    (r : GoState → Step → M GoState) (hm : MirrorOK r) (hp : PathOK r)
    (st : Step) (a : AppOpt) (sa sb sa2 sb2 : GoState)
    (hmir : sb.curPath = mirrorPath sa.curPath)
    (ha : applyAppOpt r ctx st a sa = Except.ok sa2)
    (hb : applyAppOpt r ctx (mirrorStep st) a sb = Except.ok sb2) :
    ∃ d, sa2.result.NumDiff = sa.result.NumDiff + d ∧
         sb2.result.NumDiff = sb.result.NumDiff + d := by
  cases a with
  | ign =>
      cases ha; cases hb
      refine ⟨0, ?_, ?_⟩
      · rw [reportState_numDiff]
        rfl
      · rw [reportState_numDiff]
        rfl
  | inv =>
      unfold applyAppOpt at ha hb
      by_cases hc : (!st.vx.valid || !st.vy.valid) = true
      · have hcb : (!(mirrorStep st).vx.valid || !(mirrorStep st).vy.valid) = true := by
          rw [mirrorStep_vx, mirrorStep_vy, Bool.or_comm]
          exact hc
        rw [if_pos hc] at ha
        rw [if_pos hcb] at hb
        cases ha; cases hb
        refine ⟨if st.vx.valid == st.vy.valid then 0 else 1, ?_, ?_⟩
        · rw [reportState_numDiff_plain]
        · rw [reportState_numDiff_plain]
          exact congrArg (sb.result.NumDiff + ·)
            (ite01_congr (show ((mirrorStep st).vx.valid == (mirrorStep st).vy.valid)
              = (st.vx.valid == st.vy.valid) from beq_comm_bool st.vy.valid st.vx.valid) 0 1)
      · have hcb : ¬ ((!(mirrorStep st).vx.valid || !(mirrorStep st).vy.valid) = true) := by
          rw [mirrorStep_vx, mirrorStep_vy, Bool.or_comm]
          exact hc
        rw [if_neg hc] at ha
        cases ha
  | cmp c =>
      simp only [applyAppOpt, Bind.bind, Except.bind] at ha hb
      rw [callTTB_ok ctx hsym c.id st.vx st.vy sa] at ha
      rw [callTTB_ok ctx hsym c.id (mirrorStep st).vx (mirrorStep st).vy sb] at hb
      dsimp only at ha hb
      cases ha; cases hb
      refine ⟨if ctx.funcs.ttb c.id st.vx st.vy then 0 else 1, ?_, ?_⟩
      · rw [reportState_numDiff_plain]
        rfl
      · rw [reportState_numDiff_plain]
        exact congrArg ((dynNext sb).2.result.NumDiff + ·)
          (ite01_congr (show (ctx.funcs.ttb c.id (mirrorStep st).vx (mirrorStep st).vy)
            = (ctx.funcs.ttb c.id st.vx st.vy) from hsym c.id st.vy st.vx) 0 1)
  | trn t =>
      simp only [applyAppOpt, Bind.bind, Except.bind] at ha hb
      cases hax : callTRFunc r ctx t st.vx { sa with curPath := sa.curPath ++ [mkTransformStep t GoVal.vInvalid GoVal.vInvalid] } with
      | error e => rw [hax] at ha; cases ha
      | ok pxa =>
          rw [hax] at ha
          dsimp only at ha
          cases hay : callTRFunc r ctx t st.vy pxa.2 with
          | error e => rw [hay] at ha; cases ha
          | ok pya =>
              rw [hay] at ha
              dsimp only at ha
              cases hbx : callTRFunc r ctx t (mirrorStep st).vx { sb with curPath := sb.curPath ++ [mkTransformStep t GoVal.vInvalid GoVal.vInvalid] } with
              | error e => rw [hbx] at hb; cases hb
              | ok pxb =>
                  rw [hbx] at hb
                  dsimp only at hb
                  cases hby : callTRFunc r ctx t (mirrorStep st).vy pxb.2 with
                  | error e => rw [hby] at hb; cases hb
                  | ok pyb =>
                      rw [hby] at hb
                      dsimp only at hb
                      have hvxa : pxa.1 = ctx.funcs.tr t.trId st.vx :=
                        callTRFunc_value r ctx t st.vx _ pxa hax
                      have hvya : pya.1 = ctx.funcs.tr t.trId st.vy :=
                        callTRFunc_value r ctx t st.vy _ pya hay
                      have hvxb : pxb.1 = ctx.funcs.tr t.trId st.vy :=
                        callTRFunc_value r ctx t (mirrorStep st).vx _ pxb hbx
                      have hvyb : pyb.1 = ctx.funcs.tr t.trId st.vx :=
                        callTRFunc_value r ctx t (mirrorStep st).vy _ pyb hby
                      have hra : pya.2.result = sa.result := by
                        rw [callTRFunc_result r ctx t st.vy _ pya hay,
                            callTRFunc_result r ctx t st.vx _ pxa hax]
                      have hrb : pyb.2.result = sb.result := by
                        rw [callTRFunc_result r ctx t (mirrorStep st).vy _ pyb hby,
                            callTRFunc_result r ctx t (mirrorStep st).vx _ pxb hbx]
                      have hpa2 : pya.2.curPath =
                          sa.curPath ++ [mkTransformStep t GoVal.vInvalid GoVal.vInvalid] := by
                        rw [callTRFunc_pathOK r hp ctx t st.vy _ pya hay,
                            callTRFunc_pathOK r hp ctx t st.vx _ pxa hax]
                      have hpb2 : pyb.2.curPath =
                          sb.curPath ++ [mkTransformStep t GoVal.vInvalid GoVal.vInvalid] := by
                        rw [callTRFunc_pathOK r hp ctx t (mirrorStep st).vy _ pyb hby,
                            callTRFunc_pathOK r hp ctx t (mirrorStep st).vx _ pxb hbx]
                      rw [hvxa, hvya] at ha
                      rw [hvxb, hvyb] at hb
                      have hmir4 : ({ pyb.2 with curPath := pyb.2.curPath.dropLast } : GoState).curPath =
                          mirrorPath ({ pya.2 with curPath := pya.2.curPath.dropLast } : GoState).curPath := by
                        show pyb.2.curPath.dropLast = mirrorPath pya.2.curPath.dropLast
                        rw [hpa2, hpb2, dropLast_concat_one, dropLast_concat_one, hmir]
                      obtain ⟨d, hda, hdb⟩ := hm
                        ({ pya.2 with curPath := pya.2.curPath.dropLast } : GoState)
                        ({ pyb.2 with curPath := pyb.2.curPath.dropLast } : GoState)
                        (mkTransformStep t (ctx.funcs.tr t.trId st.vx) (ctx.funcs.tr t.trId st.vy))
                        sa2 sb2 hmir4 ha
                        (show r ({ pyb.2 with curPath := pyb.2.curPath.dropLast } : GoState)
                          (mirrorStep (mkTransformStep t (ctx.funcs.tr t.trId st.vx)
                            (ctx.funcs.tr t.trId st.vy))) = Except.ok sb2 from hb)
                      refine ⟨d, ?_, ?_⟩
                      · rw [hda]
                        show pya.2.result.NumDiff + d = sa.result.NumDiff + d
                        rw [hra]
                      · rw [hdb]
                        show pyb.2.result.NumDiff + d = sb.result.NumDiff + d
                        rw [hrb]
  | amb l => cases ha

theorem methodPair (ctx : Ctx) (hsym : SymTTB ctx) (st : Step)
    (sa sb : GoState) (pa pb : Bool × GoState)
    (ha : tryMethod ctx st sa = Except.ok pa)
    (hb : tryMethod ctx (mirrorStep st) sb = Except.ok pb) :
    pa.1 = pb.1 ∧ ∃ d, pa.2.result.NumDiff = sa.result.NumDiff + d ∧
      pb.2.result.NumDiff = sb.result.NumDiff + d := by
  unfold tryMethod at ha hb
  cases hmm : ctx.methodOf st.typ with
  | none =>
      rw [hmm] at ha
      rw [show ctx.methodOf (mirrorStep st).typ = ctx.methodOf st.typ from rfl, hmm] at hb
      cases ha; cases hb
      exact ⟨rfl, 0, rfl, rfl⟩
  | some mid =>
      rw [hmm] at ha
      rw [show ctx.methodOf (mirrorStep st).typ = ctx.methodOf st.typ from rfl, hmm] at hb
      simp only [Bind.bind, Except.bind] at ha hb
      rw [callTTB_ok ctx hsym mid st.vx st.vy sa] at ha
      rw [callTTB_ok ctx hsym mid (mirrorStep st).vx (mirrorStep st).vy sb] at hb
      dsimp only at ha hb
      cases ha; cases hb
      refine ⟨rfl, if ctx.funcs.ttb mid st.vx st.vy then 0 else 1, ?_, ?_⟩
      · rw [reportState_numDiff_method]
        rfl
      · rw [reportState_numDiff_method]
        exact congrArg ((dynNext sb).2.result.NumDiff + ·)
          (ite01_congr (show (ctx.funcs.ttb mid (mirrorStep st).vx (mirrorStep st).vy)
            = (ctx.funcs.ttb mid st.vx st.vy) from hsym mid st.vy st.vx) 0 1)

theorem tryOptionsPair (ctx : Ctx) (cfg : Cfg) (hsym : SymTTB ctx)
    (hpath : ∀ pid q, ctx.funcs.pathPred pid (mirrorPath q) = ctx.funcs.pathPred pid q)
    (r : GoState → Step → M GoState) (hm : MirrorOK r) (hp : PathOK r)
    (st : Step) (sa sb : GoState) (pa pb : Bool × GoState)
    (hmir : sb.curPath = mirrorPath sa.curPath)
    (ha : tryOptions r ctx cfg st sa = Except.ok pa)
    (hb : tryOptions r ctx cfg (mirrorStep st) sb = Except.ok pb) :
    pa.1 = pb.1 ∧ ∃ d, pa.2.result.NumDiff = sa.result.NumDiff + d ∧
      pb.2.result.NumDiff = sb.result.NumDiff + d := by
  simp only [tryOptions, Bind.bind, Except.bind] at ha hb
  cases hfa : optionsFilterList ctx st cfg.opts none sa with
  | error e => rw [hfa] at ha; cases ha
  | ok qa =>
      rw [hfa] at ha
      dsimp only at ha
      cases hfb : optionsFilterList ctx (mirrorStep st) cfg.opts none sb with
      | error e => rw [hfb] at hb; cases hb
      | ok qb =>
          rw [hfb] at hb
          dsimp only at hb
          have heq : qa.1 = qb.1 :=
            filterListPair ctx hsym hpath st cfg.opts none sa sb qa qb hmir hfa hfb
          have hsta := optionsFilterList_state ctx st cfg.opts none sa qa hfa
          have hstb := optionsFilterList_state ctx (mirrorStep st) cfg.opts none sb qb hfb
          have hmir2 : qb.2.curPath = mirrorPath qa.2.curPath := by
            rw [hstb.2.1, hsta.2.1]
            exact hmir
          rw [← heq] at hb
          cases hqa : qa.1 with
          | none =>
              rw [hqa] at ha hb
              cases ha; cases hb
              refine ⟨rfl, 0, ?_, ?_⟩
              · rw [hsta.1]
                rfl
              · rw [hstb.1]
                rfl
          | some a =>
              rw [hqa] at ha hb
              dsimp only at ha hb
              cases haa : applyAppOpt r ctx st a qa.2 with
              | error e => rw [haa] at ha; cases ha
              | ok sa3 =>
                  rw [haa] at ha
                  dsimp only at ha
                  cases hab : applyAppOpt r ctx (mirrorStep st) a qb.2 with
                  | error e => rw [hab] at hb; cases hb
                  | ok sb3 =>
                      rw [hab] at hb
                      dsimp only at hb
                      cases ha; cases hb
                      obtain ⟨d, hda, hdb⟩ :=
                        applyPair ctx hsym r hm hp st a qa.2 qb.2 sa3 sb3 hmir2 haa hab
                      refine ⟨rfl, d, ?_, ?_⟩
                      · rw [hda, hsta.1]
                      · rw [hdb, hstb.1]

theorem structFieldsPair (r : GoState → Step → M GoState) (hm : MirrorOK r) (hp : PathOK r)
    (cfg : Cfg) (name : String) (xs ys : List GoVal) :
    ∀ (fs : List (String × Ty)) (i : Nat) (sa sb sa2 sb2 : GoState),
      sb.curPath = mirrorPath sa.curPath →
      compareStructFields r cfg name xs ys i fs sa = Except.ok sa2 →
      compareStructFields r cfg name ys xs i fs sb = Except.ok sb2 →
      ∃ d, sa2.result.NumDiff = sa.result.NumDiff + d ∧
           sb2.result.NumDiff = sb.result.NumDiff + d := by
  intro fs
  induction fs with
  | nil =>
      intro i sa sb sa2 sb2 hmir ha hb
      cases ha; cases hb
      exact ⟨0, rfl, rfl⟩
  | cons f rest ih =>
      intro i sa sb sa2 sb2 hmir ha hb
      obtain ⟨fn, ft⟩ := f
      unfold compareStructFields at ha hb
      by_cases he : (!isExported fn) = true
      · rw [if_pos he] at ha hb
        by_cases hbl : (fn == "_") = true
        · rw [if_pos hbl] at ha hb
          exact ih (i + 1) sa sb sa2 sb2 hmir ha hb
        · rw [if_neg hbl] at ha hb
          simp only [Bind.bind, Except.bind] at ha hb
          cases hca : r sa { kind := StepKind.fieldK fn i, typ := ft, vx := xs.getD i GoVal.vInvalid, vy := ys.getD i GoVal.vInvalid, unexp := !cfg.exporters.contains (Ty.tStruct name) } with
          | error e => rw [hca] at ha; cases ha
          | ok s1 =>
              rw [hca] at ha
              dsimp only at ha
              cases hcb : r sb { kind := StepKind.fieldK fn i, typ := ft, vx := ys.getD i GoVal.vInvalid, vy := xs.getD i GoVal.vInvalid, unexp := !cfg.exporters.contains (Ty.tStruct name) } with
              | error e => rw [hcb] at hb; cases hb
              | ok s2 =>
                  rw [hcb] at hb
                  dsimp only at hb
                  obtain ⟨d1, hda1, hdb1⟩ := hm sa sb
                    { kind := StepKind.fieldK fn i, typ := ft, vx := xs.getD i GoVal.vInvalid, vy := ys.getD i GoVal.vInvalid, unexp := !cfg.exporters.contains (Ty.tStruct name) }
                    s1 s2 hmir hca hcb
                  have hmir1 : s2.curPath = mirrorPath s1.curPath := by
                    rw [hp _ _ _ hca, hp _ _ _ hcb]
                    exact hmir
                  obtain ⟨d2, hda2, hdb2⟩ := ih (i + 1) s1 s2 sa2 sb2 hmir1 ha hb
                  exact ⟨d1 + d2, by rw [hda2, hda1]; omega, by rw [hdb2, hdb1]; omega⟩
      · rw [if_neg he] at ha hb
        simp only [Bind.bind, Except.bind] at ha hb
        cases hca : r sa { kind := StepKind.fieldK fn i, typ := ft, vx := xs.getD i GoVal.vInvalid, vy := ys.getD i GoVal.vInvalid } with
        | error e => rw [hca] at ha; cases ha
        | ok s1 =>
            rw [hca] at ha
            dsimp only at ha
            cases hcb : r sb { kind := StepKind.fieldK fn i, typ := ft, vx := ys.getD i GoVal.vInvalid, vy := xs.getD i GoVal.vInvalid } with
            | error e => rw [hcb] at hb; cases hb
            | ok s2 =>
                rw [hcb] at hb
                dsimp only at hb
                obtain ⟨d1, hda1, hdb1⟩ := hm sa sb
                  { kind := StepKind.fieldK fn i, typ := ft, vx := xs.getD i GoVal.vInvalid, vy := ys.getD i GoVal.vInvalid }
                  s1 s2 hmir hca hcb
                have hmir1 : s2.curPath = mirrorPath s1.curPath := by
                  rw [hp _ _ _ hca, hp _ _ _ hcb]
                  exact hmir
                obtain ⟨d2, hda2, hdb2⟩ := ih (i + 1) s1 s2 sa2 sb2 hmir1 ha hb
                exact ⟨d1 + d2, by rw [hda2, hda1]; omega, by rw [hdb2, hdb1]; omega⟩

theorem sortKeysGo_perm_eq (l1 l2 : List GoKey) (hperm : l1.Perm l2) :
    sortKeysGo l1 = sortKeysGo l2 := by
  unfold sortKeysGo
  have hs : List.insertionSort keyRel l1 = List.insertionSort keyRel l2 :=
    List.eq_of_perm_of_sorted
      (((List.perm_insertionSort keyRel l1).trans hperm).trans
        (List.perm_insertionSort keyRel l2).symm)
      (List.sorted_insertionSort keyRel l1)
      (List.sorted_insertionSort keyRel l2)
  rw [hs]

theorem mapEntriesPair (r : GoState → Step → M GoState) (hm : MirrorOK r) (hp : PathOK r)
    (elemT : Ty) (ex ey : List (GoKey × GoVal)) :
    ∀ (ks : List GoKey) (sa sb sa2 sb2 : GoState),
      sb.curPath = mirrorPath sa.curPath →
      compareMapEntries r elemT ex ey ks sa = Except.ok sa2 →
      compareMapEntries r elemT ey ex ks sb = Except.ok sb2 →
      ∃ d, sa2.result.NumDiff = sa.result.NumDiff + d ∧
           sb2.result.NumDiff = sb.result.NumDiff + d := by
  intro ks
  induction ks with
  | nil =>
      intro sa sb sa2 sb2 hmir ha hb
      cases ha; cases hb
      exact ⟨0, rfl, rfl⟩
  | cons k rest ih =>
      intro sa sb sa2 sb2 hmir ha hb
      simp only [compareMapEntries, Bind.bind, Except.bind] at ha hb
      by_cases hnan : (!(mapLookup ex k).valid && !(mapLookup ey k).valid) = true
      · rw [if_pos hnan] at ha
        cases ha
      · rw [if_neg hnan] at ha
        have hnanb : ¬ ((!(mapLookup ey k).valid && !(mapLookup ex k).valid) = true) := by
          rw [Bool.and_comm]
          exact hnan
        rw [if_neg hnanb] at hb
        cases hca : r sa { kind := StepKind.mapK k, typ := elemT, vx := mapLookup ex k, vy := mapLookup ey k } with
        | error e => rw [hca] at ha; cases ha
        | ok s1 =>
            rw [hca] at ha
            dsimp only at ha
            cases hcb : r sb { kind := StepKind.mapK k, typ := elemT, vx := mapLookup ey k, vy := mapLookup ex k } with
            | error e => rw [hcb] at hb; cases hb
            | ok s2 =>
                rw [hcb] at hb
                dsimp only at hb
                obtain ⟨d1, hda1, hdb1⟩ := hm sa sb
                  { kind := StepKind.mapK k, typ := elemT, vx := mapLookup ex k, vy := mapLookup ey k }
                  s1 s2 hmir hca hcb
                have hmir1 : s2.curPath = mirrorPath s1.curPath := by
                  rw [hp _ _ _ hca, hp _ _ _ hcb]
                  exact hmir
                obtain ⟨d2, hda2, hdb2⟩ := ih s1 s2 sa2 sb2 hmir1 ha hb
                exact ⟨d1 + d2, by rw [hda2, hda1]; omega, by rw [hdb2, hdb1]; omega⟩

def goAsMap : GoVal → Option (Bool × List (GoKey × GoVal))
  | GoVal.vMap n e => some (n, e)
  | _ => none

theorem compareMap_eq (r : GoState → Step → M GoState) (elemT : Ty) (st : Step) (s : GoState) :
    compareMap r elemT st s =
      match goAsMap st.vx, goAsMap st.vy with
      | some (nx, ex), some (ny, ey) =>
          if nx || ny then Except.ok (reportState s (nx && ny) {})
          else compareMapEntries r elemT ex ey
            (sortKeysGo (ex.map Prod.fst ++ ey.map Prod.fst)) s
      | _, _ => Except.ok (reportState s false {}) := by
  rcases st with ⟨k, t, vx, vy, u⟩
  cases vx <;> cases vy <;> rfl

theorem mapPair (r : GoState → Step → M GoState) (hm : MirrorOK r) (hp : PathOK r)
    (elemT : Ty) (st : Step) (sa sb sa2 sb2 : GoState)
    (hmir : sb.curPath = mirrorPath sa.curPath)
    (ha : compareMap r elemT st sa = Except.ok sa2)
    (hb : compareMap r elemT (mirrorStep st) sb = Except.ok sb2) :
    ∃ d, sa2.result.NumDiff = sa.result.NumDiff + d ∧
         sb2.result.NumDiff = sb.result.NumDiff + d := by
  rw [compareMap_eq] at ha hb
  rw [show (mirrorStep st).vx = st.vy from rfl, show (mirrorStep st).vy = st.vx from rfl] at hb
  cases hgx : goAsMap st.vx with
  | none =>
      rw [hgx] at ha hb
      cases hgy : goAsMap st.vy with
      | none =>
          rw [hgy] at ha hb
          cases ha; cases hb
          refine ⟨1, ?_, ?_⟩ <;> (rw [reportState_numDiff_plain]; rfl)
      | some py =>
          rw [hgy] at ha hb
          obtain ⟨ny, ey⟩ := py
          cases ha; cases hb
          refine ⟨1, ?_, ?_⟩ <;> (rw [reportState_numDiff_plain]; rfl)
  | some px =>
      rw [hgx] at ha hb
      obtain ⟨nx, ex⟩ := px
      cases hgy : goAsMap st.vy with
      | none =>
          rw [hgy] at ha hb
          cases ha; cases hb
          refine ⟨1, ?_, ?_⟩ <;> (rw [reportState_numDiff_plain]; rfl)
      | some py =>
          rw [hgy] at ha hb
          obtain ⟨ny, ey⟩ := py
          dsimp only at ha hb
          by_cases hn : (nx || ny) = true
          · rw [if_pos hn] at ha
            rw [if_pos (show (ny || nx) = true from by rw [Bool.or_comm]; exact hn)] at hb
            cases ha; cases hb
            refine ⟨if nx && ny then 0 else 1, ?_, ?_⟩
            · rw [reportState_numDiff_plain]
            · rw [reportState_numDiff_plain]
              exact congrArg (sb.result.NumDiff + ·)
                (ite01_congr (Bool.and_comm ny nx) 0 1)
          · rw [if_neg hn] at ha
            rw [if_neg (show ¬ ((ny || nx) = true) from by rw [Bool.or_comm]; exact hn)] at hb
            rw [show sortKeysGo (List.map Prod.fst ey ++ List.map Prod.fst ex)
                = sortKeysGo (List.map Prod.fst ex ++ List.map Prod.fst ey) from
              sortKeysGo_perm_eq _ _ (List.perm_append_comm)] at hb
            exact mapEntriesPair r hm hp elemT ex ey _ sa sb sa2 sb2 hmir ha hb

theorem scanPair (r : GoState → Step → M GoState) (hm : MirrorOK r) (hp : PathOK r)
    (posA : Nat → Step) :
    ∀ (l : List Nat) (sa sb : GoState) (ra rb : List Bool × List Nat × GoState),
      sb.curPath = mirrorPath sa.curPath →
      sliceIgnoreScan r posA l sa = Except.ok ra →
      sliceIgnoreScan r (fun i => mirrorStep (posA i)) l sb = Except.ok rb →
      ra.1 = rb.1 ∧ ra.2.1 = rb.2.1 := by
  intro l
  induction l with
  | nil =>
      intro sa sb ra rb hmir ha hb
      cases ha; cases hb
      exact ⟨rfl, rfl⟩
  | cons i rest ih =>
      intro sa sb ra rb hmir ha hb
      simp only [sliceIgnoreScan, Bind.bind, Except.bind] at ha hb
      cases hca : statelessCompare r sa (posA i) with
      | error e => rw [hca] at ha; cases ha
      | ok ca =>
          rw [hca] at ha
          dsimp only at ha
          cases hcb : statelessCompare r sb (mirrorStep (posA i)) with
          | error e => rw [hcb] at hb; cases hb
          | ok cb =>
              rw [hcb] at hb
              dsimp only at hb
              cases hsa : sliceIgnoreScan r posA rest ca.2 with
              | error e => rw [hsa] at ha; cases ha
              | ok rra =>
                  rw [hsa] at ha
                  dsimp only at ha
                  cases hsb : sliceIgnoreScan r (fun i => mirrorStep (posA i)) rest cb.2 with
                  | error e => rw [hsb] at hb; cases hb
                  | ok rrb =>
                      rw [hsb] at hb
                      dsimp only at hb
                      cases ha; cases hb
                      have hnum : ca.1.NumDiff = cb.1.NumDiff :=
                        statelessPair r hm sa sb (posA i) ca cb hmir hca hcb
                      have hmir1 : cb.2.curPath = mirrorPath ca.2.curPath := by
                        rw [statelessCompare_pathOK r hp sa (posA i) ca hca,
                            statelessCompare_pathOK r hp sb (mirrorStep (posA i)) cb hcb]
                        exact hmir
                      obtain ⟨h1, h2⟩ := ih ca.2 cb.2 rra rrb hmir1 hsa hsb
                      constructor
                      · show (ca.1.NumDiff == 0) :: rra.1 = (cb.1.NumDiff == 0) :: rrb.1
                        rw [hnum, h1]
                      · show (if ca.1.NumDiff == 0 then rra.2.1 else i :: rra.2.1)
                            = (if cb.1.NumDiff == 0 then rrb.2.1 else i :: rrb.2.1)
                        rw [hnum, h2]

def mirrorEdit : EditType → EditType
  | EditType.uniqueXE => EditType.uniqueYE
  | EditType.uniqueYE => EditType.uniqueXE
  | e => e

theorem diffPair (r : GoState → Step → M GoState) (hm : MirrorOK r) (hp : PathOK r)
    (mkAf : Nat → Nat → Step) :
    ∀ (n : Nat) (lx ly : List Nat) (sa sb : GoState) (ra rb : List EditType × GoState),
      lx.length + ly.length ≤ n →
      sb.curPath = mirrorPath sa.curPath →
      differenceGo (fun ox oy s => statelessCompare r s (mkAf ox oy)) lx ly sa =
        Except.ok ra →
      differenceGo (fun ox oy s => statelessCompare r s (mirrorStep (mkAf oy ox))) ly lx sb =
        Except.ok rb →
      rb.1 = ra.1.map mirrorEdit := by
  intro n
  induction n with
  | zero =>
      intro lx ly sa sb ra rb hlen hmir ha hb
      match lx, ly with
      | [], [] =>
          simp only [differenceGo] at ha hb
          cases ha; cases hb
          rfl
      | [], y :: ys => simp at hlen
      | x :: xs, _ => simp at hlen
  | succ n ih =>
      intro lx ly sa sb ra rb hlen hmir ha hb
      match lx, ly with
      | [], [] =>
          simp only [differenceGo] at ha hb
          cases ha; cases hb
          rfl
      | [], y :: ys =>
          simp only [differenceGo] at ha hb
          cases ha; cases hb
          simp [mirrorEdit, List.map_map]
      | x :: xs, [] =>
          simp only [differenceGo] at ha hb
          cases ha; cases hb
          simp [mirrorEdit, List.map_map]
      | ix :: xs, iy :: ys =>
          simp only [differenceGo, Bind.bind, Except.bind] at ha hb
          cases hca : statelessCompare r sa (mkAf ix iy) with
          | error e => rw [hca] at ha; cases ha
          | ok ca =>
              rw [hca] at ha
              dsimp only at ha
              cases hcb : statelessCompare r sb (mirrorStep (mkAf ix iy)) with
              | error e => rw [hcb] at hb; cases hb
              | ok cb =>
                  rw [hcb] at hb
                  dsimp only at hb
                  have hnum : ca.1.NumDiff = cb.1.NumDiff :=
                    statelessPair r hm sa sb (mkAf ix iy) ca cb hmir hca hcb
                  have hmir1 : cb.2.curPath = mirrorPath ca.2.curPath := by
                    rw [statelessCompare_pathOK r hp sa (mkAf ix iy) ca hca,
                        statelessCompare_pathOK r hp sb (mirrorStep (mkAf ix iy)) cb hcb]
                    exact hmir
                  have hlen2 : xs.length + ys.length ≤ n := by
                    simp only [List.length_cons] at hlen; omega
                  by_cases heq : ca.1.IsEqual = true
                  · have heqb : cb.1.IsEqual = true := by
                      unfold Result.IsEqual at heq ⊢
                      rw [← hnum]; exact heq
                    rw [if_pos heq] at ha
                    rw [if_pos heqb] at hb
                    try simp only [Bind.bind, Except.bind] at ha hb
                    cases hda : differenceGo (fun ox oy s => statelessCompare r s (mkAf ox oy)) xs ys ca.2 with
                    | error e => rw [hda] at ha; cases ha
                    | ok rra =>
                        rw [hda] at ha
                        dsimp only at ha
                        cases hdb : differenceGo (fun ox oy s => statelessCompare r s (mirrorStep (mkAf oy ox))) ys xs cb.2 with
                        | error e => rw [hdb] at hb; cases hb
                        | ok rrb =>
                            rw [hdb] at hb
                            dsimp only at hb
                            cases ha; cases hb
                            have hrec := ih xs ys ca.2 cb.2 rra rrb hlen2 hmir1 hda hdb
                            show EditType.identityE :: rrb.1
                              = (EditType.identityE :: rra.1).map mirrorEdit
                            rw [List.map_cons, hrec]
                            rfl
                  · have heqb : ¬ (cb.1.IsEqual = true) := by
                      unfold Result.IsEqual at heq ⊢
                      rw [← hnum]; exact heq
                    rw [if_neg heq] at ha
                    rw [if_neg heqb] at hb
                    by_cases hgt : xs.length > ys.length
                    · rw [if_pos hgt] at ha
                      rw [if_neg (show ¬ (ys.length > xs.length) from by omega)] at hb
                      rw [if_pos (show ys.length < xs.length from by omega)] at hb
                      try simp only [Bind.bind, Except.bind] at ha hb
                      have hlen3 : xs.length + (iy :: ys).length ≤ n := by
                        simp only [List.length_cons] at hlen ⊢; omega
                      cases hda : differenceGo (fun ox oy s => statelessCompare r s (mkAf ox oy)) xs (iy :: ys) ca.2 with
                      | error e => rw [hda] at ha; cases ha
                      | ok rra =>
                          rw [hda] at ha
                          dsimp only at ha
                          cases hdb : differenceGo (fun ox oy s => statelessCompare r s (mirrorStep (mkAf oy ox))) (iy :: ys) xs cb.2 with
                          | error e => rw [hdb] at hb; cases hb
                          | ok rrb =>
                              rw [hdb] at hb
                              dsimp only at hb
                              cases ha; cases hb
                              have hrec := ih xs (iy :: ys) ca.2 cb.2 rra rrb hlen3 hmir1 hda hdb
                              show EditType.uniqueYE :: rrb.1
                                = (EditType.uniqueXE :: rra.1).map mirrorEdit
                              rw [List.map_cons, hrec]
                              rfl
                    · rw [if_neg hgt] at ha
                      by_cases hlt : xs.length < ys.length
                      · rw [if_pos hlt] at ha
                        rw [if_pos (show ys.length > xs.length from by omega)] at hb
                        try simp only [Bind.bind, Except.bind] at ha hb
                        have hlen4 : (ix :: xs).length + ys.length ≤ n := by
                          simp only [List.length_cons] at hlen ⊢; omega
                        cases hda : differenceGo (fun ox oy s => statelessCompare r s (mkAf ox oy)) (ix :: xs) ys ca.2 with
                        | error e => rw [hda] at ha; cases ha
                        | ok rra =>
                            rw [hda] at ha
                            dsimp only at ha
                            cases hdb : differenceGo (fun ox oy s => statelessCompare r s (mirrorStep (mkAf oy ox))) ys (ix :: xs) cb.2 with
                            | error e => rw [hdb] at hb; cases hb
                            | ok rrb =>
                                rw [hdb] at hb
                                dsimp only at hb
                                cases ha; cases hb
                                have hrec := ih (ix :: xs) ys ca.2 cb.2 rra rrb hlen4 hmir1 hda hdb
                                show EditType.uniqueXE :: rrb.1
                                  = (EditType.uniqueYE :: rra.1).map mirrorEdit
                                rw [List.map_cons, hrec]
                                rfl
                      · rw [if_neg hlt] at ha
                        rw [if_neg (show ¬ (ys.length > xs.length) from by omega)] at hb
                        rw [if_neg (show ¬ (ys.length < xs.length) from by omega)] at hb
                        try simp only [Bind.bind, Except.bind] at ha hb
                        cases hda : differenceGo (fun ox oy s => statelessCompare r s (mkAf ox oy)) xs ys ca.2 with
                        | error e => rw [hda] at ha; cases ha
                        | ok rra =>
                            rw [hda] at ha
                            dsimp only at ha
                            cases hdb : differenceGo (fun ox oy s => statelessCompare r s (mirrorStep (mkAf oy ox))) ys xs cb.2 with
                            | error e => rw [hdb] at hb; cases hb
                            | ok rrb =>
                                rw [hdb] at hb
                                dsimp only at hb
                                cases ha; cases hb
                                have hrec := ih xs ys ca.2 cb.2 rra rrb hlen2 hmir1 hda hdb
                                show EditType.modifiedE :: rrb.1
                                  = (EditType.modifiedE :: rra.1).map mirrorEdit
                                rw [List.map_cons, hrec]
                                rfl

theorem oneSided_mirror (st : Step) (h : oneSided st) : oneSided (mirrorStep st) :=
  h.symm

theorem osDelta_mirror (ctx : Ctx) (cfg : Cfg)
    (hpath : ∀ pid q, ctx.funcs.pathPred pid (mirrorPath q) = ctx.funcs.pathPred pid q)
    (p : List Step) (st : Step) :
    osDelta ctx cfg (mirrorPath p) (mirrorStep st) = osDelta ctx cfg p st := by
  unfold osDelta
  rw [show mirrorPath p ++ [mirrorStep st] = mirrorPath (p ++ [st]) from
    (mirrorPath_append p st).symm]
  rw [osFilterList_mirror ctx st (p ++ [st]) hpath cfg.opts none]
  cases hF : osFilterList ctx st (p ++ [st]) cfg.opts none with
  | none =>
      exact ite01_congr (show ((mirrorStep st).vx.valid == (mirrorStep st).vy.valid)
        = (st.vx.valid == st.vy.valid) from beq_comm_bool st.vy.valid st.vx.valid) 0 1
  | some a =>
      cases a with
      | ign => rfl
      | inv =>
          exact ite01_congr (show ((mirrorStep st).vx.valid == (mirrorStep st).vy.valid)
            = (st.vx.valid == st.vy.valid) from beq_comm_bool st.vy.valid st.vx.valid) 0 1
      | cmp c =>
          exact ite01_congr (show ((mirrorStep st).vx.valid == (mirrorStep st).vy.valid)
            = (st.vx.valid == st.vy.valid) from beq_comm_bool st.vy.valid st.vx.valid) 0 1
      | trn t =>
          exact ite01_congr (show ((mirrorStep st).vx.valid == (mirrorStep st).vy.valid)
            = (st.vx.valid == st.vy.valid) from beq_comm_bool st.vy.valid st.vx.valid) 0 1
      | amb l =>
          exact ite01_congr (show ((mirrorStep st).vx.valid == (mirrorStep st).vy.valid)
            = (st.vx.valid == st.vy.valid) from beq_comm_bool st.vy.valid st.vx.valid) 0 1

/-- The replay loops of the two mirrored slice comparisons, allowed to
be out of step inside runs of pre-scan-discarded positions: the first
run is at `(ax, ay)`, the second (whose x side is the first run's y
side) at `(q, w)`; every position the second run has passed on the y
side (`[ay, q)`) and every position the first run has passed beyond
the second on the x side (`[w, ax)`) is an ignored position, and
ignored one-sided comparisons change nothing, so the two totals agree. -/
theorem replayPair (ctx : Ctx) (cfg : Cfg)
    (hv : ∃ rest2, cfg.opts = CmpOption.validatorO :: rest2)
    (hpath : ∀ pid qq, ctx.funcs.pathPred pid (mirrorPath qq) = ctx.funcs.pathPred pid qq)
    (fuel : Nat) (hm : MirrorOK (compareAny ctx cfg fuel))
    (mkA mkB : Int → Int → Step)
    (hmk : ∀ i j, mkB i j = mirrorStep (mkA j i))
    (ignX ignY : List Bool) (lenX lenY : Nat) (p : List Step)
    (hixOS : ∀ t : Nat, oneSided (mkA (↑t) (-1)))
    (hiyOS : ∀ t : Nat, oneSided (mkA (-1) (↑t)))
    (hix : ∀ t : Nat, ignX.getD t false = true →
      t < lenX ∧ osDelta ctx cfg p (mkA (↑t) (-1)) = 0)
    (hiy : ∀ t : Nat, ignY.getD t false = true →
      t < lenY ∧ osDelta ctx cfg p (mkA (-1) (↑t)) = 0) :
    ∀ (N gasA gasB ax ay q w : Nat) (editsA : List EditType) (sa sb sa2 sb2 : GoState),
      gasA + gasB ≤ N →
      sa.curPath = p → sb.curPath = mirrorPath p →
      w ≤ ax → ay ≤ q →
      (∀ t, w ≤ t → t < ax → ignX.getD t false = true) →
      (∀ t, ay ≤ t → t < q → ignY.getD t false = true) →
      sliceReplay (compareAny ctx cfg fuel) mkA ignX ignY lenX lenY
        ax ay gasA editsA sa = Except.ok sa2 →
      sliceReplay (compareAny ctx cfg fuel) mkB ignY ignX lenY lenX
        q w gasB (editsA.map mirrorEdit) sb = Except.ok sb2 →
      ∃ d, sa2.result.NumDiff = sa.result.NumDiff + d ∧
           sb2.result.NumDiff = sb.result.NumDiff + d := by
  intro N
  induction N with
  | zero =>
      intro gasA gasB ax ay q w editsA sa sb sa2 sb2 hgas hsap hsbp hwax hayq hinvX hinvY ha hb
      have hz : gasA = 0 := by omega
      rw [hz] at ha
      cases ha
  | succ N ih =>
      intro gasA gasB ax ay q w editsA sa sb sa2 sb2 hgas hsap hsbp hwax hayq hinvX hinvY ha hb
      cases gasA with
      | zero => cases ha
      | succ gA =>
      cases gasB with
      | zero => cases hb
      | succ gB =>
      by_cases hB1 : ignY.getD q false = true
      · obtain ⟨hqlt, hqdelta⟩ := hiy q hB1
        unfold sliceReplay at hb
        rw [if_pos (show q < lenY ∨ w < lenX from Or.inl hqlt)] at hb
        rw [if_pos hB1] at hb
        simp only [Bind.bind, Except.bind] at hb
        cases hop : compareAny ctx cfg fuel sb (mkB (↑q) (-1)) with
        | error e => rw [hop] at hb; cases hb
        | ok sb1 =>
            rw [hop] at hb
            dsimp only at hb
            have hop2 : compareAny ctx cfg fuel sb (mirrorStep (mkA (-1) (↑q))) =
                Except.ok sb1 := by
              rw [← hmk]; exact hop
            have hdel : sb1.result.NumDiff = sb.result.NumDiff := by
              have hd := oneSided_delta ctx cfg hv fuel sb (mirrorStep (mkA (-1) (↑q))) sb1
                (oneSided_mirror _ (hiyOS q)) hop2
              rw [hsbp, osDelta_mirror ctx cfg hpath p (mkA (-1) (↑q)), hqdelta] at hd
              simpa using hd
            have hsb1p : sb1.curPath = mirrorPath p := by
              rw [compareAny_pathOK ctx cfg fuel sb _ sb1 hop, hsbp]
            obtain ⟨d, hda, hdb⟩ := ih (gA + 1) gB ax ay (q + 1) w editsA sa sb1 sa2 sb2
              (by omega) hsap hsb1p hwax (by omega) hinvX
              (fun t h1 h2 => by
                by_cases ht : t < q
                · exact hinvY t h1 ht
                · have ht2 : t = q := by omega
                  rw [ht2]; exact hB1)
              ha hb
            exact ⟨d, hda, by rw [hdb, hdel]⟩
      · by_cases hB2 : ignX.getD w false = true ∧ w < ax
        · obtain ⟨hwig, hwlt⟩ := hB2
          obtain ⟨hwlen, hwdelta⟩ := hix w hwig
          unfold sliceReplay at hb
          rw [if_pos (show q < lenY ∨ w < lenX from Or.inr hwlen)] at hb
          rw [if_neg (show ¬ (ignY.getD q false = true) from hB1)] at hb
          rw [if_pos hwig] at hb
          simp only [Bind.bind, Except.bind] at hb
          cases hop : compareAny ctx cfg fuel sb (mkB (-1) (↑w)) with
          | error e => rw [hop] at hb; cases hb
          | ok sb1 =>
              rw [hop] at hb
              dsimp only at hb
              have hop2 : compareAny ctx cfg fuel sb (mirrorStep (mkA (↑w) (-1))) =
                  Except.ok sb1 := by
                rw [← hmk]; exact hop
              have hdel : sb1.result.NumDiff = sb.result.NumDiff := by
                have hd := oneSided_delta ctx cfg hv fuel sb (mirrorStep (mkA (↑w) (-1))) sb1
                  (oneSided_mirror _ (hixOS w)) hop2
                rw [hsbp, osDelta_mirror ctx cfg hpath p (mkA (↑w) (-1)), hwdelta] at hd
                simpa using hd
              have hsb1p : sb1.curPath = mirrorPath p := by
                rw [compareAny_pathOK ctx cfg fuel sb _ sb1 hop, hsbp]
              obtain ⟨d, hda, hdb⟩ := ih (gA + 1) gB ax ay q (w + 1) editsA sa sb1 sa2 sb2
                (by omega) hsap hsb1p (by omega) hayq
                (fun t h1 h2 => hinvX t (by omega) h2)
                hinvY ha hb
              exact ⟨d, hda, by rw [hdb, hdel]⟩
        · by_cases hA1 : ignX.getD ax false = true
          · obtain ⟨haxlt, haxdelta⟩ := hix ax hA1
            unfold sliceReplay at ha
            rw [if_pos (show ax < lenX ∨ ay < lenY from Or.inl haxlt)] at ha
            rw [if_pos hA1] at ha
            simp only [Bind.bind, Except.bind] at ha
            cases hop : compareAny ctx cfg fuel sa (mkA (↑ax) (-1)) with
            | error e => rw [hop] at ha; cases ha
            | ok sa1 =>
                rw [hop] at ha
                dsimp only at ha
                have hdel : sa1.result.NumDiff = sa.result.NumDiff := by
                  have hd := oneSided_delta ctx cfg hv fuel sa (mkA (↑ax) (-1)) sa1
                    (hixOS ax) hop
                  rw [hsap, haxdelta] at hd
                  simpa using hd
                have hsa1p : sa1.curPath = p := by
                  rw [compareAny_pathOK ctx cfg fuel sa _ sa1 hop, hsap]
                obtain ⟨d, hda, hdb⟩ := ih gA (gB + 1) (ax + 1) ay q w editsA sa1 sb sa2 sb2
                  (by omega) hsa1p hsbp (by omega) hayq
                  (fun t h1 h2 => by
                    by_cases ht : t < ax
                    · exact hinvX t h1 ht
                    · have ht2 : t = ax := by omega
                      rw [ht2]; exact hA1)
                  hinvY ha hb
                exact ⟨d, by rw [hda, hdel], hdb⟩
          · by_cases hA2 : ignY.getD ay false = true
            · have hayq2 : ay < q := by
                rcases Nat.lt_or_ge ay q with h | h
                · exact h
                · have hq2 : ay = q := by omega
                  rw [hq2] at hA2
                  exact absurd hA2 hB1
              obtain ⟨haylt, haydelta⟩ := hiy ay hA2
              unfold sliceReplay at ha
              rw [if_pos (show ax < lenX ∨ ay < lenY from Or.inr haylt)] at ha
              rw [if_neg (show ¬ (ignX.getD ax false = true) from hA1)] at ha
              rw [if_pos hA2] at ha
              simp only [Bind.bind, Except.bind] at ha
              cases hop : compareAny ctx cfg fuel sa (mkA (-1) (↑ay)) with
              | error e => rw [hop] at ha; cases ha
              | ok sa1 =>
                  rw [hop] at ha
                  dsimp only at ha
                  have hdel : sa1.result.NumDiff = sa.result.NumDiff := by
                    have hd := oneSided_delta ctx cfg hv fuel sa (mkA (-1) (↑ay)) sa1
                      (hiyOS ay) hop
                    rw [hsap, haydelta] at hd
                    simpa using hd
                  have hsa1p : sa1.curPath = p := by
                    rw [compareAny_pathOK ctx cfg fuel sa _ sa1 hop, hsap]
                  obtain ⟨d, hda, hdb⟩ := ih gA (gB + 1) ax (ay + 1) q w editsA sa1 sb sa2 sb2
                    (by omega) hsa1p hsbp hwax (by omega) hinvX
                    (fun t h1 h2 => hinvY t (by omega) h2)
                    ha hb
                  exact ⟨d, by rw [hda, hdel], hdb⟩
            · have hweq : w = ax := by
                rcases Nat.lt_or_ge w ax with h | h
                · exact absurd ⟨hinvX w le_rfl h, h⟩ hB2
                · omega
              have hayeq : ay = q := by
                rcases Nat.lt_or_ge ay q with h | h
                · exact absurd (hinvY ay le_rfl h) hA2
                · omega
              rw [← hayeq, hweq] at hb
              rw [← hayeq] at hB1
              by_cases hloop : ax < lenX ∨ ay < lenY
              · unfold sliceReplay at ha hb
                rw [if_pos hloop] at ha
                rw [if_pos (show ay < lenY ∨ ax < lenX from hloop.symm)] at hb
                rw [if_neg (show ¬ (ignX.getD ax false = true) from hA1)] at ha
                rw [if_neg (show ¬ (ignY.getD ay false = true) from hA2)] at ha
                rw [if_neg (show ¬ (ignY.getD ay false = true) from hA2)] at hb
                rw [if_neg (show ¬ (ignX.getD ax false = true) from hA1)] at hb
                cases editsA with
                | nil => cases ha
                | cons e restA =>
                    rw [show (e :: restA).map mirrorEdit
                      = mirrorEdit e :: restA.map mirrorEdit from rfl] at hb
                    cases e with
                    | uniqueXE =>
                        simp only [Bind.bind, Except.bind] at ha hb
                        cases hopa : compareAny ctx cfg fuel sa (mkA (↑ax) (-1)) with
                        | error e2 => rw [hopa] at ha; cases ha
                        | ok sa1 =>
                            rw [hopa] at ha
                            dsimp only at ha
                            cases hopb : compareAny ctx cfg fuel sb (mkB (-1) (↑ax)) with
                            | error e2 => rw [hopb] at hb; cases hb
                            | ok sb1 =>
                                rw [hopb] at hb
                                dsimp only at hb
                                have hopb2 : compareAny ctx cfg fuel sb
                                    (mirrorStep (mkA (↑ax) (-1))) = Except.ok sb1 := by
                                  rw [← hmk]; exact hopb
                                obtain ⟨d1, hda1, hdb1⟩ := hm sa sb (mkA (↑ax) (-1)) sa1 sb1
                                  (by rw [hsbp, hsap]) hopa hopb2
                                have hsa1p : sa1.curPath = p := by
                                  rw [compareAny_pathOK ctx cfg fuel sa _ sa1 hopa, hsap]
                                have hsb1p : sb1.curPath = mirrorPath p := by
                                  rw [compareAny_pathOK ctx cfg fuel sb _ sb1 hopb, hsbp]
                                obtain ⟨d2, hda2, hdb2⟩ := ih gA gB (ax + 1) ay ay (ax + 1)
                                  restA sa1 sb1 sa2 sb2 (by omega) hsa1p hsb1p le_rfl le_rfl
                                  (fun t h1 h2 => absurd h2 (by omega))
                                  (fun t h1 h2 => absurd h2 (by omega))
                                  ha hb
                                exact ⟨d1 + d2, by rw [hda2, hda1]; omega,
                                  by rw [hdb2, hdb1]; omega⟩
                    | uniqueYE =>
                        simp only [Bind.bind, Except.bind] at ha hb
                        cases hopa : compareAny ctx cfg fuel sa (mkA (-1) (↑ay)) with
                        | error e2 => rw [hopa] at ha; cases ha
                        | ok sa1 =>
                            rw [hopa] at ha
                            dsimp only at ha
                            cases hopb : compareAny ctx cfg fuel sb (mkB (↑ay) (-1)) with
                            | error e2 => rw [hopb] at hb; cases hb
                            | ok sb1 =>
                                rw [hopb] at hb
                                dsimp only at hb
                                have hopb2 : compareAny ctx cfg fuel sb
                                    (mirrorStep (mkA (-1) (↑ay))) = Except.ok sb1 := by
                                  rw [← hmk]; exact hopb
                                obtain ⟨d1, hda1, hdb1⟩ := hm sa sb (mkA (-1) (↑ay)) sa1 sb1
                                  (by rw [hsbp, hsap]) hopa hopb2
                                have hsa1p : sa1.curPath = p := by
                                  rw [compareAny_pathOK ctx cfg fuel sa _ sa1 hopa, hsap]
                                have hsb1p : sb1.curPath = mirrorPath p := by
                                  rw [compareAny_pathOK ctx cfg fuel sb _ sb1 hopb, hsbp]
                                obtain ⟨d2, hda2, hdb2⟩ := ih gA gB ax (ay + 1) (ay + 1) ax
                                  restA sa1 sb1 sa2 sb2 (by omega) hsa1p hsb1p le_rfl le_rfl
                                  (fun t h1 h2 => absurd h2 (by omega))
                                  (fun t h1 h2 => absurd h2 (by omega))
                                  ha hb
                                exact ⟨d1 + d2, by rw [hda2, hda1]; omega,
                                  by rw [hdb2, hdb1]; omega⟩
                    | identityE =>
                        simp only [Bind.bind, Except.bind] at ha hb
                        cases hopa : compareAny ctx cfg fuel sa (mkA (↑ax) (↑ay)) with
                        | error e2 => rw [hopa] at ha; cases ha
                        | ok sa1 =>
                            rw [hopa] at ha
                            dsimp only at ha
                            cases hopb : compareAny ctx cfg fuel sb (mkB (↑ay) (↑ax)) with
                            | error e2 => rw [hopb] at hb; cases hb
                            | ok sb1 =>
                                rw [hopb] at hb
                                dsimp only at hb
                                have hopb2 : compareAny ctx cfg fuel sb
                                    (mirrorStep (mkA (↑ax) (↑ay))) = Except.ok sb1 := by
                                  rw [← hmk]; exact hopb
                                obtain ⟨d1, hda1, hdb1⟩ := hm sa sb (mkA (↑ax) (↑ay)) sa1 sb1
                                  (by rw [hsbp, hsap]) hopa hopb2
                                have hsa1p : sa1.curPath = p := by
                                  rw [compareAny_pathOK ctx cfg fuel sa _ sa1 hopa, hsap]
                                have hsb1p : sb1.curPath = mirrorPath p := by
                                  rw [compareAny_pathOK ctx cfg fuel sb _ sb1 hopb, hsbp]
                                obtain ⟨d2, hda2, hdb2⟩ := ih gA gB (ax + 1) (ay + 1) (ay + 1)
                                  (ax + 1) restA sa1 sb1 sa2 sb2 (by omega) hsa1p hsb1p
                                  le_rfl le_rfl
                                  (fun t h1 h2 => absurd h2 (by omega))
                                  (fun t h1 h2 => absurd h2 (by omega))
                                  ha hb
                                exact ⟨d1 + d2, by rw [hda2, hda1]; omega,
                                  by rw [hdb2, hdb1]; omega⟩
                    | modifiedE =>
                        simp only [Bind.bind, Except.bind] at ha hb
                        cases hopa : compareAny ctx cfg fuel sa (mkA (↑ax) (↑ay)) with
                        | error e2 => rw [hopa] at ha; cases ha
                        | ok sa1 =>
                            rw [hopa] at ha
                            dsimp only at ha
                            cases hopb : compareAny ctx cfg fuel sb (mkB (↑ay) (↑ax)) with
                            | error e2 => rw [hopb] at hb; cases hb
                            | ok sb1 =>
                                rw [hopb] at hb
                                dsimp only at hb
                                have hopb2 : compareAny ctx cfg fuel sb
                                    (mirrorStep (mkA (↑ax) (↑ay))) = Except.ok sb1 := by
                                  rw [← hmk]; exact hopb
                                obtain ⟨d1, hda1, hdb1⟩ := hm sa sb (mkA (↑ax) (↑ay)) sa1 sb1
                                  (by rw [hsbp, hsap]) hopa hopb2
                                have hsa1p : sa1.curPath = p := by
                                  rw [compareAny_pathOK ctx cfg fuel sa _ sa1 hopa, hsap]
                                have hsb1p : sb1.curPath = mirrorPath p := by
                                  rw [compareAny_pathOK ctx cfg fuel sb _ sb1 hopb, hsbp]
                                obtain ⟨d2, hda2, hdb2⟩ := ih gA gB (ax + 1) (ay + 1) (ay + 1)
                                  (ax + 1) restA sa1 sb1 sa2 sb2 (by omega) hsa1p hsb1p
                                  le_rfl le_rfl
                                  (fun t h1 h2 => absurd h2 (by omega))
                                  (fun t h1 h2 => absurd h2 (by omega))
                                  ha hb
                                exact ⟨d1 + d2, by rw [hda2, hda1]; omega,
                                  by rw [hdb2, hdb1]; omega⟩
              · unfold sliceReplay at ha hb
                rw [if_neg hloop] at ha
                rw [if_neg (show ¬ (ay < lenY ∨ ax < lenX) from fun hh => hloop hh.symm)] at hb
                cases ha; cases hb
                exact ⟨0, rfl, rfl⟩

theorem sliceIgnoreScan_result (r : GoState → Step → M GoState) (pos : Nat → Step) :
    ∀ (l : List Nat) (s : GoState) (out : List Bool × List Nat × GoState),
      sliceIgnoreScan r pos l s = Except.ok out → out.2.2.result = s.result := by
  intro l
  induction l with
  | nil => intro s out h; cases h; rfl
  | cons i rest ih =>
      intro s out h
      simp only [sliceIgnoreScan, Bind.bind, Except.bind] at h
      cases hc : statelessCompare r s (pos i) with
      | error e => rw [hc] at h; cases h
      | ok c =>
          rw [hc] at h
          dsimp only at h
          cases hs : sliceIgnoreScan r pos rest c.2 with
          | error e => rw [hs] at h; cases h
          | ok rr =>
              rw [hs] at h
              dsimp only at h
              cases h
              rw [ih c.2 rr hs, (statelessCompare_frame r s (pos i) c hc).1]

theorem differenceGo_result (f : Nat → Nat → GoState → M (Result × GoState))
    (hf : ∀ a b s out, f a b s = Except.ok out → out.2.result = s.result) :
    ∀ (n : Nat) (lx ly : List Nat) (s : GoState) (out : List EditType × GoState),
      lx.length + ly.length ≤ n →
      differenceGo f lx ly s = Except.ok out → out.2.result = s.result := by
  intro n
  induction n with
  | zero =>
      intro lx ly s out hlen h
      match lx, ly with
      | [], [] => simp only [differenceGo] at h; cases h; rfl
      | [], y :: ys => simp at hlen
      | x :: xs, _ => simp at hlen
  | succ n ih =>
      intro lx ly s out hlen h
      match lx, ly with
      | [], ys => simp only [differenceGo] at h; cases h; rfl
      | x :: xs, [] => simp only [differenceGo] at h; cases h; rfl
      | ix :: xs, iy :: ys =>
          simp only [differenceGo, Bind.bind, Except.bind] at h
          cases hc : f ix iy s with
          | error e => rw [hc] at h; cases h
          | ok c =>
              rw [hc] at h
              dsimp only at h
              have hcr := hf ix iy s c hc
              have hlen2 : xs.length + ys.length ≤ n := by
                simp only [List.length_cons] at hlen; omega
              have hlen3 : xs.length + (iy :: ys).length ≤ n := by
                simp only [List.length_cons] at hlen ⊢; omega
              have hlen4 : (ix :: xs).length + ys.length ≤ n := by
                simp only [List.length_cons] at hlen ⊢; omega
              split at h
              · cases hd : differenceGo f xs ys c.2 with
                | error e => rw [hd] at h; cases h
                | ok rr =>
                    rw [hd] at h; dsimp only at h; cases h
                    rw [ih xs ys c.2 rr hlen2 hd, hcr]
              · split at h
                · cases hd : differenceGo f xs (iy :: ys) c.2 with
                  | error e => rw [hd] at h; cases h
                  | ok rr =>
                      rw [hd] at h; dsimp only at h; cases h
                      rw [ih xs (iy :: ys) c.2 rr hlen3 hd, hcr]
                · split at h
                  · cases hd : differenceGo f (ix :: xs) ys c.2 with
                    | error e => rw [hd] at h; cases h
                    | ok rr =>
                        rw [hd] at h; dsimp only at h; cases h
                        rw [ih (ix :: xs) ys c.2 rr hlen4 hd, hcr]
                  · cases hd : differenceGo f xs ys c.2 with
                    | error e => rw [hd] at h; cases h
                    | ok rr =>
                        rw [hd] at h; dsimp only at h; cases h
                        rw [ih xs ys c.2 rr hlen2 hd, hcr]

theorem sliceStep_oneSided_x (e : Ty) (xs ys : List GoVal) (t : Nat) :
    oneSided (sliceStep e xs ys (Int.ofNat t) (-1)) := Or.inr rfl

theorem sliceStep_oneSided_y (e : Ty) (xs ys : List GoVal) (t : Nat) :
    oneSided (sliceStep e xs ys (-1) (Int.ofNat t)) := Or.inl rfl

theorem slicePair (ctx : Ctx) (cfg : Cfg)
    (hv : ∃ rest2, cfg.opts = CmpOption.validatorO :: rest2)
    (hpath : ∀ pid qq, ctx.funcs.pathPred pid (mirrorPath qq) = ctx.funcs.pathPred pid qq)
    (fuel : Nat) (hm : MirrorOK (compareAny ctx cfg fuel))
    (elemT : Ty) (st : Step) (nx ny : Bool) (lxs lys : List GoVal)
    (hvx : st.vx = GoVal.vSlice nx lxs) (hvy : st.vy = GoVal.vSlice ny lys)
    (sa sb sa2 sb2 : GoState)
    (hmir : sb.curPath = mirrorPath sa.curPath)
    (ha : compareSlice (compareAny ctx cfg fuel) elemT st sa = Except.ok sa2)
    (hb : compareSlice (compareAny ctx cfg fuel) elemT (mirrorStep st) sb = Except.ok sb2) :
    ∃ d, sa2.result.NumDiff = sa.result.NumDiff + d ∧
         sb2.result.NumDiff = sb.result.NumDiff + d := by
  have hp := compareAny_pathOK ctx cfg fuel
  simp only [compareSlice, Bind.bind, Except.bind] at ha hb
  rw [show (mirrorStep st).vx = st.vy from rfl,
      show (mirrorStep st).vy = st.vx from rfl] at hb
  rw [hvx, hvy] at ha hb
  dsimp only at ha hb
  cases hxa : sliceIgnoreScan (compareAny ctx cfg fuel)
      (fun i => sliceStep elemT lxs lys (Int.ofNat i) (-1)) (List.range lxs.length) sa with
  | error e => rw [hxa] at ha; cases ha
  | ok rxa =>
    rw [hxa] at ha
    dsimp only at ha
    cases hya : sliceIgnoreScan (compareAny ctx cfg fuel)
        (fun i => sliceStep elemT lxs lys (-1) (Int.ofNat i)) (List.range lys.length) rxa.2.2 with
    | error e => rw [hya] at ha; cases ha
    | ok rya =>
      rw [hya] at ha
      dsimp only at ha
      cases hda : differenceGo (fun ox oy s => statelessCompare (compareAny ctx cfg fuel) s
          (sliceStep elemT lxs lys (Int.ofNat ox) (Int.ofNat oy))) rxa.2.1 rya.2.1 rya.2.2 with
      | error e => rw [hda] at ha; cases ha
      | ok rda =>
        rw [hda] at ha
        dsimp only at ha
        cases hxb : sliceIgnoreScan (compareAny ctx cfg fuel)
            (fun i => sliceStep elemT lys lxs (Int.ofNat i) (-1)) (List.range lys.length) sb with
        | error e => rw [hxb] at hb; cases hb
        | ok rxb =>
          rw [hxb] at hb
          dsimp only at hb
          cases hyb : sliceIgnoreScan (compareAny ctx cfg fuel)
              (fun i => sliceStep elemT lys lxs (-1) (Int.ofNat i)) (List.range lxs.length) rxb.2.2 with
          | error e => rw [hyb] at hb; cases hb
          | ok ryb =>
            rw [hyb] at hb
            dsimp only at hb
            cases hdb : differenceGo (fun ox oy s => statelessCompare (compareAny ctx cfg fuel) s
                (sliceStep elemT lys lxs (Int.ofNat ox) (Int.ofNat oy))) rxb.2.1 ryb.2.1 ryb.2.2 with
            | error e => rw [hdb] at hb; cases hb
            | ok rdb =>
              rw [hdb] at hb
              dsimp only at hb
              have hpxa : rxa.2.2.curPath = sa.curPath :=
                sliceIgnoreScan_pathOK _ hp _ _ _ _ hxa
              have hpya : rya.2.2.curPath = sa.curPath :=
                (sliceIgnoreScan_pathOK _ hp _ _ _ _ hya).trans hpxa
              have hpda : rda.2.curPath = sa.curPath :=
                (differenceGo_pathOK _
                  (fun a b s out hh => statelessCompare_pathOK _ hp s _ out hh)
                  (rxa.2.1.length + rya.2.1.length) _ _ _ _ le_rfl hda).trans hpya
              have hpxb : rxb.2.2.curPath = sb.curPath :=
                sliceIgnoreScan_pathOK _ hp _ _ _ _ hxb
              have hpyb : ryb.2.2.curPath = sb.curPath :=
                (sliceIgnoreScan_pathOK _ hp _ _ _ _ hyb).trans hpxb
              have hpdb : rdb.2.curPath = sb.curPath :=
                (differenceGo_pathOK _
                  (fun a b s out hh => statelessCompare_pathOK _ hp s _ out hh)
                  (rxb.2.1.length + ryb.2.1.length) _ _ _ _ le_rfl hdb).trans hpyb
              have hsc1 := scanPair (compareAny ctx cfg fuel) hm hp
                (fun i => sliceStep elemT lxs lys (-1) (Int.ofNat i)) (List.range lys.length)
                rxa.2.2 sb rya rxb (by rw [hpxa]; exact hmir) hya
                (show sliceIgnoreScan (compareAny ctx cfg fuel)
                  (fun i => mirrorStep (sliceStep elemT lxs lys (-1) (Int.ofNat i)))
                  (List.range lys.length) sb = Except.ok rxb from hxb)
              have hsc2 := scanPair (compareAny ctx cfg fuel) hm hp
                (fun i => sliceStep elemT lxs lys (Int.ofNat i) (-1)) (List.range lxs.length)
                sa rxb.2.2 rxa ryb (by rw [hpxb]; exact hmir) hxa
                (show sliceIgnoreScan (compareAny ctx cfg fuel)
                  (fun i => mirrorStep (sliceStep elemT lxs lys (Int.ofNat i) (-1)))
                  (List.range lxs.length) rxb.2.2 = Except.ok ryb from hyb)
              rw [← hsc1.2, ← hsc2.2] at hdb
              have hdiff := diffPair (compareAny ctx cfg fuel) hm hp
                (fun ox oy => sliceStep elemT lxs lys (Int.ofNat ox) (Int.ofNat oy))
                (rxa.2.1.length + rya.2.1.length) rxa.2.1 rya.2.1 rya.2.2 ryb.2.2 rda rdb
                le_rfl (by rw [hpyb, hpya]; exact hmir) hda
                (show differenceGo (fun ox oy s => statelessCompare (compareAny ctx cfg fuel) s
                    (mirrorStep (sliceStep elemT lxs lys (Int.ofNat oy) (Int.ofNat ox))))
                  rya.2.1 rxa.2.1 ryb.2.2 = Except.ok rdb from hdb)
              have hcharX := scan_char ctx cfg hv fuel
                (fun i => sliceStep elemT lxs lys (Int.ofNat i) (-1))
                (fun i => sliceStep_oneSided_x elemT lxs lys i)
                (List.range lxs.length) sa rxa hxa
              have hcharY := scan_char ctx cfg hv fuel
                (fun i => sliceStep elemT lxs lys (-1) (Int.ofNat i))
                (fun i => sliceStep_oneSided_y elemT lxs lys i)
                (List.range lys.length) rxa.2.2 rya hya
              rw [hpxa] at hcharY
              have hix : ∀ t : Nat, rxa.1.getD t false = true →
                  t < lxs.length ∧
                  osDelta ctx cfg sa.curPath (sliceStep elemT lxs lys (↑t) (-1)) = 0 := by
                intro t ht
                rw [hcharX, map_range_getD] at ht
                by_cases htn : t < lxs.length
                · rw [if_pos htn] at ht
                  refine ⟨htn, ?_⟩
                  simpa using ht
                · rw [if_neg htn] at ht
                  cases ht
              have hiy : ∀ t : Nat, rya.1.getD t false = true →
                  t < lys.length ∧
                  osDelta ctx cfg sa.curPath (sliceStep elemT lxs lys (-1) (↑t)) = 0 := by
                intro t ht
                rw [hcharY, map_range_getD] at ht
                by_cases htn : t < lys.length
                · rw [if_pos htn] at ht
                  refine ⟨htn, ?_⟩
                  simpa using ht
                · rw [if_neg htn] at ht
                  cases ht
              have hrxa : rxa.2.2.result = sa.result :=
                sliceIgnoreScan_result _ _ _ _ _ hxa
              have hrda : rda.2.result = sa.result := by
                rw [differenceGo_result _
                    (fun a b s out hh => (statelessCompare_frame _ s _ out hh).1)
                    (rxa.2.1.length + rya.2.1.length) _ _ _ _ le_rfl hda,
                  sliceIgnoreScan_result _ _ _ _ _ hya, hrxa]
              have hrxb : rxb.2.2.result = sb.result :=
                sliceIgnoreScan_result _ _ _ _ _ hxb
              have hrdb : rdb.2.result = sb.result := by
                rw [differenceGo_result _
                    (fun a b s out hh => (statelessCompare_frame _ s _ out hh).1)
                    (rya.2.1.length + rxa.2.1.length) _ _ _ _ le_rfl hdb,
                  sliceIgnoreScan_result _ _ _ _ _ hyb, hrxb]
              rw [← hsc1.1, ← hsc2.1, hdiff] at hb
              obtain ⟨d, hda2, hdb2⟩ := replayPair ctx cfg hv hpath fuel hm
                (sliceStep elemT lxs lys) (sliceStep elemT lys lxs)
                (fun i j => rfl)
                rxa.1 rya.1 lxs.length lys.length sa.curPath
                (fun t => sliceStep_oneSided_x elemT lxs lys t)
                (fun t => sliceStep_oneSided_y elemT lxs lys t)
                hix hiy
                ((lxs.length + lys.length + 1) + (lys.length + lxs.length + 1))
                (lxs.length + lys.length + 1) (lys.length + lxs.length + 1)
                0 0 0 0 rda.1 rda.2 rdb.2 sa2 sb2
                le_rfl hpda (by rw [hpdb]; exact hmir) le_rfl le_rfl
                (fun t h1 h2 => absurd h2 (by omega))
                (fun t h1 h2 => absurd h2 (by omega))
                ha hb
              refine ⟨d, ?_, ?_⟩
              · rw [hda2, hrda]
              · rw [hdb2, hrdb]

def goAsSlice : GoVal → Option (Bool × List GoVal)
  | GoVal.vSlice n l => some (n, l)
  | _ => none

def goAsPtr : GoVal → Option Nat
  | GoVal.vPtr a => some a
  | _ => none

def goAsIfc : GoVal → Option (Option (Ty × GoVal))
  | GoVal.vIfaceNil => some none
  | GoVal.vIface t v => some (some (t, v))
  | _ => none

/-- Rule 3 of `compareAny` (the kind dispatch), restated through value
views so that the two sides of a mirrored pair can be analysed without
enumerating constructor combinations. -/
def kindArm (recur : GoState → Step → M GoState) (ctx : Ctx) (cfg : Cfg)
    (st : Step) (s : GoState) : M GoState :=
  match st.typ with
  | Ty.tBool => Except.ok (popStep (reportState s (st.vx.asBool == st.vy.asBool) {}))
  | Ty.tInt => Except.ok (popStep (reportState s (st.vx.asInt == st.vy.asInt) {}))
  | Ty.tStr => Except.ok (popStep (reportState s (st.vx.asStr == st.vy.asStr) {}))
  | Ty.tFunc =>
      Except.ok (popStep (reportState s (st.vx.funcIsNil && st.vy.funcIsNil) {}))
  | Ty.tStruct name => do
      let s2 ← compareStruct recur ctx cfg name st s
      Except.ok (popStep s2)
  | Ty.tSlice e =>
      match goAsSlice st.vx, goAsSlice st.vy with
      | some pr1, some pr2 =>
          if pr1.1 || pr2.1 then Except.ok (popStep (reportState s (pr1.1 && pr2.1) {}))
          else do
            let s2 ← compareSlice recur e st s
            Except.ok (popStep s2)
      | _, _ => Except.ok (popStep (reportState s false {}))
  | Ty.tMap _ e => do
      let s2 ← compareMap recur e st s
      Except.ok (popStep s2)
  | Ty.tPtr e =>
      match goAsPtr st.vx, goAsPtr st.vy with
      | some ax, some ay =>
          if ax == 0 || ay == 0 then
            Except.ok (popStep (reportState s (ax == 0 && ay == 0) {}))
          else do
            let s2 ← recur s { kind := StepKind.indirectK, typ := e, vx := heapGet ctx ax, vy := heapGet ctx ay }
            Except.ok (popStep s2)
      | _, _ => Except.ok (popStep (reportState s false {}))
  | Ty.tIface =>
      match goAsIfc st.vx, goAsIfc st.vy with
      | some none, some none => Except.ok (popStep (reportState s true {}))
      | some (some pr1), some (some pr2) =>
          if pr1.1 ≠ pr2.1 then Except.ok (popStep (reportState s false {}))
          else do
            let s2 ← recur s { kind := StepKind.typeAssertK, typ := pr1.1, vx := pr1.2, vy := pr2.2 }
            Except.ok (popStep s2)
      | _, _ => Except.ok (popStep (reportState s false {}))

theorem compareAnyAux_kindArm (recur : GoState → Step → M GoState) (ctx : Ctx) (cfg : Cfg)
    (s : GoState) (st : Step) :
    compareAnyAux recur ctx cfg s st = (do
      let nxt ← recCheck (pushStep s st).recNext (pushStep s st).curPath
      let p1 ← tryOptions recur ctx cfg st { pushStep s st with recNext := nxt }
      if p1.1 then Except.ok (popStep p1.2)
      else do
        let p2 ← tryMethod ctx st p1.2
        if p2.1 then Except.ok (popStep p2.2)
        else kindArm recur ctx cfg st p2.2) := by
  rcases st with ⟨k, t, vx, vy, u⟩
  cases t <;> first | rfl | (cases vx <;> cases vy <;> rfl)
theorem report_pop_delta (s : GoState) (eq : Bool) :
    (popStep (reportState s eq {})).result.NumDiff =
      s.result.NumDiff + (if eq then 0 else 1) := by
  rw [popStep_result, reportState_numDiff_plain]

theorem beq_comm_lawful {α : Type} [BEq α] [LawfulBEq α] (a b : α) : (a == b) = (b == a) := by
  by_cases h : a = b
  · rw [h]
  · rw [beq_eq_false_iff_ne.mpr h, beq_eq_false_iff_ne.mpr (Ne.symm h)]

theorem goAsSlice_some (v : GoVal) (n : Bool) (l : List GoVal)
    (h : goAsSlice v = some (n, l)) : v = GoVal.vSlice n l := by
  cases v <;> cases h <;> rfl

theorem kindArmPair (ctx : Ctx) (cfg : Cfg) (hsym : SymTTB ctx)
    (hpath : ∀ pid qq, ctx.funcs.pathPred pid (mirrorPath qq) = ctx.funcs.pathPred pid qq)
    (hv : ∃ rest2, cfg.opts = CmpOption.validatorO :: rest2)
    (fuel : Nat) (hm : MirrorOK (compareAny ctx cfg fuel))
    (st : Step) (sa sb sa2 sb2 : GoState)
    (hmir : sb.curPath = mirrorPath sa.curPath)
    (ha : kindArm (compareAny ctx cfg fuel) ctx cfg st sa = Except.ok sa2)
    (hb : kindArm (compareAny ctx cfg fuel) ctx cfg (mirrorStep st) sb = Except.ok sb2) :
    ∃ d, sa2.result.NumDiff = sa.result.NumDiff + d ∧
         sb2.result.NumDiff = sb.result.NumDiff + d := by
  have hp := compareAny_pathOK ctx cfg fuel
  unfold kindArm at ha hb
  rw [show (mirrorStep st).typ = st.typ from rfl] at hb
  cases hty : st.typ with
  | tBool =>
      rw [hty] at ha hb
      try dsimp only at ha hb
      cases ha; cases hb
      refine ⟨if st.vx.asBool == st.vy.asBool then 0 else 1, ?_, ?_⟩
      · rw [report_pop_delta]
      · rw [report_pop_delta]
        exact congrArg (sb.result.NumDiff + ·)
          (ite01_congr (show ((mirrorStep st).vx.asBool == (mirrorStep st).vy.asBool)
            = (st.vx.asBool == st.vy.asBool) from beq_comm_lawful st.vy.asBool st.vx.asBool) 0 1)
  | tInt =>
      rw [hty] at ha hb
      try dsimp only at ha hb
      cases ha; cases hb
      refine ⟨if st.vx.asInt == st.vy.asInt then 0 else 1, ?_, ?_⟩
      · rw [report_pop_delta]
      · rw [report_pop_delta]
        exact congrArg (sb.result.NumDiff + ·)
          (ite01_congr (show ((mirrorStep st).vx.asInt == (mirrorStep st).vy.asInt)
            = (st.vx.asInt == st.vy.asInt) from beq_comm_lawful st.vy.asInt st.vx.asInt) 0 1)
  | tStr =>
      rw [hty] at ha hb
      try dsimp only at ha hb
      cases ha; cases hb
      refine ⟨if st.vx.asStr == st.vy.asStr then 0 else 1, ?_, ?_⟩
      · rw [report_pop_delta]
      · rw [report_pop_delta]
        exact congrArg (sb.result.NumDiff + ·)
          (ite01_congr (show ((mirrorStep st).vx.asStr == (mirrorStep st).vy.asStr)
            = (st.vx.asStr == st.vy.asStr) from beq_comm_lawful st.vy.asStr st.vx.asStr) 0 1)
  | tFunc =>
      rw [hty] at ha hb
      try dsimp only at ha hb
      cases ha; cases hb
      refine ⟨if st.vx.funcIsNil && st.vy.funcIsNil then 0 else 1, ?_, ?_⟩
      · rw [report_pop_delta]
      · rw [report_pop_delta]
        exact congrArg (sb.result.NumDiff + ·)
          (ite01_congr (show ((mirrorStep st).vx.funcIsNil && (mirrorStep st).vy.funcIsNil)
            = (st.vx.funcIsNil && st.vy.funcIsNil)
            from Bool.and_comm st.vy.funcIsNil st.vx.funcIsNil) 0 1)
  | tStruct name =>
      rw [hty] at ha hb
      try dsimp only at ha hb
      simp only [Bind.bind, Except.bind] at ha hb
      cases hca : compareStruct (compareAny ctx cfg fuel) ctx cfg name st sa with
      | error e => rw [hca] at ha; cases ha
      | ok s1 =>
          rw [hca] at ha
          dsimp only at ha
          cases hcb : compareStruct (compareAny ctx cfg fuel) ctx cfg name (mirrorStep st) sb with
          | error e => rw [hcb] at hb; cases hb
          | ok s2 =>
              rw [hcb] at hb
              dsimp only at hb
              cases ha; cases hb
              obtain ⟨d, h1, h2⟩ := structFieldsPair (compareAny ctx cfg fuel) hm hp cfg name
                st.vx.structFields st.vy.structFields (ctx.structFields name) 0 sa sb s1 s2 hmir
                hca
                (show compareStructFields (compareAny ctx cfg fuel) cfg name
                  st.vy.structFields st.vx.structFields 0 (ctx.structFields name) sb
                  = Except.ok s2 from hcb)
              refine ⟨d, ?_, ?_⟩
              · rw [popStep_result]; exact h1
              · rw [popStep_result]; exact h2
  | tMap kt e =>
      rw [hty] at ha hb
      try dsimp only at ha hb
      simp only [Bind.bind, Except.bind] at ha hb
      cases hca : compareMap (compareAny ctx cfg fuel) e st sa with
      | error e2 => rw [hca] at ha; cases ha
      | ok s1 =>
          rw [hca] at ha
          dsimp only at ha
          cases hcb : compareMap (compareAny ctx cfg fuel) e (mirrorStep st) sb with
          | error e2 => rw [hcb] at hb; cases hb
          | ok s2 =>
              rw [hcb] at hb
              dsimp only at hb
              cases ha; cases hb
              obtain ⟨d, h1, h2⟩ := mapPair (compareAny ctx cfg fuel) hm hp e st sa sb s1 s2
                hmir hca hcb
              refine ⟨d, ?_, ?_⟩
              · rw [popStep_result]; exact h1
              · rw [popStep_result]; exact h2
  | tSlice e =>
      rw [hty] at ha hb
      try dsimp only at ha hb
      rw [show goAsSlice (mirrorStep st).vx = goAsSlice st.vy from rfl,
          show goAsSlice (mirrorStep st).vy = goAsSlice st.vx from rfl] at hb
      cases hgx : goAsSlice st.vx with
      | none =>
          rw [hgx] at ha hb
          cases hgy : goAsSlice st.vy with
          | none =>
              rw [hgy] at ha hb
              try dsimp only at ha hb
              cases ha; cases hb
              refine ⟨1, ?_, ?_⟩ <;> (rw [report_pop_delta]; rfl)
          | some pr2 =>
              rw [hgy] at ha hb
              try dsimp only at ha hb
              cases ha; cases hb
              refine ⟨1, ?_, ?_⟩ <;> (rw [report_pop_delta]; rfl)
      | some pr1 =>
          rw [hgx] at ha hb
          cases hgy : goAsSlice st.vy with
          | none =>
              rw [hgy] at ha hb
              try dsimp only at ha hb
              cases ha; cases hb
              refine ⟨1, ?_, ?_⟩ <;> (rw [report_pop_delta]; rfl)
          | some pr2 =>
              rw [hgy] at ha hb
              try dsimp only at ha hb
              by_cases hnil : (pr1.1 || pr2.1) = true
              · rw [if_pos hnil] at ha
                rw [if_pos (show (pr2.1 || pr1.1) = true from by
                  rw [Bool.or_comm]; exact hnil)] at hb
                cases ha; cases hb
                refine ⟨if pr1.1 && pr2.1 then 0 else 1, ?_, ?_⟩
                · rw [report_pop_delta]
                · rw [report_pop_delta]
                  exact congrArg (sb.result.NumDiff + ·)
                    (ite01_congr (Bool.and_comm pr2.1 pr1.1) 0 1)
              · rw [if_neg hnil] at ha
                rw [if_neg (show ¬ ((pr2.1 || pr1.1) = true) from by
                  rw [Bool.or_comm]; exact hnil)] at hb
                simp only [Bind.bind, Except.bind] at ha hb
                cases hca : compareSlice (compareAny ctx cfg fuel) e st sa with
                | error e2 => rw [hca] at ha; cases ha
                | ok s1 =>
                    rw [hca] at ha
                    dsimp only at ha
                    cases hcb : compareSlice (compareAny ctx cfg fuel) e (mirrorStep st) sb with
                    | error e2 => rw [hcb] at hb; cases hb
                    | ok s2 =>
                        rw [hcb] at hb
                        dsimp only at hb
                        cases ha; cases hb
                        obtain ⟨d, h1, h2⟩ := slicePair ctx cfg hv hpath fuel hm e st
                          pr1.1 pr2.1 pr1.2 pr2.2
                          (goAsSlice_some st.vx pr1.1 pr1.2 (by rw [hgx]))
                          (goAsSlice_some st.vy pr2.1 pr2.2 (by rw [hgy]))
                          sa sb s1 s2 hmir hca hcb
                        refine ⟨d, ?_, ?_⟩
                        · rw [popStep_result]; exact h1
                        · rw [popStep_result]; exact h2
  | tPtr e =>
      rw [hty] at ha hb
      try dsimp only at ha hb
      rw [show goAsPtr (mirrorStep st).vx = goAsPtr st.vy from rfl,
          show goAsPtr (mirrorStep st).vy = goAsPtr st.vx from rfl] at hb
      cases hgx : goAsPtr st.vx with
      | none =>
          rw [hgx] at ha hb
          cases hgy : goAsPtr st.vy with
          | none =>
              rw [hgy] at ha hb
              try dsimp only at ha hb
              cases ha; cases hb
              refine ⟨1, ?_, ?_⟩ <;> (rw [report_pop_delta]; rfl)
          | some ay =>
              rw [hgy] at ha hb
              try dsimp only at ha hb
              cases ha; cases hb
              refine ⟨1, ?_, ?_⟩ <;> (rw [report_pop_delta]; rfl)
      | some ax =>
          rw [hgx] at ha hb
          cases hgy : goAsPtr st.vy with
          | none =>
              rw [hgy] at ha hb
              try dsimp only at ha hb
              cases ha; cases hb
              refine ⟨1, ?_, ?_⟩ <;> (rw [report_pop_delta]; rfl)
          | some ay =>
              rw [hgy] at ha hb
              try dsimp only at ha hb
              by_cases hz : (ax == 0 || ay == 0) = true
              · rw [if_pos hz] at ha
                rw [if_pos (show (ay == 0 || ax == 0) = true from by
                  rw [Bool.or_comm]; exact hz)] at hb
                cases ha; cases hb
                refine ⟨if ax == 0 && ay == 0 then 0 else 1, ?_, ?_⟩
                · rw [report_pop_delta]
                · rw [report_pop_delta]
                  exact congrArg (sb.result.NumDiff + ·)
                    (ite01_congr (Bool.and_comm (ay == 0) (ax == 0)) 0 1)
              · rw [if_neg hz] at ha
                rw [if_neg (show ¬ ((ay == 0 || ax == 0) = true) from by
                  rw [Bool.or_comm]; exact hz)] at hb
                simp only [Bind.bind, Except.bind] at ha hb
                cases hca : compareAny ctx cfg fuel sa { kind := StepKind.indirectK, typ := e, vx := heapGet ctx ax, vy := heapGet ctx ay } with
                | error e2 => rw [hca] at ha; cases ha
                | ok s1 =>
                    rw [hca] at ha
                    dsimp only at ha
                    cases hcb : compareAny ctx cfg fuel sb { kind := StepKind.indirectK, typ := e, vx := heapGet ctx ay, vy := heapGet ctx ax } with
                    | error e2 => rw [hcb] at hb; cases hb
                    | ok s2 =>
                        rw [hcb] at hb
                        dsimp only at hb
                        cases ha; cases hb
                        obtain ⟨d, h1, h2⟩ := hm sa sb
                          { kind := StepKind.indirectK, typ := e, vx := heapGet ctx ax, vy := heapGet ctx ay }
                          s1 s2 hmir hca hcb
                        refine ⟨d, ?_, ?_⟩
                        · rw [popStep_result]; exact h1
                        · rw [popStep_result]; exact h2
  | tIface =>
      rw [hty] at ha hb
      try dsimp only at ha hb
      rw [show goAsIfc (mirrorStep st).vx = goAsIfc st.vy from rfl,
          show goAsIfc (mirrorStep st).vy = goAsIfc st.vx from rfl] at hb
      cases hgx : goAsIfc st.vx with
      | none =>
          rw [hgx] at ha hb
          cases hgy : goAsIfc st.vy with
          | none =>
              rw [hgy] at ha hb
              try dsimp only at ha hb
              cases ha; cases hb
              refine ⟨1, ?_, ?_⟩ <;> (rw [report_pop_delta]; rfl)
          | some o2 =>
              rw [hgy] at ha hb
              cases o2 with
              | none =>
                  try dsimp only at ha hb
                  cases ha; cases hb
                  refine ⟨1, ?_, ?_⟩ <;> (rw [report_pop_delta]; rfl)
              | some pr2 =>
                  try dsimp only at ha hb
                  cases ha; cases hb
                  refine ⟨1, ?_, ?_⟩ <;> (rw [report_pop_delta]; rfl)
      | some o1 =>
          rw [hgx] at ha hb
          cases hgy : goAsIfc st.vy with
          | none =>
              rw [hgy] at ha hb
              cases o1 with
              | none =>
                  try dsimp only at ha hb
                  cases ha; cases hb
                  refine ⟨1, ?_, ?_⟩ <;> (rw [report_pop_delta]; rfl)
              | some pr1 =>
                  try dsimp only at ha hb
                  cases ha; cases hb
                  refine ⟨1, ?_, ?_⟩ <;> (rw [report_pop_delta]; rfl)
          | some o2 =>
              rw [hgy] at ha hb
              cases o1 with
              | none =>
                  cases o2 with
                  | none =>
                      try dsimp only at ha hb
                      cases ha; cases hb
                      refine ⟨0, ?_, ?_⟩ <;> (rw [report_pop_delta]; rfl)
                  | some pr2 =>
                      try dsimp only at ha hb
                      cases ha; cases hb
                      refine ⟨1, ?_, ?_⟩ <;> (rw [report_pop_delta]; rfl)
              | some pr1 =>
                  cases o2 with
                  | none =>
                      try dsimp only at ha hb
                      cases ha; cases hb
                      refine ⟨1, ?_, ?_⟩ <;> (rw [report_pop_delta]; rfl)
                  | some pr2 =>
                      try dsimp only at ha hb
                      by_cases hteq : pr1.1 = pr2.1
                      · rw [if_neg (show ¬ (pr1.1 ≠ pr2.1) from fun hh => hh hteq)] at ha
                        rw [if_neg (show ¬ (pr2.1 ≠ pr1.1) from fun hh => hh hteq.symm)] at hb
                        simp only [Bind.bind, Except.bind] at ha hb
                        cases hca : compareAny ctx cfg fuel sa { kind := StepKind.typeAssertK, typ := pr1.1, vx := pr1.2, vy := pr2.2 } with
                        | error e2 => rw [hca] at ha; cases ha
                        | ok s1 =>
                            rw [hca] at ha
                            dsimp only at ha
                            cases hcb : compareAny ctx cfg fuel sb { kind := StepKind.typeAssertK, typ := pr2.1, vx := pr2.2, vy := pr1.2 } with
                            | error e2 => rw [hcb] at hb; cases hb
                            | ok s2 =>
                                rw [hcb] at hb
                                dsimp only at hb
                                cases ha; cases hb
                                obtain ⟨d, h1, h2⟩ := hm sa sb
                                  { kind := StepKind.typeAssertK, typ := pr1.1, vx := pr1.2, vy := pr2.2 }
                                  s1 s2 hmir hca
                                  (by
                                    rw [show mirrorStep { kind := StepKind.typeAssertK, typ := pr1.1, vx := pr1.2, vy := pr2.2 }
                                      = { kind := StepKind.typeAssertK, typ := pr1.1, vx := pr2.2, vy := pr1.2 } from rfl]
                                    rw [hteq]
                                    exact hcb)
                                refine ⟨d, ?_, ?_⟩
                                · rw [popStep_result]; exact h1
                                · rw [popStep_result]; exact h2
                      · rw [if_pos (show pr1.1 ≠ pr2.1 from hteq)] at ha
                        rw [if_pos (show pr2.1 ≠ pr1.1 from fun hh => hteq hh.symm)] at hb
                        cases ha; cases hb
                        refine ⟨1, ?_, ?_⟩ <;> (rw [report_pop_delta]; rfl)

theorem auxPair (ctx : Ctx) (cfg : Cfg) (hsym : SymTTB ctx)
    (hpath : ∀ pid qq, ctx.funcs.pathPred pid (mirrorPath qq) = ctx.funcs.pathPred pid qq)
    (hv : ∃ rest2, cfg.opts = CmpOption.validatorO :: rest2)
    (fuel : Nat) (hm : MirrorOK (compareAny ctx cfg fuel)) :
    MirrorOK (compareAnyAux (compareAny ctx cfg fuel) ctx cfg) := by
  intro sa sb st sa2 sb2 hmir ha hb
  have hp := compareAny_pathOK ctx cfg fuel
  rw [compareAnyAux_kindArm] at ha hb
  simp only [Bind.bind, Except.bind] at ha hb
  cases hrca : recCheck (pushStep sa st).recNext (pushStep sa st).curPath with
  | error e => rw [hrca] at ha; cases ha
  | ok nxta =>
    rw [hrca] at ha
    dsimp only at ha
    cases hrcb : recCheck (pushStep sb (mirrorStep st)).recNext
        (pushStep sb (mirrorStep st)).curPath with
    | error e => rw [hrcb] at hb; cases hb
    | ok nxtb =>
      rw [hrcb] at hb
      dsimp only at hb
      have hmir2 : ({ pushStep sb (mirrorStep st) with recNext := nxtb } : GoState).curPath =
          mirrorPath ({ pushStep sa st with recNext := nxta } : GoState).curPath := by
        show sb.curPath ++ [mirrorStep st] = mirrorPath (sa.curPath ++ [st])
        rw [mirrorPath_append, hmir]
      cases h1a : tryOptions (compareAny ctx cfg fuel) ctx cfg st
          { pushStep sa st with recNext := nxta } with
      | error e => rw [h1a] at ha; cases ha
      | ok p1a =>
        rw [h1a] at ha
        dsimp only at ha
        cases h1b : tryOptions (compareAny ctx cfg fuel) ctx cfg (mirrorStep st)
            { pushStep sb (mirrorStep st) with recNext := nxtb } with
        | error e => rw [h1b] at hb; cases hb
        | ok p1b =>
          rw [h1b] at hb
          dsimp only at hb
          obtain ⟨hhe, d1, hd1a, hd1b⟩ := tryOptionsPair ctx cfg hsym hpath
            (compareAny ctx cfg fuel) hm hp st _ _ p1a p1b hmir2 h1a h1b
          have hpm1 : p1b.2.curPath = mirrorPath p1a.2.curPath := by
            rw [tryOptions_pathOK _ hp _ _ _ _ _ h1a,
                tryOptions_pathOK _ hp _ _ _ _ _ h1b]
            exact hmir2
          rw [← hhe] at hb
          by_cases hh : p1a.1 = true
          · rw [hh, if_pos rfl] at ha hb
            cases ha; cases hb
            refine ⟨d1, ?_, ?_⟩
            · rw [popStep_result, hd1a]; rfl
            · rw [popStep_result, hd1b]; rfl
          · rw [Bool.eq_false_iff.mpr hh] at ha hb
            rw [if_neg (by decide : ¬ (false = true))] at ha hb
            cases h2a : tryMethod ctx st p1a.2 with
            | error e => rw [h2a] at ha; cases ha
            | ok p2a =>
              rw [h2a] at ha
              dsimp only at ha
              cases h2b : tryMethod ctx (mirrorStep st) p1b.2 with
              | error e => rw [h2b] at hb; cases hb
              | ok p2b =>
                rw [h2b] at hb
                dsimp only at hb
                obtain ⟨hhe2, d2, hd2a, hd2b⟩ :=
                  methodPair ctx hsym st p1a.2 p1b.2 p2a p2b h2a h2b
                have hpm2 : p2b.2.curPath = mirrorPath p2a.2.curPath := by
                  rw [tryMethod_pathOK _ _ _ _ h2a, tryMethod_pathOK _ _ _ _ h2b]
                  exact hpm1
                rw [← hhe2] at hb
                by_cases hh2 : p2a.1 = true
                · rw [hh2, if_pos rfl] at ha hb
                  cases ha; cases hb
                  refine ⟨d1 + d2, ?_, ?_⟩
                  · rw [popStep_result, hd2a, hd1a]
                    show sa.result.NumDiff + d1 + d2 = sa.result.NumDiff + (d1 + d2)
                    omega
                  · rw [popStep_result, hd2b, hd1b]
                    show sb.result.NumDiff + d1 + d2 = sb.result.NumDiff + (d1 + d2)
                    omega
                · rw [Bool.eq_false_iff.mpr hh2] at ha hb
                  rw [if_neg (by decide : ¬ (false = true))] at ha hb
                  obtain ⟨d3, hd3a, hd3b⟩ := kindArmPair ctx cfg hsym hpath hv fuel hm
                    st p2a.2 p2b.2 sa2 sb2 hpm2 ha hb
                  refine ⟨d1 + d2 + d3, ?_, ?_⟩
                  · rw [hd3a, hd2a, hd1a]
                    show sa.result.NumDiff + d1 + d2 + d3
                      = sa.result.NumDiff + (d1 + d2 + d3)
                    omega
                  · rw [hd3b, hd2b, hd1b]
                    show sb.result.NumDiff + d1 + d2 + d3
                      = sb.result.NumDiff + (d1 + d2 + d3)
                    omega

theorem mirror_compareAny (ctx : Ctx) (cfg : Cfg) (hsym : SymTTB ctx)
    (hpath : ∀ pid qq, ctx.funcs.pathPred pid (mirrorPath qq) = ctx.funcs.pathPred pid qq)
    (hv : ∃ rest2, cfg.opts = CmpOption.validatorO :: rest2) :
    ∀ fuel, MirrorOK (compareAny ctx cfg fuel) := by
  intro fuel
  induction fuel with
  | zero =>
      intro sa sb st sa2 sb2 hmir ha hb
      cases ha
  | succ n ihn => exact auxPair ctx cfg hsym hpath hv n ihn

theorem mkRootInput_mirror (x y : Option (Ty × GoVal)) :
    (mkRootInput y x).1 = (mkRootInput x y).1 ∧
    (mkRootInput y x).2.1 = (mkRootInput x y).2.2 ∧
    (mkRootInput y x).2.2 = (mkRootInput x y).2.1 := by
  match x, y with
  | some pr1, some pr2 =>
      obtain ⟨tx, vx⟩ := pr1
      obtain ⟨ty, vy⟩ := pr2
      unfold mkRootInput
      dsimp only
      by_cases h : tx = ty
      · subst h
        rw [if_pos rfl, if_pos rfl]
        exact ⟨rfl, rfl, rfl⟩
      · rw [if_neg h, if_neg (fun hh => h hh.symm)]
        exact ⟨rfl, rfl, rfl⟩
  | some pr1, none => exact ⟨rfl, rfl, rfl⟩
  | none, some pr2 => exact ⟨rfl, rfl, rfl⟩
  | none, none => exact ⟨rfl, rfl, rfl⟩

/-! ## C8 -/

/-- C8: for all values x and y and every option list containing no
asymmetric user-supplied functions — every registered `func(T, T) bool`
(comparer, values filter or `Equal` method) is symmetric and every path
filter is insensitive to swapping the two sides of each step —
`Equal(x, y, opts)` returns the same boolean as `Equal(y, x, opts)`
whenever both calls return.  The second run is the step-by-step mirror
of the first: the roots are mirrored (`mkRootInput` swaps sides up to
the same interface wrapping), and mirrored runs report the same number
of differences. -/
theorem C8_equal_symmetric (ctx : Ctx) (opts : List InOption) (fuel : Nat)
    (x y : Option (Ty × GoVal)) (b b2 : Bool)
    (hsym : ∀ fid u v, ctx.funcs.ttb fid u v = ctx.funcs.ttb fid v u)
    (hpath : ∀ pid q, ctx.funcs.pathPred pid (mirrorPath q) = ctx.funcs.pathPred pid q)
    (h1 : EqualGo ctx opts fuel x y = Except.ok b)
    (h2 : EqualGo ctx opts fuel y x = Except.ok b2) :
    b = b2 := by
  simp only [EqualGo, runEngine, Bind.bind, Except.bind] at h1 h2
  cases hcfg : newStateCfg ctx.funcs.fname opts with
  | error e => rw [hcfg] at h1; cases h1
  | ok cfg =>
      rw [hcfg] at h1 h2
      dsimp only at h1 h2
      have hv : ∃ rest2, cfg.opts = CmpOption.validatorO :: rest2 :=
        processOptions_head ctx.funcs.fname opts {} cfg hcfg ⟨[], rfl⟩
      obtain ⟨hr1, hr2, hr3⟩ := mkRootInput_mirror x y
      cases hra : compareAny ctx cfg fuel {} { kind := StepKind.rootK, typ := (mkRootInput x y).1, vx := (mkRootInput x y).2.1, vy := (mkRootInput x y).2.2 } with
      | error e => rw [hra] at h1; cases h1
      | ok sA =>
          rw [hra] at h1
          dsimp only at h1
          cases h1
          cases hrb : compareAny ctx cfg fuel {} { kind := StepKind.rootK, typ := (mkRootInput y x).1, vx := (mkRootInput y x).2.1, vy := (mkRootInput y x).2.2 } with
          | error e => rw [hrb] at h2; cases h2
          | ok sB =>
              rw [hrb] at h2
              dsimp only at h2
              cases h2
              have hstep : ({ kind := StepKind.rootK, typ := (mkRootInput y x).1, vx := (mkRootInput y x).2.1, vy := (mkRootInput y x).2.2 } : Step)
                  = mirrorStep { kind := StepKind.rootK, typ := (mkRootInput x y).1, vx := (mkRootInput x y).2.1, vy := (mkRootInput x y).2.2 } := by
                rw [show mirrorStep { kind := StepKind.rootK, typ := (mkRootInput x y).1, vx := (mkRootInput x y).2.1, vy := (mkRootInput x y).2.2 }
                  = { kind := StepKind.rootK, typ := (mkRootInput x y).1, vx := (mkRootInput x y).2.2, vy := (mkRootInput x y).2.1 } from rfl]
                rw [hr1, hr2, hr3]
              rw [hstep] at hrb
              obtain ⟨d, hda, hdb⟩ := mirror_compareAny ctx cfg hsym hpath hv fuel
                {} {} _ sA sB rfl hra hrb
              show sA.result.IsEqual = sB.result.IsEqual
              unfold Result.IsEqual
              rw [hda, hdb]

/-- Witness for C8: comparing 1 with 2 (default options, the built-in
symmetric environment) yields `false` in both argument orders, and the
theorem applied at this input confirms the two verdicts coincide. -/
theorem C8_witness :
    EqualGo exCtx [] 2 (some (Ty.tInt, GoVal.vInt 1)) (some (Ty.tInt, GoVal.vInt 2)) =
      Except.ok false ∧
    EqualGo exCtx [] 2 (some (Ty.tInt, GoVal.vInt 2)) (some (Ty.tInt, GoVal.vInt 1)) =
      Except.ok false ∧
    false = false :=
  ⟨rfl, rfl,
    C8_equal_symmetric exCtx [] 2 (some (Ty.tInt, GoVal.vInt 1))
      (some (Ty.tInt, GoVal.vInt 2)) false false
      (fun fid u v => rfl) (fun pid q => rfl) rfl rfl⟩

end GoCmp
